import Mathlib

/-!
Shallow embedding of the progression engine of `pqcli` (file
`src/pqcli/mechanic.py`).  Pure data is translated to Lean structures,
stateful methods to explicit state-passing functions, Python `float`s to
rationals, Python `int`s to `Int` (with `Int.fdiv` for Python's floor
division `//`), and fallible operations (Python exceptions) to `Option`.

The repository's `pqcli.random`, `pqcli.config` and `pqcli.lingo` modules
are not part of the sources; where `mechanic.py` depends on them they are
modelled from the spec (see the doc comments marked `Modelled from the
spec:`).  In particular the random generator is a single explicit,
injectable, seedable deterministic stream, and the content tables are an
abstract `Config` the engine is parameterised over.
-/

namespace PQ

/-- Modelled from the spec: the repository's `pqcli.random` module (not under
`src/`) is "a single seedable generator" that must be "an explicit,
injectable dependency".  We model the generator as a deterministic stream of
raw natural draws together with a cursor. -/
structure Rng where
  stream : Nat → Nat
  idx : Nat

def Rng.draw (g : Rng) : Nat :=
  g.stream g.idx

def Rng.next (g : Rng) : Rng :=
  ⟨g.stream, g.idx + 1⟩

/-- Modelled from the spec: `random.below(n)` draws uniformly in `[0, n)`;
an empty range (`n ≤ 0`) is a failure, like Python's `randrange`. -/
def below (n : Int) (g : Rng) : Option (Int × Rng) :=
  if 0 < n then some ((g.draw % n.toNat : Nat), g.next) else none

/-- Modelled from the spec: `random.odds(a, b)` succeeds with probability
`a/b` (a uniform draw below `b` compared against `a`). -/
def odds (a b : Int) (g : Rng) : Option (Bool × Rng) := do
  let (t, g) ← below b g
  pure (decide (t < a), g)

/-- Modelled from the spec: `random.choice(xs)` picks a uniformly random
element; on an empty sequence it fails like Python. -/
def choice {α : Type} (xs : List α) (g : Rng) : Option (α × Rng) :=
  if h : 0 < xs.length then some (xs.get ⟨g.draw % xs.length, Nat.mod_lt _ h⟩, g.next)
  else none

/-- Modelled from the spec: `random.below_low(n)` is a low-biased draw in
`[0, n)`; any reproducibly low-biased sampler is acceptable, so we take the
minimum of two uniform draws. -/
def below_low (n : Int) (g : Rng) : Option (Int × Rng) := do
  let (a, g) ← below n g
  let (b, g) ← below n g
  pure (min a b, g)

/-- Modelled from the spec: `random.choice_low(xs)` picks an element at a
low-biased random index. -/
def choice_low {α : Type} (xs : List α) (g : Rng) : Option (α × Rng) := do
  let (i, g) ← below_low xs.length g
  if h : i.toNat < xs.length then pure (xs.get ⟨i.toNat, h⟩, g) else none

/-- `level_up_time` from `mechanic.py`: seconds until the next level. -/
def level_up_time (level : Int) : Int :=
  20 * level * 60

/-- The `Bar` class: a bounded accumulator.  `position` is a Python float
(here `ℚ`), `max_` keeps the class's field name. -/
structure Bar where
  position : ℚ
  max_ : ℚ
  deriving DecidableEq

/-- `Bar.__init__(max_, position=0.0)`. -/
def Bar.make (max_ : ℚ) (position : ℚ := 0) : Bar :=
  ⟨position, max_⟩

/-- `Bar.reset(new_max, position=0.0)`: replaces both fields unconditionally. -/
def Bar.reset (b : Bar) (new_max : ℚ) (position : ℚ := 0) : Bar :=
  ⟨position, new_max⟩

/-- `Bar.reposition(new_pos)`: clamps to `max_` from above only. -/
def Bar.reposition (b : Bar) (new_pos : ℚ) : Bar :=
  ⟨min new_pos b.max_, b.max_⟩

/-- `Bar.increment(inc)`. -/
def Bar.increment (b : Bar) (inc : ℚ) : Bar :=
  b.reposition (b.position + inc)

/-- `Bar.done`: `position >= max_`. -/
def Bar.done (b : Bar) : Bool :=
  decide (b.max_ ≤ b.position)

@[simp] theorem Bar.reset_position (b : Bar) (m p : ℚ) : (b.reset m p).position = p := rfl

@[simp] theorem Bar.reset_max (b : Bar) (m p : ℚ) : (b.reset m p).max_ = m := rfl

@[simp] theorem Bar.increment_max (b : Bar) (q : ℚ) : (b.increment q).max_ = b.max_ := rfl

@[simp] theorem Bar.reposition_max (b : Bar) (q : ℚ) : (b.reposition q).max_ = b.max_ := rfl

/-- The `InventoryItem` dataclass. -/
structure InventoryItem where
  name : String
  quantity : Int
  deriving DecidableEq

/-- The `Inventory` class.  `_gold` and `_items` keep their roles; the
encumbrance bar mirrors the class's `encum_bar` field. -/
structure Inventory where
  gold : Int
  items : List InventoryItem
  encum_bar : Bar
  deriving DecidableEq

/-- `Inventory.__init__(capacity=0)`. -/
def Inventory.make (capacity : ℚ := 0) : Inventory :=
  ⟨0, [], Bar.make capacity⟩

/-- The sum of all item quantities, as computed by `sync_encumbrance`. -/
def Inventory.sumQty (inv : Inventory) : Int :=
  (inv.items.map InventoryItem.quantity).sum

/-- `Inventory.sync_encumbrance`: repositions the encumbrance bar at the sum
of quantities (hence clamped to the bar's max). -/
def Inventory.sync_encumbrance (inv : Inventory) : Inventory :=
  { inv with encum_bar := inv.encum_bar.reposition inv.sumQty }

/-- `Inventory.add_gold(quantity)`: no floor check, gold may go negative. -/
def Inventory.add_gold (inv : Inventory) (quantity : Int) : Inventory :=
  { inv with gold := inv.gold + quantity }

/-- Merge-or-append of `Inventory.add(item_name, quantity)` on the raw list:
the first item with a matching name absorbs the quantity, otherwise a new
item is appended. -/
def addItem (items : List InventoryItem) (item_name : String) (quantity : Int) :
    List InventoryItem :=
  match items with
  | [] => [⟨item_name, quantity⟩]
  | it :: rest =>
    if it.name = item_name then { it with quantity := it.quantity + quantity } :: rest
    else it :: addItem rest item_name quantity

/-- `Inventory.add(item_name, quantity)`: merge-or-append, then
`sync_encumbrance`. -/
def Inventory.add (inv : Inventory) (item_name : String) (quantity : Int) : Inventory :=
  Inventory.sync_encumbrance { inv with items := addItem inv.items item_name quantity }

/-- Python sequence-index normalisation (negative indices count from the
end); `none` exactly when the index is out of range. -/
def normIdx (n : Nat) (i : Int) : Option Nat :=
  if 0 ≤ i then (if i < (n : Int) then some i.toNat else none)
  else (if -(n : Int) ≤ i then some (i + n).toNat else none)

/-- `Inventory.pop(index)`: looks the item up (raising `IndexError` when the
index is out of range, modelled as `none`), removes it, resyncs the
encumbrance bar and emits `item_del` with the removed item.  The triple
returned is (the function's Python return value, which is `None` — the
method is annotated `-> None` and has no return statement —, the item
emitted with the `item_del` signal, the new inventory). -/
def Inventory.pop (inv : Inventory) (index : Int) :
    Option (Option InventoryItem × InventoryItem × Inventory) := do
  let j ← normIdx inv.items.length index
  if h : j < inv.items.length then
    let item := inv.items.get ⟨j, h⟩
    let inv' := Inventory.sync_encumbrance { inv with items := inv.items.eraseIdx j }
    pure (none, item, inv')
  else none

/-- Modelled from the spec: the fixed equipment-slot enumeration of
`pqcli.config` (not under `src/`); `mechanic.py` references exactly the
slots `weapon`, `hauberk` and `shield`. -/
inductive EquipmentType where
  | weapon
  | hauberk
  | shield
  deriving DecidableEq

/-- Python's `list(EquipmentType)` in declaration order. -/
def equipmentTypeList : List EquipmentType :=
  [.weapon, .hauberk, .shield]

/-- The `Equipment` class: a partial mapping from slots to item names. -/
structure Equipment where
  items : EquipmentType → Option String

/-- `Equipment.__init__`: only the weapon and hauberk slots get defaults. -/
def Equipment.make : Equipment :=
  ⟨fun t => match t with
    | .weapon => some "Sharp Rock"
    | .hauberk => some "-3 Burlap"
    | .shield => none⟩

/-- `Equipment.__getitem__`: `dict.get`, `None` when the slot was never
written. -/
def Equipment.get (e : Equipment) (equipment_type : EquipmentType) : Option String :=
  e.items equipment_type

/-- `Equipment.put(equipment_type, item_name)`. -/
def Equipment.put (e : Equipment) (equipment_type : EquipmentType) (item_name : String) :
    Equipment :=
  ⟨fun t => if t = equipment_type then some item_name else e.items t⟩

/-- The `Spell` dataclass. -/
structure Spell where
  name : String
  level : Int
  deriving DecidableEq

/-- `SpellBook.add(spell_name, level)`: merge by name or append. -/
def addSpell (spells : List Spell) (spell_name : String) (level : Int) : List Spell :=
  match spells with
  | [] => [⟨spell_name, level⟩]
  | sp :: rest =>
    if sp.name = spell_name then { sp with level := sp.level + level } :: rest
    else sp :: addSpell rest spell_name level

/-- Monster reference data (`pqcli.config`): name, level, optional drop item. -/
structure Monster where
  name : String
  level : Int
  item : Option String
  deriving DecidableEq

/-- The `QuestBook` class. -/
structure QuestBook where
  quests : List String
  act : Int
  plot_bar : Bar
  quest_bar : Bar
  monster : Option Monster
  deriving DecidableEq

/-- `QuestBook.__init__`. -/
def QuestBook.make : QuestBook :=
  ⟨[], 0, Bar.make 26, Bar.make 1, none⟩

/-- `QuestBook.current_quest`: the last quest, if any. -/
def QuestBook.current_quest (qb : QuestBook) : Option String :=
  qb.quests.getLast?

/-- `QuestBook.add_quest(name)`: first truncate to the last 100 entries
(Python `self._quests[-100:]`), then append. -/
def QuestBook.add_quest (qb : QuestBook) (name : String) : QuestBook :=
  { qb with quests := qb.quests.drop (qb.quests.length - 100) ++ [name] }

/-- Modelled from the spec: the fixed stat enumeration of `pqcli.config`
(not under `src/`); the spec names strength, intelligence, wisdom,
condition and the max-HP / max-MP stats. -/
inductive StatType where
  | strength
  | condition
  | intelligence
  | wisdom
  | hp_max
  | mp_max
  deriving DecidableEq

/-- Python's `list(StatType)` in declaration order. -/
def statTypeList : List StatType :=
  [.strength, .condition, .intelligence, .wisdom, .hp_max, .mp_max]

/-- The `Stats` class: a mapping from stat kinds to integers, iterated in
insertion order (a Python `dict`), hence a list of pairs. -/
abbrev Stats : Type :=
  List (StatType × Int)

/-- `Stats.__getitem__`: first entry with the key. -/
def statsGet (stats : Stats) (stat : StatType) : Option Int :=
  match stats with
  | [] => none
  | (k, v) :: rest => if k = stat then some v else statsGet rest stat

/-- `Stats.increment(stat, qty)`: `self.values[stat] += qty`; a missing key
is Python's `KeyError`, modelled as `none`. -/
def Stats.increment (stats : Stats) (stat : StatType) (qty : Int := 1) : Option Stats :=
  if (statsGet stats stat).isSome then
    some (stats.map fun p => if p.1 = stat then (p.1, p.2 + qty) else p)
  else none

/-- The task hierarchy (`BaseTask` and its subclasses); each variant carries
the dataclass fields `description` and `duration`, and `KillTask` its
optional monster. -/
inductive Task where
  | regular (description : String) (duration : Int)
  | plot (description : String) (duration : Int)
  | kill (description : String) (duration : Int) (monster : Option Monster)
  | buy (description : String) (duration : Int)
  | sell (description : String) (duration : Int)
  | headingToMarket (description : String) (duration : Int)
  | headingToKillingFields (description : String) (duration : Int)
  deriving DecidableEq

def Task.description : Task → String
  | .regular d _ => d
  | .plot d _ => d
  | .kill d _ _ => d
  | .buy d _ => d
  | .sell d _ => d
  | .headingToMarket d _ => d
  | .headingToKillingFields d _ => d

def Task.duration : Task → Int
  | .regular _ n => n
  | .plot _ n => n
  | .kill _ n _ => n
  | .buy _ n => n
  | .sell _ n => n
  | .headingToMarket _ n => n
  | .headingToKillingFields _ n => n

/-- Race reference data (`pqcli.config`): the engine only reads `name`. -/
structure Race where
  name : String
  deriving DecidableEq

/-- Class reference data (`pqcli.config`): the engine only reads `name`. -/
structure Class where
  name : String
  deriving DecidableEq

/-- Equipment preset reference data (`pqcli.config`). -/
structure EquipmentPreset where
  name : String
  quality : Int
  deriving DecidableEq

/-- Modifier reference data (`pqcli.config`). -/
structure Modifier where
  name : String
  quality : Int
  deriving DecidableEq

/-- Modelled from the spec: the external Content Provider (`pqcli.config`
and `pqcli.lingo`, not under `src/`): catalogs of monsters, equipment
presets, modifiers, spells, races, classes and word tables, plus the lingo
string combinators `indefinite`, `definite`, `act_name`, `sick`, `young`,
`big`, `special` and the random `generate_name`. -/
structure Config where
  MONSTERS : List Monster
  WEAPONS : List EquipmentPreset
  SHIELDS : List EquipmentPreset
  ARMORS : List EquipmentPreset
  OFFENSE_ATTRIB : List Modifier
  OFFENSE_BAD : List Modifier
  DEFENSE_ATTRIB : List Modifier
  DEFENSE_BAD : List Modifier
  SPELLS : List String
  RACES : List Race
  CLASSES : List Class
  TITLES : List String
  IMPRESSIVE_TITLES : List String
  ITEM_ATTRIB : List String
  SPECIALS : List String
  ITEM_OFS : List String
  BORING_ITEMS : List String
  indefinite : String → Int → String
  definite : String → Int → String
  act_name : Int → String
  sick : Int → String → String
  young : Int → String → String
  big : Int → String → String
  special : Int → String → String
  generate_name : Rng → String × Rng

/-- Wellformedness of the content provider: catalogs are non-empty and a
monster's optional drop item, when present, is a non-empty name. -/
def Config.wf (cfg : Config) : Prop :=
  cfg.MONSTERS ≠ [] ∧ cfg.WEAPONS ≠ [] ∧ cfg.SHIELDS ≠ [] ∧ cfg.ARMORS ≠ [] ∧
  cfg.OFFENSE_ATTRIB ≠ [] ∧ cfg.OFFENSE_BAD ≠ [] ∧ cfg.DEFENSE_ATTRIB ≠ [] ∧
  cfg.DEFENSE_BAD ≠ [] ∧ cfg.SPELLS ≠ [] ∧ cfg.RACES ≠ [] ∧ cfg.CLASSES ≠ [] ∧
  cfg.TITLES ≠ [] ∧ cfg.IMPRESSIVE_TITLES ≠ [] ∧ cfg.ITEM_ATTRIB ≠ [] ∧
  cfg.SPECIALS ≠ [] ∧ cfg.ITEM_OFS ≠ [] ∧ cfg.BORING_ITEMS ≠ [] ∧
  ∀ m ∈ cfg.MONSTERS, m.item ≠ some ""

/-- The `Player` class (its `birthday` is wall-clock data the engine never
reads and is omitted). -/
structure Player where
  name : String
  race : Race
  class_ : Class
  stats : Stats
  exp_bar : Bar
  level : Int
  quest_book : QuestBook
  inventory : Inventory
  equipment : Equipment
  spell_book : List Spell
  task_bar : Bar
  task : Option Task
  queue : List Task

/-- The full engine state: the player, the explicit random generator, the
accumulated `Simulation.elapsed`, plus two observation ghosts: the sequence
of task descriptions announced through the `new_task` signal, and a counter
of `win_equipment` calls. -/
structure GState where
  player : Player
  rng : Rng
  elapsed : ℚ
  trace : List String
  winEquipCount : Nat

def GState.belowG (n : Int) (s : GState) : Option (Int × GState) := do
  let (x, g) ← below n s.rng
  pure (x, { s with rng := g })

def GState.oddsG (a b : Int) (s : GState) : Option (Bool × GState) := do
  let (x, g) ← odds a b s.rng
  pure (x, { s with rng := g })

def GState.choiceG {α : Type} (xs : List α) (s : GState) : Option (α × GState) := do
  let (x, g) ← choice xs s.rng
  pure (x, { s with rng := g })

def GState.below_lowG (n : Int) (s : GState) : Option (Int × GState) := do
  let (x, g) ← below_low n s.rng
  pure (x, { s with rng := g })

def GState.choice_lowG {α : Type} (xs : List α) (s : GState) : Option (α × GState) := do
  let (x, g) ← choice_low xs s.rng
  pure (x, { s with rng := g })

def GState.genNameG (cfg : Config) (s : GState) : String × GState :=
  let (x, g) := cfg.generate_name s.rng
  (x, { s with rng := g })

/-- Update the player's inventory in place. -/
def GState.updInv (s : GState) (f : Inventory → Inventory) : GState :=
  { s with player := { s.player with inventory := f s.player.inventory } }

/-- Update the player's quest book in place. -/
def GState.updQB (s : GState) (f : QuestBook → QuestBook) : GState :=
  { s with player := { s.player with quest_book := f s.player.quest_book } }

/-- Replace the player's stats. -/
def GState.setStats (s : GState) (stats : Stats) : GState :=
  { s with player := { s.player with stats := stats } }

/-- `Inventory.set_capacity(capacity)`: resets the encumbrance bar's max
keeping the current position. -/
def Inventory.set_capacity (inv : Inventory) (capacity : ℚ) : Inventory :=
  { inv with encum_bar := inv.encum_bar.reset capacity inv.encum_bar.position }

/-- `Player.set_task(task)`: stores the task, resets the task bar to its
duration and emits `new_task` (recorded in the description trace). -/
def set_task (s : GState) (task : Task) : GState :=
  { s with
    player := { s.player with task := some task, task_bar := Bar.make (task.duration : ℚ) }
    trace := s.trace ++ [task.description] }

/-- `Player.equip_price()`. -/
def equip_price (p : Player) : Int :=
  5 * p.level ^ 2 + 10 * p.level + 20

/-- The weighted walk inside `Player.win_stat`: visit the stats in order,
keeping the visited stat, subtracting the squared value, stopping as soon
as the budget goes negative; `None` only when there are no stats at all. -/
def walkChoose (entries : List (StatType × Int)) (t : Int) : Option StatType :=
  match entries with
  | [] => none
  | (st, v) :: rest =>
    let t' := t - v * v
    if t' < 0 then some st else some ((walkChoose rest t').getD st)

/-- The sum `sum(value ** 2 for _stat, value in self.stats)`. -/
def sumSquares (stats : Stats) : Int :=
  (stats.map fun p => p.2 * p.2).sum

/-- `Player.win_stat()`: with odds 1/2 a uniformly random stat, otherwise
the squared-value-weighted walk; increments the chosen stat and, for
strength, resyncs the inventory capacity to `10 + strength`. -/
def win_stat (s : GState) : Option GState := do
  let (b, s) ← s.oddsG 1 2
  let (chosen_stat, s) ←
    if b then s.choiceG statTypeList
    else do
      let t := sumSquares s.player.stats
      let (t, s) ← s.belowG t
      match walkChoose s.player.stats t with
      | some st => pure (st, s)
      | none => none
  let stats' ← Stats.increment s.player.stats chosen_stat
  let s := s.setStats stats'
  if chosen_stat = .strength then do
    let v ← statsGet s.player.stats .strength
    pure (s.updInv (·.set_capacity ((10 + v : Int) : ℚ)))
  else pure s

/-- `Player.win_spell()`. -/
def win_spell (cfg : Config) (s : GState) : Option GState := do
  let w ← statsGet s.player.stats .wisdom
  let (i, s) ← s.below_lowG (min (w + s.player.level) (cfg.SPELLS.length : Int))
  let name ← cfg.SPELLS.get? i.toNat
  pure { s with player := { s.player with spell_book := addSpell s.player.spell_book name 1 } }

/-- `interesting_item()`. -/
def interesting_item (cfg : Config) (s : GState) : Option (String × GState) := do
  let (a, s) ← s.choiceG cfg.ITEM_ATTRIB
  let (b, s) ← s.choiceG cfg.SPECIALS
  pure (a ++ " " ++ b, s)

/-- `special_item()`. -/
def special_item (cfg : Config) (s : GState) : Option (String × GState) := do
  let (x, s) ← interesting_item cfg s
  let (o, s) ← s.choiceG cfg.ITEM_OFS
  pure (x ++ " of " ++ o, s)

/-- `boring_item()`. -/
def boring_item (cfg : Config) (s : GState) : Option (String × GState) :=
  s.choiceG cfg.BORING_ITEMS

/-- `impressive_guy()`. -/
def impressive_guy (cfg : Config) (s : GState) : Option (String × GState) := do
  let (t, s) ← s.choiceG cfg.IMPRESSIVE_TITLES
  let (b, s) ← s.belowG 2
  if b ≠ 0 then do
    let (race, s) ← s.choiceG cfg.RACES
    pure (t ++ " of the " ++ race.name, s)
  else
    let (nm, s) := s.genNameG cfg
    pure (t ++ " of " ++ nm, s)

/-- `Player.win_item()`. -/
def win_item (cfg : Config) (s : GState) : Option GState := do
  let (it, s) ← special_item cfg s
  pure (s.updInv (·.add it 1))

/-- Python's `in` on strings: character-level substring containment. -/
def strContains (hay needle : String) : Bool :=
  decide (needle.toList <:+: hay.toList)

/-- One trial of `pick_equipment`'s nearest-of-N loop. -/
def pickStep (source : List EquipmentPreset) (goal : Int)
    (acc : EquipmentPreset × GState) (_i : Nat) : Option (EquipmentPreset × GState) := do
  let (alternative, s) ← acc.2.choiceG source
  if |goal - alternative.quality| < |goal - acc.1.quality| then pure (alternative, s)
  else pure (acc.1, s)

/-- `pick_equipment(source, goal)`: one uniform pick, then five alternatives
keeping whichever quality is closest to the goal. -/
def pick_equipment (source : List EquipmentPreset) (goal : Int) (s : GState) :
    Option (EquipmentPreset × GState) := do
  let (result, s) ← s.choiceG source
  (List.range 5).foldlM (pickStep source goal) (result, s)

/-- The `while count < 2 and plus` modifier loop of `Player.win_equipment`,
with the remaining count budget as the recursion fuel. -/
def modLoop (pool : List Modifier) (fuel : Nat) (name : String) (plus : Int) (s : GState) :
    Option (String × Int × GState) :=
  match fuel with
  | 0 => some (name, plus, s)
  | fuel + 1 =>
    if plus = 0 then some (name, plus, s)
    else do
      let (modifier, s) ← s.choiceG pool
      if strContains name modifier.name then some (name, plus, s)
      else if |plus| < |modifier.quality| then some (name, plus, s)
      else modLoop pool fuel (modifier.name ++ " " ++ name) (plus - modifier.quality) s

/-- `Player.win_equipment()` (the ghost counter records the call); the
branch on the chosen slot assigns the preset catalog and the two modifier
pools exactly as the source's if/else does. -/
def win_equipment (cfg : Config) (s : GState) : Option GState := do
  let s := { s with winEquipCount := s.winEquipCount + 1 }
  let (slot, s) ← s.choiceG equipmentTypeList
  let stuff :=
    if slot = .weapon then cfg.WEAPONS
    else if slot = .shield then cfg.SHIELDS else cfg.ARMORS
  let better := if slot = .weapon then cfg.OFFENSE_ATTRIB else cfg.DEFENSE_ATTRIB
  let worse := if slot = .weapon then cfg.OFFENSE_BAD else cfg.DEFENSE_BAD
  let (equipment, s) ← pick_equipment stuff s.player.level s
  let name := equipment.name
  let plus := s.player.level - equipment.quality
  let modifier_pool := if plus < 0 then worse else better
  let (name, plus, s) ← modLoop modifier_pool 2 name plus s
  let name :=
    if plus < 0 then toString plus ++ " " ++ name
    else if plus > 0 then "+" ++ toString plus ++ " " ++ name
    else name
  pure { s with player := { s.player with equipment := s.player.equipment.put slot name } }

/-- `Player.level_up()`. -/
def level_up (cfg : Config) (s : GState) : Option GState := do
  let s := { s with player := { s.player with level := s.player.level + 1 } }
  let c ← statsGet s.player.stats .condition
  let (r1, s) ← s.belowG 4
  let st1 ← Stats.increment s.player.stats .hp_max (c.fdiv 3 + 1 + r1)
  let s := s.setStats st1
  let i ← statsGet s.player.stats .intelligence
  let (r2, s) ← s.belowG 4
  let st2 ← Stats.increment s.player.stats .mp_max (i.fdiv 3 + 1 + r2)
  let s := s.setStats st2
  let s ← win_stat s
  let s ← win_stat s
  let s ← win_spell cfg s
  pure { s with
    player := { s.player with
      exp_bar := s.player.exp_bar.reset ((level_up_time s.player.level : Int) : ℚ) } }

/-- One trial of `unnamed_monster`'s nearest-of-N loop. -/
def monsterStep (cfg : Config) (level : Int)
    (acc : Monster × GState) (_i : Nat) : Option (Monster × GState) := do
  let (alternative, s) ← acc.2.choiceG cfg.MONSTERS
  if |level - alternative.level| < |level - acc.1.level| then pure (alternative, s)
  else pure (acc.1, s)

/-- `unnamed_monster(level, iterations)`: nearest-of-N selection over the
monster catalog. -/
def unnamed_monster (cfg : Config) (level : Int) (iterations : Nat) (s : GState) :
    Option (Monster × GState) := do
  let (result, s) ← s.choiceG cfg.MONSTERS
  (List.range iterations).foldlM (monsterStep cfg level) (result, s)

/-- `named_monster(level)`. -/
def named_monster (cfg : Config) (level : Int) (s : GState) : Option (String × GState) := do
  let (monster, s) ← unnamed_monster cfg level 4 s
  let (nm, s) := s.genNameG cfg
  pure (nm ++ " the " ++ monster.name, s)

/-- The `for _ in range(level)` random walk at the top of `monster_task`. -/
def walkLevel (trials : Nat) (level : Int) (s : GState) : Option (Int × GState) :=
  match trials with
  | 0 => pure (level, s)
  | t + 1 => do
    let (b, s) ← s.oddsG 2 5
    if b then do
      let (r, s) ← s.belowG 2
      walkLevel t (level + r * 2 - 1) s
    else walkLevel t level s

/-- The NPC / quest-monster / nearest-of-5 selection in the middle of
`monster_task`: yields the base description, the monster level `lev`, the
carried monster reference and the `is_definite` flag. -/
def monsterBranch (cfg : Config) (level : Int) (quest_monster : Option Monster)
    (s : GState) : Option ((String × Int × Option Monster × Bool) × GState) := do
  let npcBranch := fun (s : GState) => do
    let (race, s) ← s.choiceG cfg.RACES
    let (b2, s) ← s.oddsG 1 2
    if b2 then do
      let (cls, s) ← s.choiceG cfg.CLASSES
      pure (("passing " ++ race.name ++ " " ++ cls.name, level, (none : Option Monster),
            false), s)
    else do
      let (title, s) ← s.choice_lowG cfg.TITLES
      let (nm, s) := s.genNameG cfg
      pure ((title ++ " " ++ nm ++ " the " ++ race.name, level, (none : Option Monster),
            true), s)
  let pickBranch := fun (s : GState) => do
    let (m, s) ← unnamed_monster cfg level 5 s
    pure ((m.name, m.level, some m, false), s)
  let (b1, s) ← s.oddsG 1 25
  if b1 then npcBranch s
  else
    match quest_monster with
    | some qm => do
      let (b3, s) ← s.oddsG 1 4
      if b3 then pure ((qm.name, qm.level, some qm, false), s)
      else pickBranch s
    | none => pickBranch s

/-- The pack-multiplier computation of `monster_task`: when the target
level exceeds the monster level by more than 10, split into `qty` monsters
of a rescaled level. -/
def monsterQty (lev level : Int) (s : GState) : Option ((Int × Int) × GState) :=
  if level - lev > 10 then do
    let m := max lev 1
    let (r, s) ← s.belowG m
    let qty := (level + r).fdiv m
    let qty := if qty < 1 then 1 else qty
    pure ((qty, level.fdiv qty), s)
  else pure (((1 : Int), level), s)

/-- The graduated prefix/suffix naming of `monster_task`, keyed on the
signed gap between target and monster level. -/
def monsterName (cfg : Config) (level lev : Int) (result : String) (s : GState) :
    Option (String × GState) :=
  if level - lev ≤ -10 then pure ("imaginary " ++ result, s)
  else if level - lev < -5 then do
    let i := 10 + level - lev
    let (r, s) ← s.belowG (i + 1)
    let i := 5 - r
    pure (cfg.sick i (cfg.young (lev - level - i) result), s)
  else if level - lev < 0 then do
    let (r, s) ← s.belowG 2
    if r = 1 then pure (cfg.sick (level - lev) result, s)
    else pure (cfg.young (level - lev) result, s)
  else if level - lev ≥ 10 then pure ("messianic " ++ result, s)
  else if level - lev > 5 then do
    let i := 10 - (level - lev)
    let (r, s) ← s.belowG (i + 1)
    let i := 5 - r
    pure (cfg.big i (cfg.special (level - lev - i) result), s)
  else if level - lev > 0 then do
    let (r, s) ← s.belowG 2
    if r = 1 then pure (cfg.big (level - lev) result, s)
    else pure (cfg.special (level - lev) result, s)
  else pure (result, s)

/-- `monster_task(player_level, quest_monster)`. -/
def monster_task (cfg : Config) (player_level : Int) (quest_monster : Option Monster)
    (s : GState) : Option (Task × GState) := do
  let (level, s) ← walkLevel player_level.toNat player_level s
  let level := if level < 1 then 1 else level
  let ((result, lev, monster, is_definite), s) ← monsterBranch cfg level quest_monster s
  let ((qty, level), s) ← monsterQty lev level s
  let (result, s) ← monsterName cfg level lev result s
  let lev := level
  let level := lev * qty
  let result := if is_definite then result else cfg.indefinite result qty
  let duration := (2 * 3 * level * 1000).fdiv player_level
  pure (Task.kill ("Executing " ++ result) duration monster, s)

/-- Is the (possibly absent) task a `KillTask` or
`HeadingToKillingFieldsTask`?  (`isinstance` on an optional is false for
`None`.) -/
def isKillOrHKF : Option Task → Bool
  | some (.kill _ _ _) => true
  | some (.headingToKillingFields _ _) => true
  | _ => false

/-- The next-task selection at the bottom of `Simulation.dequeue`'s loop. -/
def selectNext (cfg : Config) (old : Option Task) (s : GState) : Option GState :=
  match s.player.queue with
  | t :: rest => some (set_task { s with player := { s.player with queue := rest } } t)
  | [] =>
    if s.player.inventory.encum_bar.done then
      some (set_task s (.headingToMarket "Heading to market to sell loot" 4000))
    else if ¬ isKillOrHKF old then
      if s.player.inventory.gold > equip_price s.player then
        some (set_task s (.buy "Negotiating purchase of better equipment" 5000))
      else
        some (set_task s (.headingToKillingFields "Heading to the killing fields" 4000))
    else do
      let (t, s) ← monster_task cfg s.player.level s.player.quest_book.monster s
      pure (set_task s t)

/-- `Simulation.complete_act()`. -/
def complete_act (cfg : Config) (s : GState) : Option GState := do
  let s := s.updQB fun qb => { qb with act := qb.act + 1 }
  let s := s.updQB fun qb =>
    { qb with plot_bar := qb.plot_bar.reset (((60 * 60 * (1 + 5 * qb.act) : Int)) : ℚ) }
  if s.player.quest_book.act > 1 then do
    let s ← win_item cfg s
    win_equipment cfg s
  else pure s

/-- The sale pricing of the dequeue loop's sell arm: quantity times
level, with two extra multipliers for " of " items. -/
def sellAmount (item : InventoryItem) (s : GState) : Option (Int × GState) :=
  let amount := item.quantity * s.player.level
  if strContains item.name " of " then do
    let (a, s) ← s.below_lowG 10
    let (b, s) ← s.below_lowG s.player.level
    pure (amount * ((1 + a) * (1 + b)), s)
  else pure (amount, s)

/-- The sale itself: price the head item, pop it, collect the gold. -/
def saleStep (s : GState) : Option GState :=
  match s.player.inventory.items with
  | [] => none
  | item :: _ => do
    let (amount, s) ← sellAmount item s
    let (_ret, _em, inv') ← s.player.inventory.pop 0
    pure { s with player := { s.player with inventory := inv'.add_gold amount } }

/-- The `HeadingToMarketTask`/`SellTask` arm of the dequeue loop; `isSell`
distinguishes the finished task's exact class.  Returns `Sum.inr` for the
loop's `break`. -/
def marketSell (cfg : Config) (s : GState) (isSell : Bool) : Option (GState ⊕ GState) := do
  let s ← if isSell then saleStep s else pure s
  match s.player.inventory.items with
  | item :: _ =>
    pure (.inr (set_task s
      (.sell ("Selling " ++ cfg.indefinite item.name item.quantity) 1000)))
  | [] => .inl <$> selectNext cfg s.player.task s

/-- One iteration of `Simulation.dequeue`'s `while` body: the post-task
effects keyed on the finished task's class, then (unless the sale arm
`break`s) the next-task selection.  `Sum.inl` continues the loop, `Sum.inr`
is the `break`. -/
def dequeueBody (cfg : Config) (s : GState) : Option (GState ⊕ GState) :=
  match s.player.task with
  | some (.kill _ _ monster) => do
    let s ←
      match monster with
      | none => win_item cfg s
      | some m =>
        match m.item with
        | none => win_item cfg s
        | some it =>
          if it = "" then pure s
          else pure (s.updInv (·.add ((m.name ++ " " ++ it).toLower) 1))
    .inl <$> selectNext cfg s.player.task s
  | some (.buy _ _) => do
    let s := s.updInv (·.add_gold (-(equip_price s.player)))
    let s ← win_equipment cfg s
    .inl <$> selectNext cfg s.player.task s
  | some (.headingToMarket _ _) => marketSell cfg s false
  | some (.sell _ _) => marketSell cfg s true
  | some (.plot _ _) => do
    let s ← complete_act cfg s
    .inl <$> selectNext cfg s.player.task s
  | some (.regular _ _) => .inl <$> selectNext cfg s.player.task s
  | some (.headingToKillingFields _ _) => .inl <$> selectNext cfg s.player.task s
  | none => .inl <$> selectNext cfg none s

/-- The `while self.player.task_bar.done` loop of `Simulation.dequeue`,
with an explicit iteration budget (`none` on exhaustion). -/
def dequeueAux (cfg : Config) : Nat → GState → Option GState
  | 0, _ => none
  | fuel + 1, s =>
    if s.player.task_bar.done then do
      match ← dequeueBody cfg s with
      | .inl s' => dequeueAux cfg fuel s'
      | .inr s' => pure s'
    else pure s

/-- Remaining encumbrance slack, used only to budget the dequeue loop. -/
def natSlack (s : GState) : Nat :=
  (⌈s.player.inventory.encum_bar.max_⌉ - s.player.inventory.sumQty).toNat

/-- Budget weight of a pending `HeadingToKillingFieldsTask`. -/
def hkfWeight (s : GState) : Nat :=
  match s.player.task with
  | some (.headingToKillingFields _ _) => 1
  | _ => 0

/-- Iteration budget for `Simulation.dequeue`: each looping iteration
either pops the pending queue (and then exits), or completes a kill that
adds an item, shrinking the encumbrance slack. -/
def dequeueFuel (s : GState) : Nat :=
  2 * natSlack s + hkfWeight s + s.player.queue.length + 8

/-- `Simulation.dequeue()`. -/
def dequeue (cfg : Config) (s : GState) : Option GState :=
  dequeueAux cfg (dequeueFuel s) s

/-- The `enqueue` helper inside `Simulation.interplot_cinematic`: append to
the pending queue and immediately `dequeue()`. -/
def enqueue (cfg : Config) (t : Task) (s : GState) : Option GState :=
  dequeue cfg { s with player := { s.player with queue := s.player.queue ++ [t] } }

/-- The escalating boss-fight loop of `interplot_cinematic` (choice 1):
Python iterates `itertools.count(start=1)` and breaks once `i` exceeds a
fresh draw below `1 + act + 1`; since every draw is at most `act + 1` the
loop runs at most `act + 1` more steps, which bounds the fuel below. -/
def cinematicLoop (cfg : Config) (nemesis : String) :
    Nat → Int → Int → GState → Option GState
  | 0, _, _, _ => none
  | fuel + 1, i, sVal, s => do
    let (d, s) ← s.belowG (1 + s.player.quest_book.act + 1)
    if i > d then pure s
    else do
      let (r, s) ← s.belowG 2
      let sVal := sVal + 1 + r
      let t : Task :=
        if sVal % 3 = 0 then .regular ("Locked in grim combat with " ++ nemesis) 2000
        else if sVal % 3 = 1 then .regular (nemesis ++ " seems to have the upper hand") 2000
        else .regular ("You seem to gain the advantage over " ++ nemesis) 2000
      let s ← enqueue cfg t s
      cinematicLoop cfg nemesis fuel (i + 1) sVal s

/-- `Simulation.interplot_cinematic()`. -/
def interplot_cinematic (cfg : Config) (s : GState) : Option GState := do
  let (c, s) ← s.belowG 3
  let s ←
    if c = 0 then do
      let s ← enqueue cfg
        (.regular "Exhausted, you arrive at a friendly oasis in a hostile land" 1000) s
      let s ← enqueue cfg (.regular "You greet old friends and meet new allies" 2000) s
      let s ← enqueue cfg
        (.regular "You are privy to a council of powerful do-gooders" 2000) s
      enqueue cfg (.regular "There is much to be done. You are chosen!" 1000) s
    else if c = 1 then do
      let s ← enqueue cfg
        (.regular "Your quarry is in sight, but a mighty enemy bars your path!" 1000) s
      let (nemesis, s) ← named_monster cfg (s.player.level + 3) s
      let s ← enqueue cfg
        (.regular ("A desperate struggle commences with " ++ nemesis) 4000) s
      let (sv, s) ← s.belowG 3
      let s ← cinematicLoop cfg nemesis ((s.player.quest_book.act + 2).toNat + 1) 1 sv s
      let s ← enqueue cfg
        (.regular ("Victory! " ++ nemesis ++ " is slain! Exhausted, you lose conciousness")
          3000) s
      enqueue cfg (.regular "You awake in a friendly place, but the road awaits" 2000) s
    else if c = 2 then do
      let (nemesis, s) ← impressive_guy cfg s
      let s ← enqueue cfg
        (.regular ("Oh sweet relief! You've reached the protection of the good " ++ nemesis)
          2000) s
      let s ← enqueue cfg
        (.regular ("There is rejoicing, and an unnerving encouter with " ++ nemesis
          ++ " in private") 3000) s
      let (bi, s) ← boring_item cfg s
      let s ← enqueue cfg
        (.regular ("You forget your " ++ bi ++ " and go back to get it") 2000) s
      let s ← enqueue cfg
        (.regular "What's this!? You overhear something shocking!" 2000) s
      let s ← enqueue cfg
        (.regular ("Could " ++ nemesis ++ " be a dirty double-dealer?") 2000) s
      enqueue cfg
        (.regular "Who can possibly be trusted with this news!? ... Oh yes, of course"
          3000) s
    else none
  enqueue cfg (.plot ("Loading " ++ cfg.act_name (s.player.quest_book.act + 1)) 1000) s

/-- The reward draw of `Simulation.complete_quest` (skipped for an empty
or absent current quest). -/
def questReward (cfg : Config) (s : GState) : Option GState :=
  match s.player.quest_book.current_quest with
  | some c =>
    if c ≠ "" then do
      let (i, s) ← s.belowG 4
      if i = 0 then win_spell cfg s
      else if i = 1 then win_equipment cfg s
      else if i = 2 then win_stat s
      else win_item cfg s
    else pure s
  | none => pure s

/-- The five-way next-quest caption draw of `Simulation.complete_quest`;
only the exterminate flavour stores a quest monster. -/
def questCaption (cfg : Config) (s : GState) : Option (String × GState) := do
  let (c, s) ← s.belowG 5
  if c = 0 then do
    let (m, s) ← unnamed_monster cfg s.player.level 3 s
    let s := s.updQB fun qb => { qb with monster := some m }
    pure ("Exterminate " ++ cfg.definite m.name 2, s)
  else if c = 1 then do
    let (it, s) ← interesting_item cfg s
    pure ("Seek " ++ cfg.definite it 1, s)
  else if c = 2 then do
    let (it, s) ← boring_item cfg s
    pure ("Deliver this " ++ it, s)
  else if c = 3 then do
    let (it, s) ← boring_item cfg s
    pure ("Fetch me " ++ cfg.indefinite it 1, s)
  else if c = 4 then do
    let (m, s) ← unnamed_monster cfg s.player.level 1 s
    pure ("Placate " ++ cfg.definite m.name 2, s)
  else none

/-- `Simulation.complete_quest()`. -/
def complete_quest (cfg : Config) (s : GState) : Option GState := do
  let (r, s) ← s.below_lowG 1000
  let s := s.updQB fun qb => { qb with quest_bar := qb.quest_bar.reset (((50 + r : Int)) : ℚ) }
  let s ← questReward cfg s
  let s := s.updQB fun qb => { qb with monster := none }
  let (caption, s) ← questCaption cfg s
  pure (s.updQB (·.add_quest caption))

/-- The experience phase of `Simulation.tick` after a kill (`gain`). -/
def expGain (cfg : Config) (gain : Bool) (s : GState) : Option GState :=
  if gain then
    if s.player.exp_bar.done then level_up cfg s
    else pure { s with player := { s.player with
      exp_bar := s.player.exp_bar.increment (s.player.task_bar.max_ / 1000) } }
  else pure s

/-- The quest phase of `Simulation.tick`. -/
def questGain (cfg : Config) (gain : Bool) (s : GState) : Option GState :=
  if gain ∧ 1 ≤ s.player.quest_book.act then
    if s.player.quest_book.quest_bar.done ∨ s.player.quest_book.current_quest = none then
      complete_quest cfg s
    else
      pure (s.updQB fun qb =>
        { qb with quest_bar := qb.quest_bar.increment (s.player.task_bar.max_ / 1000) })
  else pure s

/-- The plot phase of `Simulation.tick`. -/
def plotGain (cfg : Config) (gain : Bool) (s : GState) : Option GState :=
  if gain then
    if s.player.quest_book.plot_bar.done then interplot_cinematic cfg s
    else
      pure (s.updQB fun qb =>
        { qb with plot_bar := qb.plot_bar.increment (s.player.task_bar.max_ / 1000) })
  else pure s

/-- `Simulation.tick(elapsed)`. -/
def tick (cfg : Config) (elapsed : ℚ) (s : GState) : Option GState := do
  if ¬ s.player.task_bar.done then
    pure { s with
      elapsed := s.elapsed + elapsed
      player := { s.player with task_bar := s.player.task_bar.increment elapsed } }
  else do
    let gain : Bool :=
      match s.player.task with
      | some (.kill _ _ _) => true
      | _ => false
    let s ← expGain cfg gain s
    let s ← questGain cfg gain s
    let s ← plotGain cfg gain s
    dequeue cfg s

/-- `Player.__init__`: the initial queue of scripted tasks followed by
`set_task(RegularTask("Loading", 2000))`; fails (`KeyError`) when the
given stats have no strength entry. -/
def newGame (cfg : Config) (name : String) (race : Race) (class_ : Class) (stats : Stats)
    (g : Rng) : Option GState := do
  let str ← statsGet stats .strength
  let p : Player :=
    { name := name
      race := race
      class_ := class_
      stats := stats
      exp_bar := Bar.make ((level_up_time 1 : Int) : ℚ)
      level := 1
      quest_book := QuestBook.make
      inventory := Inventory.make ((10 + str : Int) : ℚ)
      equipment := Equipment.make
      spell_book := []
      task_bar := Bar.make 0
      task := none
      queue :=
        [.regular "Experiencing an enigmatic and foreboding night vision" 10000,
         .regular "Much is revealed about that wise old bastard you'd underestimated" 6000,
         .regular "A shocking series of events leaves you alone and bewildered, but resolute"
           6000,
         .regular
           "Drawing upon an unrealized reserve of determination, you set out on a long and dangerous journey"
           4000,
         .plot ("Loading " ++ cfg.act_name (QuestBook.make.act + 1)) 2000] }
  pure (set_task ⟨p, g, 0, [], 0⟩ (.regular "Loading" 2000))

/-- A whole run: `N` consecutive `tick` calls with the given elapsed
arguments. -/
def runTicks (cfg : Config) (es : List ℚ) (s : GState) : Option GState :=
  es.foldlM (fun s e => tick cfg e s) s

/-- The states the engine can reach: a fresh game, then any number of
successful `tick` calls with arbitrary elapsed arguments. -/
inductive Reachable (cfg : Config) : GState → Prop
  | init : ∀ name race class_ stats g s,
      newGame cfg name race class_ stats g = some s → Reachable cfg s
  | tick : ∀ s e s', Reachable cfg s → tick cfg e s = some s' → Reachable cfg s'

/-! ### Basic lemmas about the containers -/

theorem normIdx_isSome (n : Nat) (i : Int) :
    (normIdx n i).isSome ↔ -(n : Int) ≤ i ∧ i < (n : Int) := by
  unfold normIdx
  split_ifs with h1 h2 h3 <;> simp <;> omega

theorem normIdx_lt {n : Nat} {i : Int} {j : Nat} (h : normIdx n i = some j) : j < n := by
  unfold normIdx at h
  split_ifs at h with h1 h2 h3 <;> simp_all <;> omega

theorem sumQty_addItem (items : List InventoryItem) (name : String) (qty : Int) :
    ((addItem items name qty).map InventoryItem.quantity).sum
      = (items.map InventoryItem.quantity).sum + qty := by
  induction items with
  | nil => simp [addItem]
  | cons it rest ih =>
    by_cases h : it.name = name <;> simp [addItem, h, ih] <;> ring

theorem addItem_ne_nil (items : List InventoryItem) (name : String) (qty : Int) :
    addItem items name qty ≠ [] := by
  cases items with
  | nil => simp [addItem]
  | cons it rest => by_cases h : it.name = name <;> simp [addItem, h]

theorem Inventory.sumQty_add (inv : Inventory) (name : String) (qty : Int) :
    (inv.add name qty).sumQty = inv.sumQty + qty := by
  simp [Inventory.add, Inventory.sync_encumbrance, Inventory.sumQty, sumQty_addItem]

theorem Inventory.add_items_ne_nil (inv : Inventory) (name : String) (qty : Int) :
    (inv.add name qty).items ≠ [] := by
  simp [Inventory.add, Inventory.sync_encumbrance, addItem_ne_nil]

@[simp] theorem Inventory.add_gold_eq (inv : Inventory) (name : String) (qty : Int) :
    (inv.add name qty).gold = inv.gold := rfl

@[simp] theorem Inventory.add_encum_max (inv : Inventory) (name : String) (qty : Int) :
    (inv.add name qty).encum_bar.max_ = inv.encum_bar.max_ := rfl

theorem Inventory.add_encum_position (inv : Inventory) (name : String) (qty : Int) :
    (inv.add name qty).encum_bar.position
      = min ((inv.add name qty).sumQty : ℚ) inv.encum_bar.max_ := rfl

/-! ### C1 — the Bar invariant -/

/-- C1, counterexample: `increment` with a negative delta drives `position`
below zero (the source clamps only from above), so the claimed invariant
`0 ≤ position` does not hold after every operation: a fresh `Bar(10)`
incremented by `-5` has position `-5`. -/
theorem C1_counterexample :
    ¬ (0 ≤ ((Bar.make 10).increment (-5)).position) := by
  simp [Bar.make, Bar.increment, Bar.reposition]

/-- C1, amended: `done ⇔ position ≥ max` always holds, and `increment`
(via `reposition`) maintains the upper bound `position ≤ max`; but the
lower bound `0 ≤ position` is not enforced (a negative delta can push the
position below zero) and `reset` stores its arguments verbatim, unclamped. -/
theorem C1_bar_amended (b : Bar) (inc new_max position : ℚ) :
    (b.increment inc).position ≤ (b.increment inc).max_
    ∧ (b.increment inc).max_ = b.max_
    ∧ (b.done = true ↔ b.position ≥ b.max_)
    ∧ (b.reset new_max position).position = position
    ∧ (b.reset new_max position).max_ = new_max := by
  refine ⟨?_, rfl, ?_, rfl, rfl⟩
  · simp [Bar.increment, Bar.reposition]
  · simp [Bar.done, ge_iff_le]

/-! ### C4 — the encumbrance bar mirrors the quantity sum -/

/-- C4, counterexample: the encumbrance bar is written through
`Bar.reposition`, which clamps at the bar's max, so when the quantity sum
exceeds the capacity the position does *not* equal the sum: adding one item
to a capacity-0 inventory leaves the bar at 0 while the sum is 1. -/
theorem C4_counterexample :
    ((Inventory.make 0).add "x" 1).encum_bar.position
      ≠ (((Inventory.make 0).add "x" 1).sumQty : ℚ) := by
  decide

/-- C4, amended: after every `add` and every (successful) `pop` the
encumbrance bar's position equals the quantity sum *clamped to the bar's
max*, i.e. `min (sum of quantities) capacity`; in particular it equals the
sum exactly whenever the sum does not exceed the capacity. -/
theorem C4_encumbrance_amended (inv : Inventory) (name : String) (qty index : Int) :
    ((inv.add name qty).encum_bar.position
        = min ((inv.add name qty).sumQty : ℚ) inv.encum_bar.max_)
    ∧ (∀ r em inv', inv.pop index = some (r, em, inv') →
        inv'.encum_bar.position = min (inv'.sumQty : ℚ) inv.encum_bar.max_) := by
  constructor
  · rfl
  · intro r em inv' h
    unfold Inventory.pop at h
    cases hj : normIdx inv.items.length index with
    | none => simp [hj] at h
    | some j =>
      have hlt : j < inv.items.length := normIdx_lt hj
      simp only [hj, Option.bind_eq_bind, Option.some_bind, dif_pos hlt] at h
      cases h
      rfl

/-- C4 witness: a concrete successful `pop` for the amended theorem's
hypothesis-bearing conjunct. -/
theorem C4_encumbrance_witness :
    (⟨0, [⟨"x", 2⟩, ⟨"y", 3⟩], Bar.make 10 5⟩ : Inventory).pop 0
      = some (none, ⟨"x", 2⟩, ⟨0, [⟨"y", 3⟩], Bar.make 10 3⟩)
    ∧ (⟨0, [⟨"y", 3⟩], Bar.make 10 3⟩ : Inventory).encum_bar.position
        = min (((⟨0, [⟨"y", 3⟩], Bar.make 10 3⟩ : Inventory).sumQty : ℚ)) (10 : ℚ) := by
  refine ⟨by decide, ?_⟩
  exact (C4_encumbrance_amended ⟨0, [⟨"x", 2⟩, ⟨"y", 3⟩], Bar.make 10 5⟩ "x" 0 0).2
    none ⟨"x", 2⟩ ⟨0, [⟨"y", 3⟩], Bar.make 10 3⟩ (by decide)

/-! ### C5 — equipment slots -/

/-- C5, counterexample: a freshly constructed `Equipment` has defaults only
for the weapon and hauberk slots; querying the shield slot returns `None`,
refuting "every slot always has some name, never absent". -/
theorem C5_counterexample :
    Equipment.make.get EquipmentType.shield = none := by
  rfl

/-- C5, amended: on construction exactly the weapon and hauberk slots carry
default names (the shield slot is absent until first written); `put` stores
a name into its slot and leaves every other slot unchanged, so any slot
that ever held a name keeps holding one. -/
theorem C5_equipment_amended (e : Equipment) (t t' : EquipmentType) (n : String) :
    Equipment.make.get .weapon = some "Sharp Rock"
    ∧ Equipment.make.get .hauberk = some "-3 Burlap"
    ∧ Equipment.make.get .shield = none
    ∧ (e.put t n).get t = some n
    ∧ (t' ≠ t → (e.put t n).get t' = e.get t') := by
  refine ⟨rfl, rfl, rfl, ?_, ?_⟩
  · simp [Equipment.put, Equipment.get]
  · intro h
    simp [Equipment.put, Equipment.get, h]

/-- C5 witness: the slot-disequality hypothesis discharged at a concrete
input. -/
theorem C5_equipment_witness :
    EquipmentType.weapon ≠ EquipmentType.shield
    ∧ (Equipment.make.put EquipmentType.shield "Oak Shield").get EquipmentType.weapon
        = Equipment.make.get EquipmentType.weapon :=
  ⟨by decide,
    (C5_equipment_amended Equipment.make EquipmentType.shield EquipmentType.weapon
      "Oak Shield").2.2.2.2 (by decide)⟩

/-! ### C6 — the quest log bound -/

set_option maxRecDepth 4000 in
/-- C6, counterexample: `add_quest` truncates to the last 100 entries
*before* appending, so the log can reach 101 entries: starting from an
empty book, 101 `add_quest` calls leave 101 quests, violating the claimed
bound of at most 100. -/
theorem C6_counterexample :
    (((List.range 101).foldl (fun qb _ => qb.add_quest "q") QuestBook.make).quests.length
        = 101)
    ∧ ¬ (((List.range 101).foldl (fun qb _ => qb.add_quest "q")
          QuestBook.make).quests.length ≤ 100) := by
  constructor <;> decide

/-- C6, amended: each `add_quest` call keeps at most the last 100 previous
entries and then appends, so the log holds at most 101 entries (exactly
`min (previous length) 100 + 1`), and `current_quest` is the caption that
was just appended. -/
theorem C6_quest_log_amended (qb : QuestBook) (name : String) :
    ((qb.add_quest name).quests.length = min qb.quests.length 100 + 1)
    ∧ (qb.add_quest name).quests.length ≤ 101
    ∧ (qb.add_quest name).current_quest = some name := by
  refine ⟨?_, ?_, ?_⟩
  · simp [QuestBook.add_quest]
    omega
  · simp [QuestBook.add_quest]
    omega
  · simp [QuestBook.add_quest, QuestBook.current_quest]

/-! ### C9 — Inventory.pop -/

/-- The claim's reading of `pop`'s interface: the value the method returns
is the removed item. -/
def popReturnsRemoved (inv : Inventory) (index : Int) : Prop :=
  ∀ r, inv.pop index = some r → r.1 = some r.2.1

/-- C9, counterexample: `Inventory.pop` is annotated `-> None` and has no
return statement — the removed item is only delivered through the
`item_del` signal — so the claim that `pop` *returns* the removed item
fails on any successful call. -/
theorem C9_counterexample :
    ¬ popReturnsRemoved ⟨0, [⟨"x", 1⟩], Bar.make 10 1⟩ 0 := by
  intro h
  exact absurd (h (none, ⟨"x", 1⟩, ⟨0, [], Bar.make 10 0⟩) (by decide)) (by simp)

/-- C9, amended: `pop(index)` fails with `IndexError` exactly when the
index is out of range (Python semantics, negative indices counting from the
end); in range it always succeeds, removes exactly the addressed list
entry — emitting it with the `item_del` signal — and returns `None`. -/
theorem C9_pop_amended (inv : Inventory) (index : Int) :
    ((inv.pop index).isSome
        ↔ -(inv.items.length : Int) ≤ index ∧ index < (inv.items.length : Int))
    ∧ (∀ r em inv', inv.pop index = some (r, em, inv') →
        r = none
        ∧ ∃ j, ∃ h : j < inv.items.length,
            normIdx inv.items.length index = some j
            ∧ em = inv.items.get ⟨j, h⟩
            ∧ inv'.items = inv.items.eraseIdx j
            ∧ inv'.items.length + 1 = inv.items.length
            ∧ inv'.gold = inv.gold) := by
  constructor
  · constructor
    · intro hs
      rw [← normIdx_isSome]
      by_contra hn
      rw [Option.not_isSome_iff_eq_none] at hn
      unfold Inventory.pop at hs
      rw [hn] at hs
      simp at hs
    · intro hr
      rw [← normIdx_isSome] at hr
      obtain ⟨j, hj⟩ := Option.isSome_iff_exists.mp hr
      unfold Inventory.pop
      rw [hj]
      simp [normIdx_lt hj]
  · intro r em inv' h
    unfold Inventory.pop at h
    cases hj : normIdx inv.items.length index with
    | none => simp [hj] at h
    | some j =>
      have hlt : j < inv.items.length := normIdx_lt hj
      simp only [hj, Option.bind_eq_bind, Option.some_bind, dif_pos hlt] at h
      cases h
      refine ⟨rfl, j, hlt, rfl, rfl, rfl, ?_, rfl⟩
      exact List.length_eraseIdx_add_one hlt

/-- C9 witness: a concrete in-range (negative) index, hypotheses discharged
on a two-item inventory. -/
theorem C9_pop_witness :
    ((⟨0, [⟨"x", 1⟩, ⟨"y", 2⟩], Bar.make 10 3⟩ : Inventory).pop (-1)).isSome
    ∧ (-(2 : Int) ≤ -1 ∧ (-1 : Int) < 2)
    ∧ (none = (none : Option InventoryItem)
        ∧ ∃ j, ∃ h : j < ([⟨"x", 1⟩, ⟨"y", 2⟩] : List InventoryItem).length,
            normIdx 2 (-1) = some j
            ∧ (⟨"y", 2⟩ : InventoryItem)
                = ([⟨"x", 1⟩, ⟨"y", 2⟩] : List InventoryItem).get ⟨j, h⟩
            ∧ ([⟨"x", 1⟩] : List InventoryItem)
                = ([⟨"x", 1⟩, ⟨"y", 2⟩] : List InventoryItem).eraseIdx j
            ∧ ([⟨"x", 1⟩] : List InventoryItem).length + 1
                = ([⟨"x", 1⟩, ⟨"y", 2⟩] : List InventoryItem).length
            ∧ (0 : Int) = 0) := by
  refine ⟨?_, ⟨by decide, by decide⟩, ?_⟩
  · rw [(C9_pop_amended ⟨0, [⟨"x", 1⟩, ⟨"y", 2⟩], Bar.make 10 3⟩ (-1)).1]
    exact ⟨by decide, by decide⟩
  · exact (C9_pop_amended ⟨0, [⟨"x", 1⟩, ⟨"y", 2⟩], Bar.make 10 3⟩ (-1)).2
      none ⟨"y", 2⟩ ⟨0, [⟨"x", 1⟩], Bar.make 10 1⟩ (by decide)

/-! ### Spec lemmas for the random primitives -/

theorem below_eq {n : Int} (g : Rng) (h : 0 < n) :
    below n g = some (((g.draw % n.toNat : Nat) : Int), g.next) := by
  simp [below, h]

theorem below_spec {n x : Int} {g g' : Rng} (h : below n g = some (x, g')) :
    0 ≤ x ∧ x < n ∧ g' = g.next := by
  unfold below at h
  by_cases hn : 0 < n
  · rw [if_pos hn] at h
    cases h
    have hlt : g.draw % n.toNat < n.toNat := Nat.mod_lt _ (by omega)
    exact ⟨Int.natCast_nonneg _, by omega, rfl⟩
  · rw [if_neg hn] at h
    cases h

theorem below_isSome {n : Int} (g : Rng) (h : 0 < n) : ∃ x g', below n g = some (x, g') :=
  ⟨_, _, below_eq g h⟩

theorem odds_spec {a b : Int} {g g' : Rng} {v : Bool} (h : odds a b g = some (v, g')) :
    g' = g.next := by
  unfold odds at h
  cases hb : below b g with
  | none => rw [hb] at h; cases h
  | some p =>
    rw [hb] at h
    simp at h
    rw [← h.2]
    exact (@below_spec b p.1 g p.2 (by rw [hb])).2.2

theorem odds_isSome {a b : Int} (g : Rng) (h : 0 < b) :
    ∃ v g', odds a b g = some (v, g') := by
  obtain ⟨x, g', hx⟩ := below_isSome g h
  exact ⟨decide (x < a), g', by simp [odds, hx]⟩

theorem choice_spec {α : Type} {xs : List α} {x : α} {g g' : Rng}
    (h : choice xs g = some (x, g')) : x ∈ xs ∧ g' = g.next := by
  unfold choice at h
  by_cases hn : 0 < xs.length
  · rw [dif_pos hn] at h
    cases h
    exact ⟨List.get_mem _ _ _, rfl⟩
  · rw [dif_neg hn] at h
    cases h

theorem choice_isSome {α : Type} (xs : List α) (g : Rng) (h : xs ≠ []) :
    ∃ x g', choice xs g = some (x, g') ∧ x ∈ xs := by
  have hn : 0 < xs.length := List.length_pos.mpr h
  exact ⟨xs.get ⟨g.draw % xs.length, Nat.mod_lt _ hn⟩, g.next,
    by rw [choice, dif_pos hn], List.get_mem _ _ _⟩

theorem below_low_spec {n x : Int} {g g' : Rng} (h : below_low n g = some (x, g')) :
    0 ≤ x ∧ x < n := by
  unfold below_low at h
  cases ha : below n g with
  | none => rw [ha] at h; cases h
  | some p =>
    obtain ⟨p1, p2⟩ := p
    rw [ha] at h
    simp only [Option.bind_eq_bind, Option.some_bind] at h
    cases hb : below n p2 with
    | none => rw [hb] at h; cases h
    | some q =>
      obtain ⟨q1, q2⟩ := q
      rw [hb] at h
      simp only [Option.bind_eq_bind, Option.some_bind, Option.pure_def,
        Option.some.injEq, Prod.mk.injEq] at h
      have s1 := below_spec ha
      have s2 := below_spec hb
      rw [← h.1]
      constructor
      · exact le_min s1.1 s2.1
      · exact lt_of_le_of_lt (min_le_left _ _) s1.2.1

theorem below_low_isSome {n : Int} (g : Rng) (h : 0 < n) :
    ∃ x g', below_low n g = some (x, g') := by
  obtain ⟨a, g1, ha⟩ := below_isSome g h
  obtain ⟨b, g2, hb⟩ := below_isSome g1 h
  exact ⟨min a b, g2, by simp [below_low, ha, hb]⟩

theorem choice_low_isSome {α : Type} (xs : List α) (g : Rng) (h : xs ≠ []) :
    ∃ x g', choice_low xs g = some (x, g') ∧ x ∈ xs := by
  have hn : (0 : Int) < xs.length := by
    have := List.length_pos.mpr h
    omega
  obtain ⟨i, g1, hi⟩ := below_low_isSome g hn
  have hspec := below_low_spec hi
  have hlt : i.toNat < xs.length := by omega
  exact ⟨xs.get ⟨i.toNat, hlt⟩, g1, by simp [choice_low, hi, hlt], List.get_mem _ _ _⟩

/-! ### Stats lemmas -/

theorem statsGet_mem {stats : Stats} {k : StatType} {v : Int}
    (h : statsGet stats k = some v) : (k, v) ∈ stats := by
  induction stats with
  | nil => simp [statsGet] at h
  | cons p rest ih =>
    obtain ⟨a, b⟩ := p
    unfold statsGet at h
    by_cases hk : a = k
    · subst hk
      rw [if_pos rfl] at h
      cases h
      exact List.mem_cons_self _ _
    · rw [if_neg hk] at h
      exact List.mem_cons_of_mem _ (ih h)

theorem statsGet_incr_self (stats : Stats) (k : StatType) (q v : Int)
    (h : statsGet stats k = some v) :
    statsGet (stats.map fun p => if p.1 = k then (p.1, p.2 + q) else p) k = some (v + q) := by
  induction stats with
  | nil => simp [statsGet] at h
  | cons p rest ih =>
    obtain ⟨a, b⟩ := p
    unfold statsGet at h
    simp only [List.map_cons]
    by_cases hk : a = k
    · rw [if_pos hk] at h
      cases h
      rw [if_pos hk]
      unfold statsGet
      rw [if_pos hk]
    · rw [if_neg hk] at h
      rw [if_neg hk]
      unfold statsGet
      rw [if_neg hk]
      exact ih h

theorem statsGet_incr_none (stats : Stats) (k : StatType) (q : Int)
    (h : statsGet stats k = none) :
    statsGet (stats.map fun p => if p.1 = k then (p.1, p.2 + q) else p) k = none := by
  induction stats with
  | nil => simp [statsGet]
  | cons p rest ih =>
    obtain ⟨a, b⟩ := p
    unfold statsGet at h
    simp only [List.map_cons]
    by_cases hk : a = k
    · rw [if_pos hk] at h
      cases h
    · rw [if_neg hk] at h
      rw [if_neg hk]
      unfold statsGet
      rw [if_neg hk]
      exact ih h

theorem statsGet_incr_other (stats : Stats) (k st : StatType) (q : Int) (h : st ≠ k) :
    statsGet (stats.map fun p => if p.1 = k then (p.1, p.2 + q) else p) st
      = statsGet stats st := by
  induction stats with
  | nil => simp [statsGet]
  | cons p rest ih =>
    obtain ⟨a, b⟩ := p
    simp only [List.map_cons]
    by_cases hk : a = k
    · have hne : ¬ a = st := by
        rw [hk]
        exact fun hc => h hc.symm
      rw [if_pos hk]
      unfold statsGet
      rw [if_neg hne, if_neg hne]
      exact ih
    · rw [if_neg hk]
      unfold statsGet
      by_cases hst : a = st
      · rw [if_pos hst, if_pos hst]
      · rw [if_neg hst, if_neg hst]
        exact ih

theorem statsGet_incr_isSome (stats : Stats) (k st : StatType) (q : Int) :
    (statsGet (stats.map fun p => if p.1 = k then (p.1, p.2 + q) else p) st).isSome
      = (statsGet stats st).isSome := by
  by_cases hst : st = k
  · subst hst
    cases h : statsGet stats st with
    | none => simp [statsGet_incr_none stats st q h, h]
    | some v => simp [statsGet_incr_self stats st q v h, h]
  · rw [statsGet_incr_other stats k st q hst]

theorem walkChoose_isSome (entries : List (StatType × Int)) (t : Int) (h : entries ≠ []) :
    ∃ st, walkChoose entries t = some st := by
  cases entries with
  | nil => exact absurd rfl h
  | cons p rest =>
    obtain ⟨k, v⟩ := p
    unfold walkChoose
    by_cases ht : t - v * v < 0 <;> simp [ht]

theorem sumSquares_pos {stats : Stats} {p : StatType × Int}
    (hmem : p ∈ stats) (hp : 0 < p.2) : 0 < sumSquares stats := by
  have hterm : 0 < p.2 * p.2 := mul_pos hp hp
  have : p.2 * p.2 ≤ sumSquares stats := by
    unfold sumSquares
    induction stats with
    | nil => simp at hmem
    | cons q rest ih =>
      rcases List.mem_cons.mp hmem with h | h
      · subst h
        simp only [List.map_cons, List.sum_cons]
        have : 0 ≤ (rest.map fun r => r.2 * r.2).sum := by
          apply List.sum_nonneg
          intro x hx
          obtain ⟨r, -, hre⟩ := List.mem_map.mp hx
          rw [← hre]
          exact mul_self_nonneg _
        omega
      · have := ih h
        simp only [List.map_cons, List.sum_cons]
        have h0 : 0 ≤ q.2 * q.2 := mul_self_nonneg _
        omega
  omega

/-! ### win_stat -/

/-- The state produced by a successful `win_stat` call that chose `chosen`
and left the generator at `g'`: the chosen stat is incremented by one and,
for strength, the inventory capacity is resynced to `10 + strength`. -/
def winStatResult (s : GState) (g' : Rng) (chosen : StatType) : GState :=
  let stats' := s.player.stats.map fun p => if p.1 = chosen then (p.1, p.2 + 1) else p
  let inv' :=
    if chosen = .strength then
      s.player.inventory.set_capacity
        (((10 : Int) + (statsGet stats' .strength).getD 0 : Int) : ℚ)
    else s.player.inventory
  { s with rng := g', player := { s.player with stats := stats', inventory := inv' } }

theorem win_stat_spec (s : GState)
    (htotal : ∀ st : StatType, (statsGet s.player.stats st).isSome)
    (hsq : 0 < sumSquares s.player.stats) :
    ∃ g' chosen, win_stat s = some (winStatResult s g' chosen) := by
  obtain ⟨x, g1, hb⟩ := @below_isSome 2 s.rng (by norm_num)
  have hodds : s.oddsG 1 2 = some (decide (x < 1), { s with rng := g1 }) := by
    simp [GState.oddsG, odds, hb]
  have hne : s.player.stats ≠ [] := by
    intro hnil
    have := htotal .strength
    rw [hnil] at this
    simp [statsGet] at this
  unfold win_stat
  rw [hodds]
  simp only [Option.bind_eq_bind, Option.some_bind]
  by_cases hx : x < 1
  · have hxd : decide (x < 1) = true := by simp [hx]
    rw [hxd, if_pos rfl]
    obtain ⟨st, g2, hc, hmem⟩ := choice_isSome statTypeList g1 (by simp [statTypeList])
    have hcG : GState.choiceG statTypeList { s with rng := g1 } = some (st, { s with rng := g2 }) := by
      simp [GState.choiceG, hc]
    rw [hcG]
    simp only [Option.some_bind]
    obtain ⟨v0, hv0⟩ := Option.isSome_iff_exists.mp (htotal st)
    have hinc : Stats.increment s.player.stats st
        = some (s.player.stats.map fun p => if p.1 = st then (p.1, p.2 + 1) else p) := by
      simp [Stats.increment, htotal st]
    refine ⟨g2, st, ?_⟩
    rw [show ({ s with rng := g2 } : GState).player.stats = s.player.stats from rfl] at hinc ⊢
    rw [hinc]
    simp only [Option.some_bind]
    by_cases hst : st = StatType.strength
    · subst hst
      have hget := statsGet_incr_self s.player.stats .strength 1 v0 hv0
      simp only [GState.setStats, if_pos rfl, hget, Option.some_bind]
      simp [winStatResult, GState.updInv, hget]
    · simp only [GState.setStats, if_neg hst]
      simp [winStatResult, hst]
  · have hxd : decide (x < 1) = false := by simp [hx]
    rw [hxd, if_neg (by simp)]
    have hsq' : (0 : Int) < sumSquares ({ s with rng := g1 } : GState).player.stats := hsq
    obtain ⟨t', g2, hbt⟩ := below_isSome g1 hsq'
    have hbG : GState.belowG (sumSquares s.player.stats) { s with rng := g1 }
        = some (t', { s with rng := g2 }) := by
      simp [GState.belowG, hbt]
    rw [show sumSquares ({ s with rng := g1 } : GState).player.stats
          = sumSquares s.player.stats from rfl] at hbG ⊢
    rw [hbG]
    simp only [Option.some_bind]
    obtain ⟨st, hwalk⟩ := walkChoose_isSome s.player.stats t' hne
    rw [show ({ s with rng := g2 } : GState).player.stats = s.player.stats from rfl, hwalk]
    simp only [Option.pure_def, Option.bind_eq_bind, Option.some_bind]
    obtain ⟨v0, hv0⟩ := Option.isSome_iff_exists.mp (htotal st)
    have hinc : Stats.increment s.player.stats st
        = some (s.player.stats.map fun p => if p.1 = st then (p.1, p.2 + 1) else p) := by
      simp [Stats.increment, htotal st]
    refine ⟨g2, st, ?_⟩
    rw [hinc]
    simp only [Option.some_bind]
    by_cases hst : st = StatType.strength
    · subst hst
      have hget := statsGet_incr_self s.player.stats .strength 1 v0 hv0
      simp only [GState.setStats, if_pos rfl, hget, Option.some_bind]
      simp [winStatResult, GState.updInv, hget]
    · simp only [GState.setStats, if_neg hst]
      simp [winStatResult, hst]

theorem entries_nonneg_incr {stats : Stats} {k : StatType} {q : Int}
    (h : ∀ p ∈ stats, (0 : Int) ≤ p.2) (hq : 0 ≤ q) :
    ∀ p ∈ stats.map (fun p => if p.1 = k then (p.1, p.2 + q) else p), (0 : Int) ≤ p.2 := by
  intro p hp
  obtain ⟨r, hr, hre⟩ := List.mem_map.mp hp
  by_cases hk : r.1 = k
  · rw [if_pos hk] at hre
    rw [← hre]
    have := h r hr
    simp only []
    omega
  · rw [if_neg hk] at hre
    rw [← hre]
    exact h r hr

theorem statsGet_mono_incr {stats : Stats} {k ch : StatType} {v : Int} (q : Int)
    (h : statsGet stats k = some v) (hq : 0 ≤ q) :
    ∃ v', statsGet (stats.map fun p => if p.1 = ch then (p.1, p.2 + q) else p) k = some v'
      ∧ v ≤ v' := by
  by_cases hk : k = ch
  · subst hk
    exact ⟨v + q, statsGet_incr_self _ _ _ _ h, by omega⟩
  · refine ⟨v, ?_, le_refl v⟩
    rw [statsGet_incr_other _ _ _ _ hk]
    exact h

/-- A player used for concrete evaluations: all six stats present. -/
def examplePlayerA : Player :=
  { name := "p"
    race := ⟨"Elf"⟩
    class_ := ⟨"Bard"⟩
    stats := [(.strength, 3), (.condition, 3), (.intelligence, 3), (.wisdom, 3),
      (.hp_max, 3), (.mp_max, 3)]
    exp_bar := Bar.make 1200
    level := 1
    quest_book := QuestBook.make
    inventory := Inventory.make 13
    equipment := Equipment.make
    spell_book := []
    task_bar := Bar.make 0
    task := none
    queue := [] }

/-- A player whose stats mapping is non-empty with positive squared sum but
misses the strength entry. -/
def examplePlayerB : Player :=
  { examplePlayerA with stats := [(.intelligence, 2)] }

/-- The all-zero random stream. -/
def zeroRng : Rng :=
  ⟨fun _ => 0, 0⟩

def exampleStateA : GState :=
  ⟨examplePlayerA, zeroRng, 0, [], 0⟩

def exampleStateB : GState :=
  ⟨examplePlayerB, zeroRng, 0, [], 0⟩

/-- C10, counterexample: the stats mapping `{intelligence: 2}` is non-empty
with `Σ value² = 4 > 0`, yet `win_stat` under the all-zero random stream
takes the uniform branch, picks `strength` from the full enumeration, and
Python's `self.values[strength] += 1` raises `KeyError` — no stat is
incremented, refuting the claim for stats mappings that do not contain
every stat kind. -/
theorem C10_counterexample :
    win_stat exampleStateB = none := by
  rfl

/-- C10, amended: for every stats *mapping that contains every stat kind*
(as the real player's always does) with positive squared sum, `win_stat`
never fails — some stat is chosen in both the uniform and the
squared-weighted branch — increments exactly one stat by exactly 1, and,
when the chosen stat is strength, resets the inventory capacity to
`10 + strength` (with the just-incremented strength value). -/
theorem C10_win_stat_amended (s : GState)
    (htotal : ∀ st : StatType, (statsGet s.player.stats st).isSome)
    (hsq : 0 < sumSquares s.player.stats) :
    ∃ s' chosen v,
      win_stat s = some s'
      ∧ statsGet s.player.stats chosen = some v
      ∧ statsGet s'.player.stats chosen = some (v + 1)
      ∧ (∀ st, st ≠ chosen → statsGet s'.player.stats st = statsGet s.player.stats st)
      ∧ (chosen = .strength →
          s'.player.inventory.encum_bar.max_ = (((10 : Int) + (v + 1) : Int) : ℚ))
      ∧ (chosen ≠ .strength → s'.player.inventory = s.player.inventory) := by
  obtain ⟨g', chosen, heq⟩ := win_stat_spec s htotal hsq
  obtain ⟨v, hv⟩ := Option.isSome_iff_exists.mp (htotal chosen)
  refine ⟨_, chosen, v, heq, hv, ?_, ?_, ?_, ?_⟩
  · simp only [winStatResult]
    exact statsGet_incr_self _ _ _ _ hv
  · intro st hst
    simp only [winStatResult]
    exact statsGet_incr_other _ _ _ _ hst
  · intro hstr
    subst hstr
    have hget := statsGet_incr_self s.player.stats .strength 1 v hv
    simp only [winStatResult, if_pos rfl]
    rw [hget]
    simp [Inventory.set_capacity]
  · intro hstr
    simp [winStatResult, hstr]

/-- C10 witness: the amended theorem applied to a concrete player with all
six stats present. -/
theorem C10_win_stat_witness :
    (∀ st : StatType, (statsGet exampleStateA.player.stats st).isSome)
    ∧ 0 < sumSquares exampleStateA.player.stats
    ∧ (∃ s' chosen v,
        win_stat exampleStateA = some s'
        ∧ statsGet exampleStateA.player.stats chosen = some v
        ∧ statsGet s'.player.stats chosen = some (v + 1)
        ∧ (∀ st, st ≠ chosen →
            statsGet s'.player.stats st = statsGet exampleStateA.player.stats st)
        ∧ (chosen = .strength →
            s'.player.inventory.encum_bar.max_ = (((10 : Int) + (v + 1) : Int) : ℚ))
        ∧ (chosen ≠ .strength → s'.player.inventory = exampleStateA.player.inventory)) := by
  have h1 : ∀ st : StatType, (statsGet exampleStateA.player.stats st).isSome := by
    intro st
    cases st <;> rfl
  have h2 : 0 < sumSquares exampleStateA.player.stats := by decide
  exact ⟨h1, h2, C10_win_stat_amended exampleStateA h1 h2⟩

/-! ### win_spell and level_up -/

theorem win_spell_spec (cfg : Config) (s : GState) {w : Int}
    (hw : statsGet s.player.stats .wisdom = some w)
    (hpos : 0 < w + s.player.level)
    (hspells : cfg.SPELLS ≠ []) :
    ∃ name g', win_spell cfg s
      = some { s with
          rng := g'
          player := { s.player with
            spell_book := addSpell s.player.spell_book name 1 } } := by
  have hlen : 0 < (cfg.SPELLS.length : Int) := by
    have := List.length_pos.mpr hspells
    omega
  have hn : 0 < min (w + s.player.level) (cfg.SPELLS.length : Int) := lt_min hpos hlen
  obtain ⟨i, g', hi⟩ := below_low_isSome s.rng hn
  have hsp := below_low_spec hi
  have hlt : i.toNat < cfg.SPELLS.length := by
    have h2 : i < (cfg.SPELLS.length : Int) :=
      lt_of_lt_of_le hsp.2 (min_le_right _ _)
    omega
  refine ⟨cfg.SPELLS.get ⟨i.toNat, hlt⟩, g', ?_⟩
  have hname : cfg.SPELLS.get? i.toNat = some (cfg.SPELLS.get ⟨i.toNat, hlt⟩) :=
    List.get?_eq_get hlt
  have hname2 : cfg.SPELLS[i.toNat]? = some (cfg.SPELLS.get ⟨i.toNat, hlt⟩) := by
    rw [← List.get?_eq_getElem?]
    exact hname
  simp [win_spell, hw, GState.below_lowG, hi, hname, hname2]

theorem C7_level_up (cfg : Config) (s : GState)
    (htotal : ∀ st : StatType, (statsGet s.player.stats st).isSome)
    (hnn : ∀ p ∈ s.player.stats, (0 : Int) ≤ p.2)
    (hlvl : 1 ≤ s.player.level)
    (hspells : cfg.SPELLS ≠ [])
    (hexp : s.player.exp_bar.max_ = ((level_up_time s.player.level : Int) : ℚ)) :
    ∃ s', level_up cfg s = some s'
      ∧ s'.player.level = s.player.level + 1
      ∧ s.player.exp_bar.max_ < s'.player.exp_bar.max_
      ∧ s'.player.exp_bar.max_ = ((level_up_time s'.player.level : Int) : ℚ)
      ∧ (∀ v, statsGet s.player.stats .hp_max = some v →
          ∃ v', statsGet s'.player.stats .hp_max = some v' ∧ v ≤ v')
      ∧ (∀ v, statsGet s.player.stats .mp_max = some v →
          ∃ v', statsGet s'.player.stats .mp_max = some v' ∧ v ≤ v') := by
  obtain ⟨c, hc⟩ := Option.isSome_iff_exists.mp (htotal .condition)
  have hc0 : (0 : Int) ≤ c := hnn _ (statsGet_mem hc)
  obtain ⟨hpv, hhp⟩ := Option.isSome_iff_exists.mp (htotal .hp_max)
  have hhp0 : (0 : Int) ≤ hpv := hnn _ (statsGet_mem hhp)
  obtain ⟨mpv, hmp⟩ := Option.isSome_iff_exists.mp (htotal .mp_max)
  have hmp0 : (0 : Int) ≤ mpv := hnn _ (statsGet_mem hmp)
  obtain ⟨iv, hiv⟩ := Option.isSome_iff_exists.mp (htotal .intelligence)
  have hiv0 : (0 : Int) ≤ iv := hnn _ (statsGet_mem hiv)
  -- the two raw draws for the HP/MP growth
  obtain ⟨r1, g1, hr1⟩ := @below_isSome 4 s.rng (by norm_num)
  have hr1sp := below_spec hr1
  obtain ⟨r2, g2, hr2⟩ := @below_isSome 4 g1 (by norm_num)
  have hr2sp := below_spec hr2
  have hamt1pos : 1 ≤ c.fdiv 3 + 1 + r1 := by
    have : 0 ≤ c.fdiv 3 := Int.fdiv_nonneg hc0 (by norm_num)
    omega
  have hamt2pos : 1 ≤ iv.fdiv 3 + 1 + r2 := by
    have : 0 ≤ iv.fdiv 3 := Int.fdiv_nonneg hiv0 (by norm_num)
    omega
  -- the two stats updates
  set st1 : Stats := s.player.stats.map
    (fun p => if p.1 = .hp_max then (p.1, p.2 + (c.fdiv 3 + 1 + r1)) else p) with hst1def
  have hinc1 : Stats.increment s.player.stats .hp_max (c.fdiv 3 + 1 + r1) = some st1 := by
    simp [Stats.increment, htotal .hp_max, hst1def]
  set st2 : Stats := st1.map
    (fun p => if p.1 = .mp_max then (p.1, p.2 + (iv.fdiv 3 + 1 + r2)) else p) with hst2def
  have htotal1 : ∀ st : StatType, (statsGet st1 st).isSome := by
    intro st
    rw [hst1def, statsGet_incr_isSome]
    exact htotal st
  have hinc2 : Stats.increment st1 .mp_max (iv.fdiv 3 + 1 + r2) = some st2 := by
    simp [Stats.increment, htotal1 .mp_max, hst2def]
  have htotal2 : ∀ st : StatType, (statsGet st2 st).isSome := by
    intro st
    rw [hst2def, statsGet_incr_isSome]
    exact htotal1 st
  have hnn1 : ∀ p ∈ st1, (0 : Int) ≤ p.2 := entries_nonneg_incr hnn (by omega)
  have hnn2 : ∀ p ∈ st2, (0 : Int) ≤ p.2 := entries_nonneg_incr hnn1 (by omega)
  have hi1 : statsGet st1 .intelligence = some iv := by
    rw [hst1def, statsGet_incr_other _ _ _ _ (by decide)]
    exact hiv
  have hhp1 : statsGet st1 .hp_max = some (hpv + (c.fdiv 3 + 1 + r1)) :=
    statsGet_incr_self _ _ _ _ hhp
  have hhp2 : statsGet st2 .hp_max = some (hpv + (c.fdiv 3 + 1 + r1)) := by
    rw [hst2def, statsGet_incr_other _ _ _ _ (by decide)]
    exact hhp1
  have hsq2 : 0 < sumSquares st2 :=
    sumSquares_pos (statsGet_mem hhp2) (by simp only []; omega)
  have hmp2 : statsGet st2 .mp_max = some (mpv + (iv.fdiv 3 + 1 + r2)) := by
    rw [hst2def]
    have hmp1 : statsGet st1 .mp_max = some mpv := by
      rw [hst1def, statsGet_incr_other _ _ _ _ (by decide)]
      exact hmp
    exact statsGet_incr_self _ _ _ _ hmp1
  -- the first win_stat, applied to the explicit intermediate state
  obtain ⟨g3, ch1, hws1⟩ := win_stat_spec
    { s with rng := g2, player := { s.player with level := s.player.level + 1, stats := st2 } }
    (fun st => htotal2 st) hsq2
  set st3 : Stats := st2.map (fun p => if p.1 = ch1 then (p.1, p.2 + 1) else p) with hst3def
  have hres1 : (winStatResult
      { s with rng := g2, player := { s.player with level := s.player.level + 1, stats := st2 } }
      g3 ch1).player.stats = st3 := by
    simp only [winStatResult, hst3def]
  have htotal3 : ∀ st : StatType, (statsGet st3 st).isSome := by
    intro st
    rw [hst3def, statsGet_incr_isSome]
    exact htotal2 st
  obtain ⟨hp3, hhp3, hhp3le⟩ := @statsGet_mono_incr _ _ ch1 _ 1 hhp2 (by norm_num)
  have hsq3 : 0 < sumSquares st3 :=
    sumSquares_pos (statsGet_mem (show statsGet st3 .hp_max = some hp3 from hhp3))
      (by simp only []; omega)
  -- the second win_stat
  obtain ⟨g4, ch2, hws2⟩ := win_stat_spec
    (winStatResult
      { s with rng := g2, player := { s.player with level := s.player.level + 1, stats := st2 } }
      g3 ch1)
    (by rw [hres1]; exact htotal3) (by rw [hres1]; exact hsq3)
  set st4 : Stats := st3.map (fun p => if p.1 = ch2 then (p.1, p.2 + 1) else p) with hst4def
  have hres2 : (winStatResult (winStatResult
      { s with rng := g2, player := { s.player with level := s.player.level + 1, stats := st2 } }
      g3 ch1) g4 ch2).player.stats = st4 := by
    simp only [winStatResult, hst4def, hres1]
  have htotal4 : ∀ st : StatType, (statsGet st4 st).isSome := by
    intro st
    rw [hst4def, statsGet_incr_isSome]
    exact htotal3 st
  have hnn3 : ∀ p ∈ st3, (0 : Int) ≤ p.2 := entries_nonneg_incr hnn2 (by norm_num)
  have hnn4 : ∀ p ∈ st4, (0 : Int) ≤ p.2 := entries_nonneg_incr hnn3 (by norm_num)
  have hlvl2 : (winStatResult (winStatResult
      { s with rng := g2, player := { s.player with level := s.player.level + 1, stats := st2 } }
      g3 ch1) g4 ch2).player.level = s.player.level + 1 := by
    simp [winStatResult]
  -- win_spell on the resulting state
  obtain ⟨w4, hw4⟩ := Option.isSome_iff_exists.mp
    (show (statsGet (winStatResult (winStatResult
        { s with rng := g2, player := { s.player with level := s.player.level + 1, stats := st2 } }
        g3 ch1) g4 ch2).player.stats .wisdom).isSome by rw [hres2]; exact htotal4 _)
  have hw40 : (0 : Int) ≤ w4 := by
    have hmem := statsGet_mem hw4
    rw [hres2] at hmem
    exact hnn4 _ hmem
  obtain ⟨spname, g5, hwsp⟩ := win_spell_spec cfg
    (winStatResult (winStatResult
      { s with rng := g2, player := { s.player with level := s.player.level + 1, stats := st2 } }
      g3 ch1) g4 ch2)
    hw4 (by rw [hlvl2]; omega) hspells
  -- name the pieces of the final state
  generalize hW2 : winStatResult (winStatResult
      { s with rng := g2, player := { s.player with level := s.player.level + 1, stats := st2 } }
      g3 ch1) g4 ch2 = W2 at hws2 hres2 hlvl2 hwsp
  refine ⟨{ W2 with
      rng := g5
      player := { W2.player with
        exp_bar := W2.player.exp_bar.reset ((level_up_time W2.player.level : Int) : ℚ)
        spell_book := addSpell W2.player.spell_book spname 1 } }, ?_, ?_, ?_, ?_, ?_, ?_⟩
  · unfold level_up
    simp only [Option.bind_eq_bind, Option.some_bind, Option.pure_def]
    rw [hc]
    simp only [Option.some_bind]
    have hbG1 : GState.belowG 4
        { s with player := { s.player with level := s.player.level + 1 } }
        = some (r1, { s with
            rng := g1
            player := { s.player with level := s.player.level + 1 } }) := by
      simp [GState.belowG, hr1]
    rw [hbG1]
    simp only [Option.some_bind]
    rw [hinc1]
    simp only [Option.some_bind, GState.setStats]
    rw [hi1]
    simp only [Option.some_bind]
    have hbG2 : GState.belowG 4
        { s with
          rng := g1
          player := { s.player with level := s.player.level + 1, stats := st1 } }
        = some (r2, { s with
            rng := g2
            player := { s.player with level := s.player.level + 1, stats := st1 } }) := by
      simp [GState.belowG, hr2]
    rw [hbG2]
    simp only [Option.some_bind]
    rw [hinc2]
    simp only [Option.some_bind, GState.setStats]
    rw [hws1]
    simp only [Option.some_bind]
    rw [hws2]
    simp only [Option.some_bind]
    rw [hwsp]
    simp only [Option.some_bind]
  · show W2.player.level = s.player.level + 1
    exact hlvl2
  · rw [hexp]
    show ((level_up_time s.player.level : Int) : ℚ)
      < ((level_up_time W2.player.level : Int) : ℚ)
    rw [Int.cast_lt, hlvl2]
    unfold level_up_time
    omega
  · show ((level_up_time W2.player.level : Int) : ℚ)
      = ((level_up_time W2.player.level : Int) : ℚ)
    rfl
  · intro v hv
    rw [hhp] at hv
    cases hv
    obtain ⟨v4, hv4, hle4⟩ := @statsGet_mono_incr _ _ ch2 _ 1 hhp3 (by norm_num)
    refine ⟨v4, ?_, by omega⟩
    show statsGet W2.player.stats .hp_max = some v4
    rw [hres2, hst4def, hst3def]
    exact hv4
  · intro v hv
    rw [hmp] at hv
    cases hv
    obtain ⟨v3, hv3, hle3⟩ := @statsGet_mono_incr _ _ ch1 _ 1 hmp2 (by norm_num)
    obtain ⟨v4, hv4, hle4⟩ := @statsGet_mono_incr _ _ ch2 _ 1 hv3 (by norm_num)
    refine ⟨v4, ?_, by omega⟩
    show statsGet W2.player.stats .mp_max = some v4
    rw [hres2, hst4def, hst3def]
    exact hv4

/-- A tiny concrete content provider used for concrete evaluations. -/
def cfg0 : Config :=
  { MONSTERS := [⟨"orc", 1, none⟩]
    WEAPONS := [⟨"Stick", 0⟩]
    SHIELDS := [⟨"Plank", 0⟩]
    ARMORS := [⟨"Tunic", 0⟩]
    OFFENSE_ATTRIB := [⟨"Sharp", 1⟩]
    OFFENSE_BAD := [⟨"Dull", -1⟩]
    DEFENSE_ATTRIB := [⟨"Sturdy", 1⟩]
    DEFENSE_BAD := [⟨"Cracked", -1⟩]
    SPELLS := ["Zap"]
    RACES := [⟨"Elf"⟩]
    CLASSES := [⟨"Bard"⟩]
    TITLES := ["Sir"]
    IMPRESSIVE_TITLES := ["King"]
    ITEM_ATTRIB := ["Shiny"]
    SPECIALS := ["Gem"]
    ITEM_OFS := ["Doom"]
    BORING_ITEMS := ["rock"]
    indefinite := fun n _ => "a " ++ n
    definite := fun n _ => "the " ++ n
    act_name := fun i => "Act " ++ toString i
    sick := fun _ n => "sick " ++ n
    young := fun _ n => "young " ++ n
    big := fun _ n => "big " ++ n
    special := fun _ n => "special " ++ n
    generate_name := fun g => ("Bob", g) }

/-- C7 witness: the level-up theorem applied to a concrete level-1 player
with all six stats present and value 3. -/
theorem C7_level_up_witness :
    (∀ st : StatType, (statsGet exampleStateA.player.stats st).isSome)
    ∧ (∀ p ∈ exampleStateA.player.stats, (0 : Int) ≤ p.2)
    ∧ 1 ≤ exampleStateA.player.level
    ∧ cfg0.SPELLS ≠ []
    ∧ exampleStateA.player.exp_bar.max_
        = ((level_up_time exampleStateA.player.level : Int) : ℚ)
    ∧ (∃ s', level_up cfg0 exampleStateA = some s'
        ∧ s'.player.level = exampleStateA.player.level + 1
        ∧ exampleStateA.player.exp_bar.max_ < s'.player.exp_bar.max_
        ∧ s'.player.exp_bar.max_ = ((level_up_time s'.player.level : Int) : ℚ)
        ∧ (∀ v, statsGet exampleStateA.player.stats .hp_max = some v →
            ∃ v', statsGet s'.player.stats .hp_max = some v' ∧ v ≤ v')
        ∧ (∀ v, statsGet exampleStateA.player.stats .mp_max = some v →
            ∃ v', statsGet s'.player.stats .mp_max = some v' ∧ v ≤ v')) := by
  have h1 : ∀ st : StatType, (statsGet exampleStateA.player.stats st).isSome := by
    intro st
    cases st <;> rfl
  have h2 : ∀ p ∈ exampleStateA.player.stats, (0 : Int) ≤ p.2 := by decide
  have h3 : 1 ≤ exampleStateA.player.level := by decide
  have h4 : cfg0.SPELLS ≠ [] := by decide
  have h5 : exampleStateA.player.exp_bar.max_
      = ((level_up_time exampleStateA.player.level : Int) : ℚ) := by
    show (1200 : ℚ) = ((level_up_time 1 : Int) : ℚ)
    norm_num [level_up_time]
  exact ⟨h1, h2, h3, h4, h5, C7_level_up cfg0 exampleStateA h1 h2 h3 h4 h5⟩

/-! ### C3 — determinism of a run under a fixed seed -/

/-- C3: with the random generator an explicit deterministic stream carried
in the state (the seed fixes it), `tick` is a pure function, so two runs
of the same `tick(elapsed)` calls from identical initial player states
(same player, same generator state, same ghosts) produce identical
sequences of task descriptions (the `new_task` trace) and identical final
player states. -/
theorem C3_determinism (cfg : Config) (es1 es2 : List ℚ) (s1 s2 : GState)
    (hs : s1 = s2) (he : es1 = es2) :
    (runTicks cfg es1 s1).map GState.trace = (runTicks cfg es2 s2).map GState.trace
    ∧ (runTicks cfg es1 s1).map GState.player
        = (runTicks cfg es2 s2).map GState.player := by
  subst hs
  subst he
  exact ⟨rfl, rfl⟩

/-- C3 witness: the determinism theorem applied to a concrete run. -/
theorem C3_determinism_witness :
    exampleStateA = exampleStateA ∧ ([(100 : ℚ)] : List ℚ) = [(100 : ℚ)]
    ∧ (runTicks cfg0 [100] exampleStateA).map GState.trace
        = (runTicks cfg0 [100] exampleStateA).map GState.trace
    ∧ (runTicks cfg0 [100] exampleStateA).map GState.player
        = (runTicks cfg0 [100] exampleStateA).map GState.player :=
  ⟨rfl, rfl,
    (C3_determinism cfg0 [100] [100] exampleStateA exampleStateA rfl rfl).1,
    (C3_determinism cfg0 [100] [100] exampleStateA exampleStateA rfl rfl).2⟩

/-! ### Success specifications for the content-consuming operations -/

/-- The relation "differs only in the random generator". -/
def RngOnly (s s' : GState) : Prop :=
  s'.player = s.player ∧ s'.elapsed = s.elapsed ∧ s'.trace = s.trace
    ∧ s'.winEquipCount = s.winEquipCount

theorem RngOnly.refl (s : GState) : RngOnly s s :=
  ⟨rfl, rfl, rfl, rfl⟩

theorem RngOnly.trans {s1 s2 s3 : GState} (h1 : RngOnly s1 s2) (h2 : RngOnly s2 s3) :
    RngOnly s1 s3 := by
  obtain ⟨a1, a2, a3, a4⟩ := h1
  obtain ⟨b1, b2, b3, b4⟩ := h2
  exact ⟨b1.trans a1, b2.trans a2, b3.trans a3, b4.trans a4⟩

theorem choiceG_spec {α : Type} (xs : List α) (s : GState) (h : xs ≠ []) :
    ∃ x s', GState.choiceG xs s = some (x, s') ∧ x ∈ xs ∧ RngOnly s s' := by
  obtain ⟨x, g', hg, hmem⟩ := choice_isSome xs s.rng h
  exact ⟨x, { s with rng := g' }, by simp [GState.choiceG, hg], hmem, ⟨rfl, rfl, rfl, rfl⟩⟩

theorem choice_lowG_spec {α : Type} (xs : List α) (s : GState) (h : xs ≠ []) :
    ∃ x s', GState.choice_lowG xs s = some (x, s') ∧ x ∈ xs ∧ RngOnly s s' := by
  obtain ⟨x, g', hg, hmem⟩ := choice_low_isSome xs s.rng h
  exact ⟨x, { s with rng := g' },
    by simp [GState.choice_lowG, hg], hmem, ⟨rfl, rfl, rfl, rfl⟩⟩

theorem belowG_spec (n : Int) (s : GState) (h : 0 < n) :
    ∃ x s', GState.belowG n s = some (x, s') ∧ 0 ≤ x ∧ x < n ∧ RngOnly s s' := by
  obtain ⟨x, g', hg⟩ := below_isSome s.rng h
  have hs := below_spec hg
  exact ⟨x, { s with rng := g' }, by simp [GState.belowG, hg], hs.1, hs.2.1,
    ⟨rfl, rfl, rfl, rfl⟩⟩

theorem below_lowG_spec (n : Int) (s : GState) (h : 0 < n) :
    ∃ x s', GState.below_lowG n s = some (x, s') ∧ 0 ≤ x ∧ x < n ∧ RngOnly s s' := by
  obtain ⟨x, g', hg⟩ := below_low_isSome s.rng h
  have hs := below_low_spec hg
  exact ⟨x, { s with rng := g' }, by simp [GState.below_lowG, hg], hs.1, hs.2,
    ⟨rfl, rfl, rfl, rfl⟩⟩

theorem oddsG_spec (a b : Int) (s : GState) (h : 0 < b) :
    ∃ v s', GState.oddsG a b s = some (v, s') ∧ RngOnly s s' := by
  obtain ⟨v, g', hg⟩ := @odds_isSome a b s.rng h
  exact ⟨v, { s with rng := g' }, by simp [GState.oddsG, hg], ⟨rfl, rfl, rfl, rfl⟩⟩

theorem genNameG_spec (cfg : Config) (s : GState) :
    ∃ x s', GState.genNameG cfg s = (x, s') ∧ RngOnly s s' := by
  refine ⟨(cfg.generate_name s.rng).1, { s with rng := (cfg.generate_name s.rng).2 }, ?_, ?_⟩
  · simp [GState.genNameG]
  · exact ⟨rfl, rfl, rfl, rfl⟩

theorem pick_equipment_spec (source : List EquipmentPreset) (goal : Int) (s : GState)
    (h : source ≠ []) :
    ∃ e s', pick_equipment source goal s = some (e, s') ∧ RngOnly s s' := by
  have hfold : ∀ (l : List Nat) (acc : EquipmentPreset × GState),
      ∃ e s', l.foldlM (pickStep source goal) acc = some (e, s') ∧ RngOnly acc.2 s' := by
    intro l
    induction l with
    | nil => exact fun acc => ⟨acc.1, acc.2, rfl, RngOnly.refl _⟩
    | cons x rest ih =>
      intro acc
      obtain ⟨alt, s1, hch, -, hro⟩ := choiceG_spec source acc.2 h
      by_cases hq : |goal - alt.quality| < |goal - acc.1.quality|
      · obtain ⟨e, s', hf, hro'⟩ := ih (alt, s1)
        refine ⟨e, s', ?_, hro.trans hro'⟩
        rw [List.foldlM_cons]
        rw [show pickStep source goal acc x = some (alt, s1) from by
          simp [pickStep, hch, hq]]
        simp only [Option.bind_eq_bind, Option.some_bind]
        exact hf
      · obtain ⟨e, s', hf, hro'⟩ := ih (acc.1, s1)
        refine ⟨e, s', ?_, hro.trans hro'⟩
        rw [List.foldlM_cons]
        rw [show pickStep source goal acc x = some (acc.1, s1) from by
          simp [pickStep, hch, hq]]
        simp only [Option.bind_eq_bind, Option.some_bind]
        exact hf
  obtain ⟨r, s1, hch, -, hro⟩ := choiceG_spec source s h
  obtain ⟨e, s', hf, hro'⟩ := hfold (List.range 5) (r, s1)
  refine ⟨e, s', ?_, hro.trans hro'⟩
  unfold pick_equipment
  rw [hch]
  simp only [Option.bind_eq_bind, Option.some_bind]
  exact hf

theorem modLoop_spec (pool : List Modifier) (h : pool ≠ []) :
    ∀ (fuel : Nat) (name : String) (plus : Int) (s : GState),
    ∃ nm pl s', modLoop pool fuel name plus s = some (nm, pl, s') ∧ RngOnly s s' := by
  intro fuel
  induction fuel with
  | zero => exact fun name plus s => ⟨name, plus, s, rfl, RngOnly.refl s⟩
  | succ fuel ih =>
    intro name plus s
    by_cases hp : plus = 0
    · exact ⟨name, plus, s, by simp [modLoop, hp], RngOnly.refl s⟩
    · obtain ⟨m, s1, hch, -, hro⟩ := choiceG_spec pool s h
      by_cases hc1 : strContains name m.name
      · exact ⟨name, plus, s1, by simp [modLoop, hp, hch, hc1], hro⟩
      · by_cases hc2 : |plus| < |m.quality|
        · exact ⟨name, plus, s1, by simp [modLoop, hp, hch, hc1, hc2], hro⟩
        · obtain ⟨nm, pl, s', hf, hro'⟩ := ih (m.name ++ " " ++ name) (plus - m.quality) s1
          exact ⟨nm, pl, s', by simp [modLoop, hp, hch, hc1, hc2, hf], hro.trans hro'⟩

theorem unnamed_monster_spec (cfg : Config) (level : Int) (iterations : Nat) (s : GState)
    (h : cfg.MONSTERS ≠ []) :
    ∃ m s', unnamed_monster cfg level iterations s = some (m, s')
      ∧ m ∈ cfg.MONSTERS ∧ RngOnly s s' := by
  have hfold : ∀ (l : List Nat) (acc : Monster × GState), acc.1 ∈ cfg.MONSTERS →
      ∃ m s', l.foldlM (monsterStep cfg level) acc = some (m, s')
        ∧ m ∈ cfg.MONSTERS ∧ RngOnly acc.2 s' := by
    intro l
    induction l with
    | nil => exact fun acc hm => ⟨acc.1, acc.2, rfl, hm, RngOnly.refl _⟩
    | cons x rest ih =>
      intro acc hm
      obtain ⟨alt, s1, hch, hmem, hro⟩ := choiceG_spec cfg.MONSTERS acc.2 h
      by_cases hq : |level - alt.level| < |level - acc.1.level|
      · obtain ⟨m, s', hf, hm', hro'⟩ := ih (alt, s1) hmem
        refine ⟨m, s', ?_, hm', hro.trans hro'⟩
        rw [List.foldlM_cons]
        rw [show monsterStep cfg level acc x = some (alt, s1) from by
          simp [monsterStep, hch, hq]]
        simp only [Option.bind_eq_bind, Option.some_bind]
        exact hf
      · obtain ⟨m, s', hf, hm', hro'⟩ := ih (acc.1, s1) hm
        refine ⟨m, s', ?_, hm', hro.trans hro'⟩
        rw [List.foldlM_cons]
        rw [show monsterStep cfg level acc x = some (acc.1, s1) from by
          simp [monsterStep, hch, hq]]
        simp only [Option.bind_eq_bind, Option.some_bind]
        exact hf
  obtain ⟨r, s1, hch, hmem, hro⟩ := choiceG_spec cfg.MONSTERS s h
  obtain ⟨m, s', hf, hm', hro'⟩ := hfold (List.range iterations) (r, s1) hmem
  refine ⟨m, s', ?_, hm', hro.trans hro'⟩
  unfold unnamed_monster
  rw [hch]
  simp only [Option.bind_eq_bind, Option.some_bind]
  exact hf

theorem win_equipment_spec (cfg : Config) (s : GState) (hwf : cfg.wf) :
    ∃ s', win_equipment cfg s = some s'
      ∧ s'.player.stats = s.player.stats
      ∧ s'.player.level = s.player.level
      ∧ s'.player.inventory = s.player.inventory
      ∧ s'.player.task = s.player.task
      ∧ s'.player.task_bar = s.player.task_bar
      ∧ s'.player.queue = s.player.queue
      ∧ s'.player.quest_book = s.player.quest_book
      ∧ s'.player.exp_bar = s.player.exp_bar
      ∧ s'.player.spell_book = s.player.spell_book
      ∧ s'.trace = s.trace
      ∧ s'.elapsed = s.elapsed
      ∧ s'.winEquipCount = s.winEquipCount + 1 := by
  obtain ⟨-, hW, hS, hA, hOA, hOB, hDA, hDB, -⟩ := hwf
  obtain ⟨slot, s1, hch, -, hro1⟩ :=
    choiceG_spec equipmentTypeList { s with winEquipCount := s.winEquipCount + 1 }
      (by simp [equipmentTypeList])
  have hstuff1 : (if slot = EquipmentType.weapon then cfg.WEAPONS
      else if slot = EquipmentType.shield then cfg.SHIELDS else cfg.ARMORS) ≠ [] := by
    split_ifs <;> assumption
  obtain ⟨e, s2, hpick, hro2⟩ := pick_equipment_spec _ s1.player.level s1 hstuff1
  have hpool : (if s2.player.level - e.quality < 0
      then (if slot = EquipmentType.weapon then cfg.OFFENSE_BAD else cfg.DEFENSE_BAD)
      else (if slot = EquipmentType.weapon then cfg.OFFENSE_ATTRIB else cfg.DEFENSE_ATTRIB))
      ≠ [] := by
    split_ifs <;> assumption
  obtain ⟨nm, pl, s3, hmod, hro3⟩ := modLoop_spec _ hpool 2 e.name
    (s2.player.level - e.quality) s2
  have hlvl12 : s1.player.level = s2.player.level := by rw [hro2.1]
  refine ⟨{ s3 with player := { s3.player with
      equipment := s3.player.equipment.put slot
        (if pl < 0 then toString pl ++ " " ++ nm
         else if pl > 0 then "+" ++ toString pl ++ " " ++ nm else nm) } }, ?_, ?_⟩
  · unfold win_equipment
    simp only [Option.bind_eq_bind, Option.some_bind, Option.pure_def]
    rw [hch]
    simp only [Option.some_bind]
    rw [hpick]
    simp only [Option.some_bind]
    rw [hmod]
    simp only [Option.some_bind]
  · have hp3 : s3.player = s.player := by
      rw [hro3.1, hro2.1, hro1.1]
    have ht3 : s3.trace = s.trace := by
      rw [hro3.2.2.1, hro2.2.2.1, hro1.2.2.1]
    have he3 : s3.elapsed = s.elapsed := by
      rw [hro3.2.1, hro2.2.1, hro1.2.1]
    have hw3 : s3.winEquipCount = s.winEquipCount + 1 := by
      rw [hro3.2.2.2, hro2.2.2.2, hro1.2.2.2]
    refine ⟨?_, ?_, ?_, ?_, ?_, ?_, ?_, ?_, ?_, ?_, ?_, ?_⟩ <;>
      simp [hp3, ht3, he3, hw3]

theorem win_item_spec (cfg : Config) (s : GState) (hwf : cfg.wf) :
    ∃ nm s', win_item cfg s = some s'
      ∧ s'.player.inventory = s.player.inventory.add nm 1
      ∧ s'.player.stats = s.player.stats
      ∧ s'.player.level = s.player.level
      ∧ s'.player.task = s.player.task
      ∧ s'.player.task_bar = s.player.task_bar
      ∧ s'.player.queue = s.player.queue
      ∧ s'.player.quest_book = s.player.quest_book
      ∧ s'.player.exp_bar = s.player.exp_bar
      ∧ s'.player.equipment = s.player.equipment
      ∧ s'.player.spell_book = s.player.spell_book
      ∧ s'.trace = s.trace
      ∧ s'.elapsed = s.elapsed
      ∧ s'.winEquipCount = s.winEquipCount := by
  obtain ⟨-, -, -, -, -, -, -, -, -, -, -, -, -, hIA, hSP, hIO, -, -⟩ := hwf
  obtain ⟨a, s1, hA, -, hro1⟩ := choiceG_spec cfg.ITEM_ATTRIB s hIA
  obtain ⟨b, s2, hB, -, hro2⟩ := choiceG_spec cfg.SPECIALS s1 hSP
  obtain ⟨o, s3, hO, -, hro3⟩ := choiceG_spec cfg.ITEM_OFS s2 hIO
  have hro : RngOnly s s3 := (hro1.trans hro2).trans hro3
  refine ⟨a ++ " " ++ b ++ " of " ++ o,
    s3.updInv (·.add (a ++ " " ++ b ++ " of " ++ o) 1), ?_, ?_⟩
  · unfold win_item special_item interesting_item
    rw [hA]
    simp only [Option.bind_eq_bind, Option.pure_def, Option.some_bind]
    rw [hB]
    simp only [Option.pure_def, Option.some_bind]
    rw [hO]
    simp only [Option.pure_def, Option.some_bind]
  · refine ⟨?_, ?_, ?_, ?_, ?_, ?_, ?_, ?_, ?_, ?_, ?_, ?_, ?_⟩ <;>
      simp [GState.updInv, hro.1, hro.2.1, hro.2.2.1, hro.2.2.2]

/-! ### C8 — the buy scenario -/

theorem dequeueAux_succ (cfg : Config) (fuel : Nat) (s : GState) :
    dequeueAux cfg (fuel + 1) s =
      if s.player.task_bar.done then
        (dequeueBody cfg s) >>= (fun r => match r with
          | .inl s' => dequeueAux cfg fuel s'
          | .inr s' => pure s')
      else pure s := rfl

@[simp] theorem set_task_task (s : GState) (t : Task) :
    (set_task s t).player.task = some t := rfl

@[simp] theorem set_task_bar (s : GState) (t : Task) :
    (set_task s t).player.task_bar = Bar.make ((t.duration : Int) : ℚ) := rfl

@[simp] theorem set_task_inv (s : GState) (t : Task) :
    (set_task s t).player.inventory = s.player.inventory := rfl

@[simp] theorem set_task_queue (s : GState) (t : Task) :
    (set_task s t).player.queue = s.player.queue := rfl

@[simp] theorem set_task_level (s : GState) (t : Task) :
    (set_task s t).player.level = s.player.level := rfl

@[simp] theorem set_task_qb (s : GState) (t : Task) :
    (set_task s t).player.quest_book = s.player.quest_book := rfl

@[simp] theorem set_task_count (s : GState) (t : Task) :
    (set_task s t).winEquipCount = s.winEquipCount := rfl

/-- A freshly installed positive-duration task leaves the task bar not
done. -/
theorem fresh_bar_not_done (dur : Int) (h : 0 < dur) :
    (Bar.make ((dur : Int) : ℚ)).done = false := by
  simp only [Bar.make, Bar.done, decide_eq_false_iff_not, not_le]
  exact_mod_cast h

theorem equip_price_level1 (p : Player) (h : p.level = 1) : equip_price p = 35 := by
  unfold equip_price
  rw [h]
  norm_num

/-- A level-1 player with 100 gold whose just-finished task is a SellTask
(neither a KillTask nor a HeadingToKillingFieldsTask), with an empty
pending queue and a non-full encumbrance bar. -/
def exampleStateSell : GState :=
  ⟨{ examplePlayerA with
      inventory := ⟨100, [⟨"a", 1⟩, ⟨"b", 1⟩], Bar.mk 2 13⟩
      task := some (.sell "Selling a a" 1000)
      task_bar := Bar.mk 1000 1000
      queue := [] }, zeroRng, 0, [], 0⟩

/-- C8, counterexample: the claim quantifies over *any* finished task that
is neither a KillTask nor a HeadingToKillingFieldsTask, but a finished
SellTask with a still non-empty inventory re-queues another SellTask and
breaks out of the loop — no BuyTask is installed even though the player is
level 1 with 100 gold, the queue is empty and the encumbrance bar is not
full. -/
theorem C8_counterexample :
    ((dequeue cfg0 exampleStateSell).map
        (fun s' => match s'.player.task with
          | some (.buy _ _) => true
          | _ => false)) = some false
    ∧ ((dequeue cfg0 exampleStateSell).map
        (fun s' => match s'.player.task with
          | some (.sell _ _) => true
          | _ => false)) = some true := by
  constructor <;> rfl

/-- C8, amended: restricted to finished tasks outside all the special-cased
variants (a RegularTask for the first part): for a level-1 player with 100
gold (`equip_price() = 35`), an empty pending queue and a non-full
encumbrance bar, finishing a RegularTask makes `dequeue()` set a BuyTask
(gold untouched); and when a BuyTask finishes in such a state, exactly 35
gold is deducted (leaving 65) and `win_equipment()` runs exactly once —
after which, 65 being still above the price, another BuyTask is set. -/
theorem C8_buy_amended (cfg : Config) (s : GState) (hwf : cfg.wf)
    (h1 : s.player.level = 1) (hgold : s.player.inventory.gold = 100)
    (hq : s.player.queue = []) (hencum : s.player.inventory.encum_bar.done = false)
    (hdone : s.player.task_bar.done = true) :
    (∀ d dur, s.player.task = some (.regular d dur) →
      ∃ s', dequeue cfg s = some s'
        ∧ s'.player.task = some (.buy "Negotiating purchase of better equipment" 5000)
        ∧ s'.player.inventory.gold = 100
        ∧ s'.winEquipCount = s.winEquipCount)
    ∧ (∀ d dur, s.player.task = some (.buy d dur) →
      ∃ s', dequeue cfg s = some s'
        ∧ s'.player.inventory.gold = 65
        ∧ s'.winEquipCount = s.winEquipCount + 1
        ∧ s'.player.task = some (.buy "Negotiating purchase of better equipment" 5000)) := by
  have hep : equip_price s.player = 35 := equip_price_level1 _ h1
  constructor
  · intro d dur htask
    have hbody : dequeueBody cfg s
        = Sum.inl <$> selectNext cfg (some (Task.regular d dur)) s := by
      unfold dequeueBody
      rw [htask]
    have hsel : selectNext cfg (some (Task.regular d dur)) s
        = some (set_task s (.buy "Negotiating purchase of better equipment" 5000)) := by
      unfold selectNext
      rw [hq, hencum, hgold, hep]
      norm_num [isKillOrHKF]
    obtain ⟨m, hm⟩ : ∃ m, dequeueFuel s = m + 8 := ⟨_, rfl⟩
    refine ⟨set_task s (.buy "Negotiating purchase of better equipment" 5000), ?_, rfl,
      by rw [set_task_inv, hgold], rfl⟩
    unfold dequeue
    rw [hm]
    rw [show m + 8 = (m + 7) + 1 from rfl, dequeueAux_succ, if_pos hdone, hbody, hsel]
    simp only [Option.map_eq_map, Option.map_some', Option.bind_eq_bind, Option.some_bind]
    rw [show m + 7 = (m + 6) + 1 from rfl, dequeueAux_succ]
    simp only [set_task_bar, Task.duration, fresh_bar_not_done 5000 (by norm_num)]
    simp
  · intro d dur htask
    obtain ⟨sw, hwe, hwst, hwlvl, hwinv, hwtask, hwbar, hwq, hwqb, hwexp, hwsp, hwtr,
      hwel, hwcount⟩ :=
      win_equipment_spec cfg (s.updInv (·.add_gold (-(equip_price s.player)))) hwf
    have hbody : dequeueBody cfg s
        = (win_equipment cfg (s.updInv (·.add_gold (-(equip_price s.player))))) >>=
            (fun sx => Sum.inl <$> selectNext cfg sx.player.task sx) := by
      unfold dequeueBody
      rw [htask]
    rw [hwe] at hbody
    simp only [Option.bind_eq_bind, Option.some_bind] at hbody
    have hwtask' : sw.player.task = some (.buy d dur) := by
      rw [hwtask]
      show s.player.task = _
      exact htask
    have hwgold : sw.player.inventory.gold = 65 := by
      rw [hwinv]
      show s.player.inventory.gold + (-(equip_price s.player)) = 65
      rw [hgold, hep]
      norm_num
    have hwenc : sw.player.inventory.encum_bar.done = false := by
      rw [hwinv]
      show s.player.inventory.encum_bar.done = false
      exact hencum
    have hwq' : sw.player.queue = [] := by
      rw [hwq]
      show s.player.queue = []
      exact hq
    have hwep : equip_price sw.player = 35 := by
      apply equip_price_level1
      rw [hwlvl]
      show s.player.level = 1
      exact h1
    have hsel : selectNext cfg sw.player.task sw
        = some (set_task sw (.buy "Negotiating purchase of better equipment" 5000)) := by
      unfold selectNext
      rw [hwq', hwenc, hwgold, hwep, hwtask']
      norm_num [isKillOrHKF]
    obtain ⟨m, hm⟩ : ∃ m, dequeueFuel s = m + 8 := ⟨_, rfl⟩
    refine ⟨set_task sw (.buy "Negotiating purchase of better equipment" 5000), ?_,
      by rw [set_task_inv, hwgold], by rw [set_task_count, hwcount]; rfl, rfl⟩
    unfold dequeue
    rw [hm]
    rw [show m + 8 = (m + 7) + 1 from rfl, dequeueAux_succ, if_pos hdone, hbody, hsel]
    simp only [Option.map_eq_map, Option.map_some', Option.bind_eq_bind, Option.some_bind]
    rw [show m + 7 = (m + 6) + 1 from rfl, dequeueAux_succ]
    simp only [set_task_bar, Task.duration, fresh_bar_not_done 5000 (by norm_num)]
    simp

/-- A level-1 player with 100 gold who just finished a RegularTask. -/
def exampleStateRegular : GState :=
  ⟨{ examplePlayerA with
      inventory := ⟨100, [], Bar.make 13⟩
      task := some (.regular "resting" 100)
      task_bar := Bar.mk 100 100
      queue := [] }, zeroRng, 0, [], 0⟩

/-- A level-1 player with 100 gold who just finished a BuyTask. -/
def exampleStateBuy : GState :=
  ⟨{ examplePlayerA with
      inventory := ⟨100, [], Bar.make 13⟩
      task := some (.buy "Negotiating purchase of better equipment" 5000)
      task_bar := Bar.mk 5000 5000
      queue := [] }, zeroRng, 0, [], 0⟩

/-- C8 witness: both parts of the amended theorem at concrete level-1
players with 100 gold. -/
theorem C8_buy_witness :
    cfg0.wf
    ∧ exampleStateRegular.player.level = 1
    ∧ exampleStateRegular.player.inventory.gold = 100
    ∧ exampleStateRegular.player.queue = []
    ∧ exampleStateRegular.player.inventory.encum_bar.done = false
    ∧ exampleStateRegular.player.task_bar.done = true
    ∧ (∃ s', dequeue cfg0 exampleStateRegular = some s'
        ∧ s'.player.task = some (.buy "Negotiating purchase of better equipment" 5000)
        ∧ s'.player.inventory.gold = 100
        ∧ s'.winEquipCount = exampleStateRegular.winEquipCount)
    ∧ (∃ s', dequeue cfg0 exampleStateBuy = some s'
        ∧ s'.player.inventory.gold = 65
        ∧ s'.winEquipCount = exampleStateBuy.winEquipCount + 1
        ∧ s'.player.task = some (.buy "Negotiating purchase of better equipment" 5000)) := by
  have hwf : cfg0.wf := by
    refine ⟨?_, ?_, ?_, ?_, ?_, ?_, ?_, ?_, ?_, ?_, ?_, ?_, ?_, ?_, ?_, ?_, ?_, ?_⟩ <;>
      decide
  refine ⟨hwf, rfl, rfl, rfl, rfl, rfl, ?_, ?_⟩
  · exact (C8_buy_amended cfg0 exampleStateRegular hwf rfl rfl rfl rfl rfl).1
      "resting" 100 rfl
  · exact (C8_buy_amended cfg0 exampleStateBuy hwf rfl rfl rfl rfl rfl).2
      "Negotiating purchase of better equipment" 5000 rfl

/-! ### C2 — liveness of dequeue.  Stage 1: monster_task always yields a
kill task with a wellformed monster reference. -/

theorem walkLevel_spec : ∀ (trials : Nat) (level : Int) (s : GState),
    ∃ x s', walkLevel trials level s = some (x, s') ∧ RngOnly s s' := by
  intro trials
  induction trials with
  | zero => exact fun level s => ⟨level, s, rfl, RngOnly.refl s⟩
  | succ t ih =>
    intro level s
    obtain ⟨b, s1, hodds, hro1⟩ := oddsG_spec 2 5 s (by norm_num)
    cases b with
    | false =>
      obtain ⟨x, s', hw, hro'⟩ := ih level s1
      exact ⟨x, s', by simp [walkLevel, hodds, hw], hro1.trans hro'⟩
    | true =>
      obtain ⟨r, s2, hbel, -, -, hro2⟩ := belowG_spec 2 s1 (by norm_num)
      obtain ⟨x, s', hw, hro'⟩ := ih (level + r * 2 - 1) s2
      exact ⟨x, s', by simp [walkLevel, hodds, hbel, hw], (hro1.trans hro2).trans hro'⟩

theorem monsterBranch_spec (cfg : Config) (hwf : cfg.wf) (level : Int)
    (qm : Option Monster) (hqm : ∀ m, qm = some m → m.item ≠ some "") (s : GState) :
    ∃ r lev mon isdef s', monsterBranch cfg level qm s = some ((r, lev, mon, isdef), s')
      ∧ RngOnly s s' ∧ (∀ m, mon = some m → m.item ≠ some "") := by
  obtain ⟨hM, -, -, -, -, -, -, -, -, hR, hC, hT, -, -, -, -, -, hMok⟩ := hwf
  obtain ⟨b1, s1, ho1, hro1⟩ := oddsG_spec 1 25 s (by norm_num)
  cases b1 with
  | true =>
    obtain ⟨race, s2, hrace, -, hro2⟩ := choiceG_spec cfg.RACES s1 hR
    obtain ⟨b2, s3, ho2, hro3⟩ := oddsG_spec 1 2 s2 (by norm_num)
    cases b2 with
    | true =>
      obtain ⟨cls, s4, hcls, -, hro4⟩ := choiceG_spec cfg.CLASSES s3 hC
      refine ⟨"passing " ++ race.name ++ " " ++ cls.name, level, none, false, s4, ?_,
        ((hro1.trans hro2).trans hro3).trans hro4, by simp⟩
      simp [monsterBranch, ho1, hrace, ho2, hcls]
    | false =>
      obtain ⟨title, s4, htitle, -, hro4⟩ := choice_lowG_spec cfg.TITLES s3 hT
      obtain ⟨nm, s5, hnm, hro5⟩ := genNameG_spec cfg s4
      refine ⟨title ++ " " ++ nm ++ " the " ++ race.name, level, none, true, s5, ?_,
        (((hro1.trans hro2).trans hro3).trans hro4).trans hro5, by simp⟩
      simp [monsterBranch, ho1, hrace, ho2, htitle, hnm]
  | false =>
    cases hq : qm with
    | some q =>
      obtain ⟨b3, s2, ho3, hro2⟩ := oddsG_spec 1 4 s1 (by norm_num)
      cases b3 with
      | true =>
        refine ⟨q.name, q.level, some q, false, s2, ?_, hro1.trans hro2, ?_⟩
        · simp [monsterBranch, ho1, ho3]
        · intro m hm
          cases hm
          exact hqm _ hq
      | false =>
        obtain ⟨m, s3, hum, hmem, hro3⟩ := unnamed_monster_spec cfg level 5 s2 hM
        refine ⟨m.name, m.level, some m, false, s3, ?_, (hro1.trans hro2).trans hro3, ?_⟩
        · simp [monsterBranch, ho1, ho3, hum]
        · intro m' hm'
          cases hm'
          exact hMok _ hmem
    | none =>
      obtain ⟨m, s3, hum, hmem, hro3⟩ := unnamed_monster_spec cfg level 5 s1 hM
      refine ⟨m.name, m.level, some m, false, s3, ?_, hro1.trans hro3, ?_⟩
      · simp [monsterBranch, ho1, hum]
      · intro m' hm'
        cases hm'
        exact hMok _ hmem

theorem monsterQty_spec (lev level : Int) (s : GState) :
    ∃ qty level' s', monsterQty lev level s = some ((qty, level'), s') ∧ RngOnly s s' := by
  unfold monsterQty
  by_cases h : level - lev > 10
  · rw [if_pos h]
    obtain ⟨r, s1, hb, -, -, hro⟩ := belowG_spec (max lev 1) s
      (lt_of_lt_of_le one_pos (le_max_right _ _))
    refine ⟨if (level + r).fdiv (max lev 1) < 1 then 1 else (level + r).fdiv (max lev 1),
      level.fdiv
        (if (level + r).fdiv (max lev 1) < 1 then 1 else (level + r).fdiv (max lev 1)),
      s1, ?_, hro⟩
    simp only []
    rw [hb]
    simp
  · rw [if_neg h]
    exact ⟨1, level, s, rfl, RngOnly.refl s⟩

theorem monsterName_spec (cfg : Config) (level lev : Int) (result : String) (s : GState) :
    ∃ nm s', monsterName cfg level lev result s = some (nm, s') ∧ RngOnly s s' := by
  unfold monsterName
  by_cases h1 : level - lev ≤ -10
  · rw [if_pos h1]
    exact ⟨_, s, rfl, RngOnly.refl s⟩
  rw [if_neg h1]
  by_cases h2 : level - lev < -5
  · rw [if_pos h2]
    obtain ⟨r, s1, hb, -, -, hro⟩ := belowG_spec (10 + level - lev + 1) s (by omega)
    refine ⟨cfg.sick (5 - r) (cfg.young (lev - level - (5 - r)) result), s1, ?_, hro⟩
    simp only []
    rw [hb]
    simp
  rw [if_neg h2]
  by_cases h3 : level - lev < 0
  · rw [if_pos h3]
    obtain ⟨r, s1, hb, -, -, hro⟩ := belowG_spec 2 s (by norm_num)
    by_cases hr : r = 1
    · exact ⟨cfg.sick (level - lev) result, s1, by rw [hb]; simp [hr], hro⟩
    · exact ⟨cfg.young (level - lev) result, s1, by rw [hb]; simp [hr], hro⟩
  rw [if_neg h3]
  by_cases h4 : level - lev ≥ 10
  · rw [if_pos h4]
    exact ⟨_, s, rfl, RngOnly.refl s⟩
  rw [if_neg h4]
  by_cases h5 : level - lev > 5
  · rw [if_pos h5]
    obtain ⟨r, s1, hb, -, -, hro⟩ := belowG_spec (10 - (level - lev) + 1) s (by omega)
    refine ⟨cfg.big (5 - r) (cfg.special (level - lev - (5 - r)) result), s1, ?_, hro⟩
    simp only []
    rw [hb]
    simp
  rw [if_neg h5]
  by_cases h6 : level - lev > 0
  · rw [if_pos h6]
    obtain ⟨r, s1, hb, -, -, hro⟩ := belowG_spec 2 s (by norm_num)
    by_cases hr : r = 1
    · exact ⟨cfg.big (level - lev) result, s1, by rw [hb]; simp [hr], hro⟩
    · exact ⟨cfg.special (level - lev) result, s1, by rw [hb]; simp [hr], hro⟩
  rw [if_neg h6]
  exact ⟨result, s, rfl, RngOnly.refl s⟩

theorem monster_task_spec (cfg : Config) (hwf : cfg.wf) (player_level : Int)
    (qm : Option Monster) (hqm : ∀ m, qm = some m → m.item ≠ some "") (s : GState) :
    ∃ d dur mon s', monster_task cfg player_level qm s = some (.kill d dur mon, s')
      ∧ RngOnly s s' ∧ (∀ m, mon = some m → m.item ≠ some "") := by
  obtain ⟨lvl, s1, hw, hro1⟩ := walkLevel_spec player_level.toNat player_level s
  obtain ⟨r, lev, mon, isdef, s2, hbr, hro2, hmok⟩ :=
    monsterBranch_spec cfg hwf (if lvl < 1 then 1 else lvl) qm hqm s1
  obtain ⟨qty, lvl2, s3, hqty, hro3⟩ := monsterQty_spec lev (if lvl < 1 then 1 else lvl) s2
  obtain ⟨nm, s4, hname, hro4⟩ := monsterName_spec cfg lvl2 lev r s3
  refine ⟨"Executing " ++ (if isdef then nm else cfg.indefinite nm qty),
    (2 * 3 * (lvl2 * qty) * 1000).fdiv player_level, mon, s4, ?_,
    ((hro1.trans hro2).trans hro3).trans hro4, hmok⟩
  unfold monster_task
  rw [hw]
  simp only [Option.bind_eq_bind, Option.some_bind]
  rw [hbr]
  simp only [Option.some_bind]
  rw [hqty]
  simp only [Option.some_bind]
  rw [hname]
  simp only [Option.some_bind, Option.pure_def]

/-! Stage 2: the state invariant maintained by the engine, and the
next-task selection always succeeding under it. -/

/-- A `KillTask` never carries a monster whose drop item is the empty
string (such a kill would complete without adding loot, breaking the
encumbrance progress of the dequeue loop). -/
def monsterOkT : Task → Prop
  | .kill _ _ (some m) => m.item ≠ some ""
  | _ => True

/-- `SellTask`s are never queued (only installed directly with a
non-empty inventory). -/
def notSell : Task → Prop
  | .sell _ _ => False
  | _ => True

/-- Core state invariant: plausible level and act, every queued task has
positive duration, carries no bad monster and is not a sale, and the
quest monster (if any) has a non-empty drop item. -/
structure InvCore (s : GState) : Prop where
  level_pos : 1 ≤ s.player.level
  act_nonneg : 0 ≤ s.player.quest_book.act
  queue_ok : ∀ t ∈ s.player.queue, 0 < t.duration ∧ monsterOkT t ∧ notSell t
  qmon_ok : ∀ m, s.player.quest_book.monster = some m → m.item ≠ some ""

/-- Invariant tying the active task to the rest of the state. -/
structure TaskOk (s : GState) : Prop where
  task_mon : ∀ t, s.player.task = some t → monsterOkT t
  sell_items : ∀ d n, s.player.task = some (.sell d n) →
    s.player.inventory.items ≠ []

/-- Full invariant at public states: core + task invariants, and an
active task of positive duration. -/
def Inv (s : GState) : Prop :=
  InvCore s ∧ TaskOk s ∧ ∃ t, s.player.task = some t ∧ 0 < t.duration

/-- The fuel-independent part of the dequeue budget: this strictly
decreases on every looping iteration that does not immediately exit. -/
def dqM (s : GState) : Nat :=
  2 * natSlack s + hkfWeight s + 8

/-- A freshly installed non-positive-duration task leaves the task bar
already done. -/
theorem fresh_bar_done (dur : Int) (h : dur ≤ 0) :
    (Bar.make ((dur : Int) : ℚ)).done = true := by
  simp only [Bar.make, Bar.done, decide_eq_true_eq]
  exact_mod_cast h

/-- Adding one item while the encumbrance bar stays not-done means there
was slack before, and the integer slack drops by exactly one. -/
theorem slack_decrease {inv : Inventory} {n : String}
    (h : (inv.add n 1).encum_bar.done = false) :
    (⌈inv.encum_bar.max_⌉ - inv.sumQty).toNat
      = (⌈(inv.add n 1).encum_bar.max_⌉ - (inv.add n 1).sumQty).toNat + 1 := by
  have hsum : (inv.add n 1).sumQty = inv.sumQty + 1 := Inventory.sumQty_add inv n 1
  have hnotle : ¬ (inv.add n 1).encum_bar.max_ ≤ (inv.add n 1).encum_bar.position := by
    intro hle
    rw [show (inv.add n 1).encum_bar.done = true by
      simp only [Bar.done, decide_eq_true_eq]; exact hle] at h
    cases h
  have hlt : (inv.add n 1).encum_bar.position < (inv.add n 1).encum_bar.max_ :=
    lt_of_not_le hnotle
  rw [Inventory.add_encum_position, Inventory.add_encum_max] at hlt
  have h1 : ((inv.add n 1).sumQty : ℚ) < inv.encum_bar.max_ := by
    rcases min_lt_iff.mp hlt with h' | h'
    · exact h'
    · exact absurd h' (lt_irrefl _)
  have h2 : (inv.add n 1).sumQty < ⌈inv.encum_bar.max_⌉ := Int.lt_ceil.mpr h1
  rw [Inventory.add_encum_max, hsum]
  rw [hsum] at h2
  omega

/-- Under the core invariant, the bottom-of-loop next-task selection of
`Simulation.dequeue` always succeeds, installs a fresh task preserving
inventory, level and quest book, re-establishes the invariants, and the
new task has positive duration except possibly in the monster branch
(which requires the old task to be a kill-flavoured one and the
encumbrance bar not to be full). -/
theorem selectNext_spec (cfg : Config) (hwf : cfg.wf) (old : Option Task) (s : GState)
    (hcore : InvCore s) (hold : old = s.player.task) :
    ∃ s' t, selectNext cfg old s = some s'
      ∧ s'.player.task = some t
      ∧ s'.player.inventory = s.player.inventory
      ∧ s'.player.level = s.player.level
      ∧ s'.player.quest_book = s.player.quest_book
      ∧ s'.player.task_bar = Bar.make ((t.duration : Int) : ℚ)
      ∧ InvCore s' ∧ TaskOk s'
      ∧ (0 < t.duration
          ∨ ((∃ d dur m, t = Task.kill d dur m) ∧ isKillOrHKF old = true
              ∧ s.player.inventory.encum_bar.done = false)) := by
  obtain ⟨hlvl, hact, hqok, hqm⟩ := hcore
  cases hq : s.player.queue with
  | cons t rest =>
    have hmem : t ∈ s.player.queue := by rw [hq]; exact List.mem_cons_self t rest
    refine ⟨set_task { s with player := { s.player with queue := rest } } t, t,
      ?_, rfl, rfl, rfl, rfl, rfl, ?_, ?_, Or.inl (hqok t hmem).1⟩
    · unfold selectNext
      rw [hq]
    · refine ⟨hlvl, hact, ?_, hqm⟩
      intro t' ht'
      exact hqok t' (by rw [hq]; exact List.mem_cons_of_mem t ht')
    · refine ⟨?_, ?_⟩
      · intro t' ht'
        cases ht'
        exact (hqok t hmem).2.1
      · intro d n hsell
        exfalso
        have ht : t = Task.sell d n := by
          have := hsell
          simp only [set_task_task, Option.some.injEq] at this
          exact this
        have := (hqok t hmem).2.2
        rw [ht] at this
        exact this
  | nil =>
    unfold selectNext
    rw [hq]
    by_cases hdone : s.player.inventory.encum_bar.done = true
    · rw [if_pos hdone]
      refine ⟨set_task s (.headingToMarket "Heading to market to sell loot" 4000),
        .headingToMarket "Heading to market to sell loot" 4000,
        rfl, rfl, rfl, rfl, rfl, rfl, ?_, ?_, Or.inl (by norm_num [Task.duration])⟩
      · exact ⟨hlvl, hact, (fun t ht => by simp [set_task_queue, hq] at ht), hqm⟩
      · refine ⟨?_, ?_⟩
        · intro t' ht'
          cases ht'
          trivial
        · intro d n hsell
          cases hsell
    · rw [if_neg hdone]
      by_cases hko : isKillOrHKF old = true
      · rw [if_neg (by simp [hko])]
        obtain ⟨d, dur, mon, s2, hmt, hro, hmok⟩ :=
          monster_task_spec cfg hwf s.player.level s.player.quest_book.monster hqm s
        refine ⟨set_task s2 (.kill d dur mon), .kill d dur mon, ?_, rfl, ?_, ?_, ?_, rfl,
          ?_, ?_, Or.inr ⟨⟨d, dur, mon, rfl⟩, hko, by simpa using hdone⟩⟩
        · rw [hmt]
          rfl
        · rw [set_task_inv, hro.1]
        · rw [set_task_level, hro.1]
        · rw [set_task_qb, hro.1]
        · refine ⟨?_, ?_, ?_, ?_⟩
          · rw [set_task_level, hro.1]
            exact hlvl
          · rw [set_task_qb, hro.1]
            exact hact
          · intro t ht
            rw [set_task_queue, hro.1, hq] at ht
            cases ht
          · intro m hm
            rw [set_task_qb, hro.1] at hm
            exact hqm m hm
        · refine ⟨?_, ?_⟩
          · intro t' ht'
            cases ht'
            cases hm : mon with
            | none => trivial
            | some m => exact hmok m hm
          · intro dd nn hsell
            cases hsell
      · rw [if_pos (by simp [hko])]
        by_cases hgold : s.player.inventory.gold > equip_price s.player
        · rw [if_pos hgold]
          refine ⟨set_task s (.buy "Negotiating purchase of better equipment" 5000),
            .buy "Negotiating purchase of better equipment" 5000,
            rfl, rfl, rfl, rfl, rfl, rfl, ?_, ?_, Or.inl (by norm_num [Task.duration])⟩
          · exact ⟨hlvl, hact, (fun t ht => by simp [set_task_queue, hq] at ht), hqm⟩
          · refine ⟨?_, ?_⟩
            · intro t' ht'
              cases ht'
              trivial
            · intro d n hsell
              cases hsell
        · rw [if_neg hgold]
          refine ⟨set_task s (.headingToKillingFields "Heading to the killing fields" 4000),
            .headingToKillingFields "Heading to the killing fields" 4000,
            rfl, rfl, rfl, rfl, rfl, rfl, ?_, ?_, Or.inl (by norm_num [Task.duration])⟩
          · exact ⟨hlvl, hact, (fun t ht => by simp [set_task_queue, hq] at ht), hqm⟩
          · refine ⟨?_, ?_⟩
            · intro t' ht'
              cases ht'
              trivial
            · intro d n hsell
              cases hsell

/-! Stage 3: one iteration of the dequeue loop. -/

/-- Popping index 0 from a non-empty inventory removes exactly the head. -/
theorem pop_zero (inv : Inventory) (item : InventoryItem) (rest : List InventoryItem)
    (h : inv.items = item :: rest) :
    inv.pop 0 = some (none, item,
      Inventory.sync_encumbrance { inv with items := rest }) := by
  unfold Inventory.pop
  have hn : normIdx inv.items.length 0 = some 0 := by
    rw [h]
    simp [normIdx]
  rw [hn]
  simp only [Option.bind_eq_bind, Option.some_bind]
  have hlt : 0 < inv.items.length := by rw [h]; simp
  rw [dif_pos hlt]
  have hget : inv.items.get ⟨0, hlt⟩ = item := by
    have := h
    rw [List.get_of_eq this]
    rfl
  have herase : inv.items.eraseIdx 0 = rest := by rw [h]; rfl
  rw [hget, herase]
  rfl

/-- `Simulation.complete_act()` always succeeds under a wellformed
config, preserving the active task, queue, level and quest monster while
bumping the act. -/
theorem complete_act_spec (cfg : Config) (s : GState) (hwf : cfg.wf) :
    ∃ s', complete_act cfg s = some s'
      ∧ s'.player.task = s.player.task
      ∧ s'.player.task_bar = s.player.task_bar
      ∧ s'.player.queue = s.player.queue
      ∧ s'.player.level = s.player.level
      ∧ s'.player.quest_book.act = s.player.quest_book.act + 1
      ∧ s'.player.quest_book.monster = s.player.quest_book.monster
      ∧ (s.player.inventory.items ≠ [] → s'.player.inventory.items ≠ []) := by
  unfold complete_act
  simp only [Option.bind_eq_bind, Option.pure_def]
  by_cases hgt : (((s.updQB fun qb => { qb with act := qb.act + 1 }).updQB fun qb =>
      { qb with plot_bar :=
          qb.plot_bar.reset (((60 * 60 * (1 + 5 * qb.act) : Int)) : ℚ) }).player.quest_book.act
      > 1)
  · rw [if_pos hgt]
    obtain ⟨nm, s1, hwi, hinv1, -, hlv1, hts1, htb1, hqu1, hqb1, -⟩ :=
      win_item_spec cfg _ hwf
    obtain ⟨s2, hwe, -, hlv2, hinv2, hts2, htb2, hqu2, hqb2, -⟩ :=
      win_equipment_spec cfg s1 hwf
    rw [hwi]
    simp only [Option.some_bind]
    refine ⟨s2, hwe, ?_, ?_, ?_, ?_, ?_, ?_, ?_⟩
    · rw [hts2, hts1]
      rfl
    · rw [htb2, htb1]
      rfl
    · rw [hqu2, hqu1]
      rfl
    · rw [hlv2, hlv1]
      rfl
    · rw [hqb2, hqb1]
      rfl
    · rw [hqb2, hqb1]
      rfl
    · intro hne
      rw [hinv2, hinv1]
      exact Inventory.add_items_ne_nil _ nm 1
  · rw [if_neg hgt]
    exact ⟨_, rfl, rfl, rfl, rfl, rfl, rfl, rfl, fun h => h⟩

/-- The post-conditions shared by every non-`break` outcome of a dequeue
iteration: either the loop will exit right away with the full invariant,
or it keeps looping with a strictly smaller budget. -/
def inlPost (s s' : GState) : Prop :=
  (s'.player.task_bar.done = false ∧ Inv s')
  ∨ (s'.player.task_bar.done = true ∧ InvCore s' ∧ TaskOk s' ∧ dqM s' < dqM s)

/-- Packaging the outcome of `selectNext_spec` into `inlPost` when the
new task is known to have positive duration. -/
theorem inlPost_of_pos {s s' : GState} {t : Task} (hcore : InvCore s') (htok : TaskOk s')
    (htask : s'.player.task = some t)
    (hbar : s'.player.task_bar = Bar.make ((t.duration : Int) : ℚ))
    (hpos : 0 < t.duration) : inlPost s s' := by
  left
  refine ⟨?_, hcore, htok, t, htask, hpos⟩
  rw [hbar]
  exact fresh_bar_not_done t.duration hpos

theorem postWrap_inl {s s' : GState} (h : inlPost s s') :
    (∀ s'', (Sum.inl s' : GState ⊕ GState) = Sum.inr s'' → Inv s'')
    ∧ ∀ s'', (Sum.inl s' : GState ⊕ GState) = Sum.inl s'' → inlPost s s'' :=
  ⟨fun _ h' => Sum.noConfusion h', fun _ h' => (Sum.inl.inj h') ▸ h⟩

theorem postWrap_inr {s s' : GState} (h : Inv s') :
    (∀ s'', (Sum.inr s' : GState ⊕ GState) = Sum.inr s'' → Inv s'')
    ∧ ∀ s'', (Sum.inr s' : GState ⊕ GState) = Sum.inl s'' → inlPost s s'' :=
  ⟨fun _ h' => (Sum.inr.inj h') ▸ h, fun _ h' => Sum.noConfusion h'⟩

/-- Next-task selection after a finished task that is neither a kill nor
a march to the killing fields: the new task always has positive
duration, so the loop exits right after. -/
theorem inlSelect (cfg : Config) (hwf : cfg.wf) (s0 s : GState) (old : Option Task)
    (hcore : InvCore s) (hold : old = s.player.task) (hko : isKillOrHKF old = false) :
    ∃ s', selectNext cfg old s = some s' ∧ inlPost s0 s' := by
  obtain ⟨s', t, hsel, htask', hinv', hlvl', hqb', hbar', hcore', htok', hdisj⟩ :=
    selectNext_spec cfg hwf old s hcore hold
  refine ⟨s', hsel, ?_⟩
  rcases hdisj with hpos | ⟨-, hko', -⟩
  · exact inlPost_of_pos hcore' htok' htask' hbar' hpos
  · rw [hko] at hko'
    cases hko'

/-- Next-task selection after a finished kill-flavoured task: either the
new task has positive duration, or it is a fresh kill with the budget
measure strictly below the bound supplied by the caller. -/
theorem inlSelect_kill (cfg : Config) (hwf : cfg.wf) (s0 s : GState) (old : Option Task)
    (hcore : InvCore s) (hold : old = s.player.task)
    (hmeas : s.player.inventory.encum_bar.done = false →
      2 * natSlack s + 8 < dqM s0) :
    ∃ s', selectNext cfg old s = some s' ∧ inlPost s0 s' := by
  obtain ⟨s', t, hsel, htask', hinv', hlvl', hqb', hbar', hcore', htok', hdisj⟩ :=
    selectNext_spec cfg hwf old s hcore hold
  refine ⟨s', hsel, ?_⟩
  rcases hdisj with hpos | ⟨⟨d, dur, m, ht⟩, -, hnd⟩
  · exact inlPost_of_pos hcore' htok' htask' hbar' hpos
  · by_cases hpos : 0 < t.duration
    · exact inlPost_of_pos hcore' htok' htask' hbar' hpos
    · right
      refine ⟨?_, hcore', htok', ?_⟩
      · rw [hbar']
        exact fresh_bar_done t.duration (le_of_not_lt hpos)
      · have hw : hkfWeight s' = 0 := by
          rw [ht] at htask'
          simp [hkfWeight, htask']
        have hns : natSlack s' = natSlack s := by
          unfold natSlack
          rw [hinv']
        unfold dqM
        rw [hw, hns]
        have := hmeas hnd
        unfold dqM at this
        omega

/-- The sale pricing step always succeeds for a level-≥-1 player and only
draws randomness. -/
theorem sellAmount_spec (item : InventoryItem) (s : GState) (hlvl : 1 ≤ s.player.level) :
    ∃ a s', sellAmount item s = some (a, s') ∧ RngOnly s s' := by
  unfold sellAmount
  simp only []
  by_cases hof : strContains item.name " of " = true
  · rw [if_pos hof]
    obtain ⟨a, s1, hba, -, -, hroa⟩ := below_lowG_spec 10 s (by norm_num)
    obtain ⟨b, s2, hbb, -, -, hrob⟩ := below_lowG_spec s1.player.level s1
      (lt_of_lt_of_le zero_lt_one (by rw [hroa.1]; exact hlvl))
    refine ⟨item.quantity * s.player.level * ((1 + a) * (1 + b)), s2, ?_, hroa.trans hrob⟩
    rw [hba]
    simp only [Option.bind_eq_bind, Option.some_bind]
    rw [hbb]
    simp only [Option.some_bind, Option.pure_def]
  · rw [if_neg hof]
    exact ⟨item.quantity * s.player.level, s, rfl, RngOnly.refl s⟩

/-- The sale step pops exactly the head item, succeeding whenever the
inventory is non-empty; everything but the inventory's item list and
gold (and the generator) is preserved. -/
theorem saleStep_spec (s : GState) (item : InventoryItem) (rest : List InventoryItem)
    (hitems : s.player.inventory.items = item :: rest) (hlvl : 1 ≤ s.player.level) :
    ∃ s1, saleStep s = some s1
      ∧ s1.player.inventory.items = rest
      ∧ s1.player.task = s.player.task
      ∧ s1.player.queue = s.player.queue
      ∧ s1.player.level = s.player.level
      ∧ s1.player.quest_book = s.player.quest_book := by
  obtain ⟨a, s2, hsa, hro⟩ := sellAmount_spec item s hlvl
  have hitems2 : s2.player.inventory.items = item :: rest := by
    rw [hro.1]
    exact hitems
  have hpop := pop_zero s2.player.inventory item rest hitems2
  refine ⟨{ s2 with player := { s2.player with inventory :=
      (Inventory.sync_encumbrance { s2.player.inventory with items := rest }).add_gold a } },
    ?_, rfl, ?_, ?_, ?_, ?_⟩
  · have hred : saleStep s = (do
        let (amount, s) ← sellAmount item s
        let (_ret, _em, inv') ← s.player.inventory.pop 0
        pure { s with player := { s.player with inventory := inv'.add_gold amount } }) := by
      unfold saleStep
      rw [hitems]
    rw [hred, hsa]
    simp only [Option.bind_eq_bind, Option.some_bind]
    rw [hpop]
    simp only [Option.some_bind, Option.pure_def]
  · rw [hro.1]
  · rw [hro.1]
  · rw [hro.1]
  · rw [hro.1]

/-- After a kill completion the inventory has grown by one item, so the
next-task selection either exits or strictly shrinks the loop budget. -/
theorem killCont (cfg : Config) (hwf : cfg.wf) (s s1 : GState)
    (hlvl : 1 ≤ s.player.level) (hact : 0 ≤ s.player.quest_book.act)
    (hqok : ∀ t ∈ s.player.queue, 0 < t.duration ∧ monsterOkT t ∧ notSell t)
    (hqm : ∀ m, s.player.quest_book.monster = some m → m.item ≠ some "")
    (hkill : ∃ d n mon, s.player.task = some (.kill d n mon))
    (NM : String)
    (hinv1 : s1.player.inventory = s.player.inventory.add NM 1)
    (hqu1 : s1.player.queue = s.player.queue)
    (hlv1 : s1.player.level = s.player.level)
    (hqb1 : s1.player.quest_book = s.player.quest_book) :
    ∃ s', selectNext cfg s1.player.task s1 = some s' ∧ inlPost s s' := by
  obtain ⟨d, n, mon, htk⟩ := hkill
  refine inlSelect_kill cfg hwf s s1 s1.player.task
    ⟨by rw [hlv1]; exact hlvl, by rw [hqb1]; exact hact,
      by rw [hqu1]; exact hqok, by intro m hm; rw [hqb1] at hm; exact hqm m hm⟩ rfl ?_
  intro hnd
  rw [hinv1] at hnd
  have hsd := slack_decrease hnd
  have hw0 : hkfWeight s = 0 := by simp [hkfWeight, htk]
  unfold dqM natSlack
  rw [hinv1, hw0]
  omega

theorem marketSell_false (cfg : Config) (s : GState) :
    marketSell cfg s false =
      match s.player.inventory.items with
      | item :: _ =>
        pure (.inr (set_task s
          (.sell ("Selling " ++ cfg.indefinite item.name item.quantity) 1000)))
      | [] => Sum.inl <$> selectNext cfg s.player.task s := by
  unfold marketSell
  rfl

theorem marketSell_true (cfg : Config) (s : GState) :
    marketSell cfg s true = (saleStep s).bind fun s =>
      match s.player.inventory.items with
      | item :: _ =>
        pure (.inr (set_task s
          (.sell ("Selling " ++ cfg.indefinite item.name item.quantity) 1000)))
      | [] => Sum.inl <$> selectNext cfg s.player.task s := by
  unfold marketSell
  rfl

/-- One iteration of `Simulation.dequeue`'s loop body always succeeds
under the invariants; a `break` re-establishes the full invariant, while
a looping outcome either exits next check (full invariant, bar not done)
or strictly shrinks the budget measure. -/
theorem dequeueBody_spec (cfg : Config) (hwf : cfg.wf) (s : GState)
    (hcore : InvCore s) (htok : TaskOk s) :
    ∃ r, dequeueBody cfg s = some r
      ∧ (∀ s', r = .inr s' → Inv s')
      ∧ (∀ s', r = .inl s' → inlPost s s') := by
  obtain ⟨hlvl, hact, hqok, hqm⟩ := hcore
  cases hts : s.player.task with
  | none =>
    obtain ⟨s', hsel, hpost⟩ := inlSelect cfg hwf s s none ⟨hlvl, hact, hqok, hqm⟩
      hts.symm rfl
    refine ⟨.inl s', ?_, postWrap_inl hpost⟩
    have hred : dequeueBody cfg s = Sum.inl <$> selectNext cfg none s := by
      unfold dequeueBody
      rw [hts]
    rw [hred, hsel]
    rfl
  | some t =>
    cases t with
    | regular d n =>
      obtain ⟨s', hsel, hpost⟩ := inlSelect cfg hwf s s (some (.regular d n))
        ⟨hlvl, hact, hqok, hqm⟩ hts.symm rfl
      refine ⟨.inl s', ?_, postWrap_inl hpost⟩
      have hred : dequeueBody cfg s
          = Sum.inl <$> selectNext cfg (some (.regular d n)) s := by
        unfold dequeueBody
        rw [hts]
      rw [hred, hsel]
      rfl
    | headingToKillingFields d n =>
      have hw1 : hkfWeight s = 1 := by simp [hkfWeight, hts]
      obtain ⟨s', hsel, hpost⟩ := inlSelect_kill cfg hwf s s
        (some (.headingToKillingFields d n)) ⟨hlvl, hact, hqok, hqm⟩ hts.symm
        (fun _ => by unfold dqM; rw [hw1]; omega)
      refine ⟨.inl s', ?_, postWrap_inl hpost⟩
      have hred : dequeueBody cfg s
          = Sum.inl <$> selectNext cfg (some (.headingToKillingFields d n)) s := by
        unfold dequeueBody
        rw [hts]
      rw [hred, hsel]
      rfl
    | plot d n =>
      obtain ⟨s2, hca, hts2, htb2, hqu2, hlv2, hact2, hmon2, hit2⟩ :=
        complete_act_spec cfg s hwf
      have hcore2 : InvCore s2 := ⟨by rw [hlv2]; exact hlvl, by rw [hact2]; omega,
        by rw [hqu2]; exact hqok, by intro m hm; rw [hmon2] at hm; exact hqm m hm⟩
      have htask2 : s2.player.task = some (.plot d n) := by rw [hts2]; exact hts
      obtain ⟨s', hsel, hpost⟩ := inlSelect cfg hwf s s2 s2.player.task hcore2 rfl
        (by rw [htask2]; rfl)
      refine ⟨.inl s', ?_, postWrap_inl hpost⟩
      have hred : dequeueBody cfg s = (complete_act cfg s).bind
          fun s => Sum.inl <$> selectNext cfg s.player.task s := by
        unfold dequeueBody
        rw [hts]
        rfl
      rw [hred, hca]
      simp only [Option.some_bind]
      rw [hsel]
      rfl
    | buy d n =>
      obtain ⟨s2, hwe, hst2, hlv2, hinv2, hts2, htb2, hqu2, hqb2, -⟩ :=
        win_equipment_spec cfg (s.updInv (·.add_gold (-(equip_price s.player)))) hwf
      have hcore2 : InvCore s2 := ⟨by rw [hlv2]; exact hlvl, by rw [hqb2]; exact hact,
        by rw [hqu2]; exact hqok, by intro m hm; rw [hqb2] at hm; exact hqm m hm⟩
      have htask2 : s2.player.task = some (.buy d n) := by rw [hts2]; exact hts
      obtain ⟨s', hsel, hpost⟩ := inlSelect cfg hwf s s2 s2.player.task hcore2 rfl
        (by rw [htask2]; rfl)
      refine ⟨.inl s', ?_, postWrap_inl hpost⟩
      have hred : dequeueBody cfg s = (win_equipment cfg
          (s.updInv (·.add_gold (-(equip_price s.player))))).bind
          fun s => Sum.inl <$> selectNext cfg s.player.task s := by
        unfold dequeueBody
        rw [hts]
        rfl
      rw [hred, hwe]
      simp only [Option.some_bind]
      rw [hsel]
      rfl
    | kill d n monster =>
      have htmon : monsterOkT (Task.kill d n monster) := htok.task_mon _ hts
      cases monster with
      | none =>
        obtain ⟨nm, s1, hwi, hinv1, -, hlv1, hts1, -, hqu1, hqb1, -⟩ :=
          win_item_spec cfg s hwf
        obtain ⟨s', hsel, hpost⟩ := killCont cfg hwf s s1 hlvl hact hqok hqm
          ⟨d, n, none, hts⟩ nm hinv1 hqu1 hlv1 hqb1
        refine ⟨.inl s', ?_, postWrap_inl hpost⟩
        have hred : dequeueBody cfg s = (win_item cfg s).bind
            fun s => Sum.inl <$> selectNext cfg s.player.task s := by
          unfold dequeueBody
          rw [hts]
          rfl
        rw [hred, hwi]
        simp only [Option.some_bind]
        rw [hsel]
        rfl
      | some m =>
        obtain ⟨mn, ml, mitem⟩ := m
        cases mitem with
        | none =>
          obtain ⟨nm, s1, hwi, hinv1, -, hlv1, hts1, -, hqu1, hqb1, -⟩ :=
            win_item_spec cfg s hwf
          obtain ⟨s', hsel, hpost⟩ := killCont cfg hwf s s1 hlvl hact hqok hqm
            ⟨d, n, some ⟨mn, ml, none⟩, hts⟩ nm hinv1 hqu1 hlv1 hqb1
          refine ⟨.inl s', ?_, postWrap_inl hpost⟩
          have hred2 : dequeueBody cfg s = (win_item cfg s).bind
              fun s => Sum.inl <$> selectNext cfg s.player.task s := by
            unfold dequeueBody
            rw [hts]
            rfl
          rw [hred2, hwi]
          simp only [Option.some_bind]
          rw [hsel]
          rfl
        | some it =>
          have hne : ¬ it = "" := by
            intro he
            exact htmon (by rw [he])
          have hred1 : dequeueBody cfg s
              = if it = "" then
                  (some s).bind fun s => Sum.inl <$> selectNext cfg s.player.task s
                else
                  (some (s.updInv (·.add ((mn ++ " " ++ it).toLower) 1))).bind
                    fun s => Sum.inl <$> selectNext cfg s.player.task s := by
            unfold dequeueBody
            rw [hts]
            rfl
          rw [if_neg hne] at hred1
          obtain ⟨s', hsel, hpost⟩ := killCont cfg hwf s
            (s.updInv (·.add ((mn ++ " " ++ it).toLower) 1)) hlvl hact hqok hqm
            ⟨d, n, some ⟨mn, ml, some it⟩, hts⟩ ((mn ++ " " ++ it).toLower) rfl rfl rfl rfl
          refine ⟨.inl s', ?_, postWrap_inl hpost⟩
          rw [hred1]
          simp only [Option.some_bind]
          rw [hsel]
          rfl
    | headingToMarket d n =>
      have hred : dequeueBody cfg s = marketSell cfg s false := by
        unfold dequeueBody
        rw [hts]
      cases hitems : s.player.inventory.items with
      | cons item rest =>
        refine ⟨.inr (set_task s
          (.sell ("Selling " ++ cfg.indefinite item.name item.quantity) 1000)),
          ?_, postWrap_inr ?_⟩
        · rw [hred, marketSell_false, hitems]
          rfl
        · refine ⟨⟨by simpa using hlvl, by simpa using hact, ?_, ?_⟩, ⟨?_, ?_⟩,
            _, rfl, by norm_num [Task.duration]⟩
          · intro t ht
            rw [set_task_queue] at ht
            exact hqok t ht
          · intro mm hm
            rw [set_task_qb] at hm
            exact hqm mm hm
          · intro t ht
            rw [set_task_task] at ht
            cases ht
            trivial
          · intro dd nn hsell
            rw [set_task_task] at hsell
            cases hsell
            rw [set_task_inv, hitems]
            simp
      | nil =>
        obtain ⟨s', hsel, hpost⟩ := inlSelect cfg hwf s s s.player.task
          ⟨hlvl, hact, hqok, hqm⟩ rfl (by rw [hts]; rfl)
        refine ⟨.inl s', ?_, postWrap_inl hpost⟩
        rw [hred, marketSell_false, hitems]
        simp [hsel]
    | sell d n =>
      have hne := htok.sell_items d n hts
      have hred : dequeueBody cfg s = marketSell cfg s true := by
        unfold dequeueBody
        rw [hts]
      cases hitems : s.player.inventory.items with
      | nil => exact absurd hitems hne
      | cons item rest =>
        obtain ⟨s1, hsale, hitems1, hts1, hqu1, hlv1, hqb1⟩ :=
          saleStep_spec s item rest hitems hlvl
        have hcore1 : InvCore s1 := ⟨by rw [hlv1]; exact hlvl, by rw [hqb1]; exact hact,
          by rw [hqu1]; exact hqok, by intro mm hm; rw [hqb1] at hm; exact hqm mm hm⟩
        cases hrest : rest with
        | cons r1 rrest =>
          refine ⟨.inr (set_task s1
            (.sell ("Selling " ++ cfg.indefinite r1.name r1.quantity) 1000)),
            ?_, postWrap_inr ?_⟩
          · rw [hred, marketSell_true, hsale]
            simp only [Option.some_bind]
            rw [hitems1, hrest]
            rfl
          · refine ⟨⟨by rw [set_task_level, hlv1]; exact hlvl,
              by rw [set_task_qb, hqb1]; exact hact, ?_, ?_⟩, ⟨?_, ?_⟩,
              _, rfl, by norm_num [Task.duration]⟩
            · intro t ht
              rw [set_task_queue, hqu1] at ht
              exact hqok t ht
            · intro mm hm
              rw [set_task_qb, hqb1] at hm
              exact hqm mm hm
            · intro t ht
              rw [set_task_task] at ht
              cases ht
              trivial
            · intro dd nn hsell
              rw [set_task_task] at hsell
              cases hsell
              rw [set_task_inv, hitems1, hrest]
              simp
        | nil =>
          have htask1 : s1.player.task = some (.sell d n) := by rw [hts1]; exact hts
          obtain ⟨s', hsel, hpost⟩ := inlSelect cfg hwf s s1 s1.player.task hcore1 rfl
            (by rw [htask1]; rfl)
          refine ⟨.inl s', ?_, postWrap_inl hpost⟩
          rw [hred, marketSell_true, hsale]
          simp only [Option.some_bind]
          rw [hitems1, hrest]
          simp [hsel]

/-! Stage 4: the dequeue loop terminates within its fuel. -/

theorem dequeueAux_spec (cfg : Config) (hwf : cfg.wf) : ∀ (fuel : Nat) (s : GState),
    InvCore s → TaskOk s → dqM s ≤ fuel → s.player.task_bar.done = true →
    ∃ s', dequeueAux cfg fuel s = some s' ∧ Inv s' := by
  intro fuel
  induction fuel with
  | zero =>
    intro s _ _ hle _
    exfalso
    unfold dqM at hle
    omega
  | succ fuel ih =>
    intro s hcore htok hle hdone
    obtain ⟨r, hbody, hinr, hinl⟩ := dequeueBody_spec cfg hwf s hcore htok
    rw [dequeueAux_succ, if_pos hdone, hbody]
    cases r with
    | inr s' =>
      exact ⟨s', rfl, hinr s' rfl⟩
    | inl s' =>
      rcases hinl s' rfl with ⟨hnd, hinv⟩ | ⟨hd, hcore', htok', hlt⟩
      · have hfuel : 1 ≤ fuel := by
          unfold dqM at hle
          omega
        obtain ⟨f2, rfl⟩ : ∃ f2, fuel = f2 + 1 := ⟨fuel - 1, by omega⟩
        refine ⟨s', ?_, hinv⟩
        simp only [Option.bind_eq_bind, Option.some_bind]
        rw [dequeueAux_succ, hnd]
        simp
      · obtain ⟨s'', haux, hinv⟩ := ih s' hcore' htok' (by omega) hd
        refine ⟨s'', ?_, hinv⟩
        simp only [Option.bind_eq_bind, Option.some_bind]
        exact haux

/-- `Simulation.dequeue()` always succeeds from an invariant state and
re-establishes the invariant — in particular the resulting active task
has positive duration. -/
theorem dequeue_spec (cfg : Config) (hwf : cfg.wf) (s : GState) (hinv : Inv s) :
    ∃ s', dequeue cfg s = some s' ∧ Inv s' := by
  obtain ⟨hcore, htok, t, ht, hdur⟩ := hinv
  by_cases hdone : s.player.task_bar.done = true
  · obtain ⟨s', ha, hi⟩ := dequeueAux_spec cfg hwf (dequeueFuel s) s hcore htok
      (by unfold dqM dequeueFuel; omega) hdone
    exact ⟨s', ha, hi⟩
  · refine ⟨s, ?_, hcore, htok, t, ht, hdur⟩
    obtain ⟨f, hf⟩ : ∃ f, dequeueFuel s = f + 1 :=
      ⟨dequeueFuel s - 1, by unfold dequeueFuel; omega⟩
    unfold dequeue
    rw [hf, dequeueAux_succ, if_neg hdone]
    rfl

/-- The `enqueue` helper of `interplot_cinematic`: appending a
wellformed positive-duration task keeps the invariant, and the
subsequent dequeue succeeds. -/
theorem enqueue_spec (cfg : Config) (hwf : cfg.wf) (t : Task) (s : GState) (hinv : Inv s)
    (hdur : 0 < t.duration) (hmon : monsterOkT t) (hns : notSell t) :
    ∃ s', enqueue cfg t s = some s' ∧ Inv s' := by
  obtain ⟨⟨hlvl, hact, hqok, hqm⟩, htok, t0, ht0, hdur0⟩ := hinv
  have hinv2 : Inv { s with player := { s.player with queue := s.player.queue ++ [t] } } := by
    refine ⟨⟨hlvl, hact, ?_, hqm⟩, ⟨htok.task_mon, htok.sell_items⟩, t0, ht0, hdur0⟩
    intro t' ht'
    rcases List.mem_append.mp ht' with h | h
    · exact hqok t' h
    · rw [List.mem_singleton.mp h]
      exact ⟨hdur, hmon, hns⟩
  obtain ⟨s', hd, hi⟩ := dequeue_spec cfg hwf _ hinv2
  exact ⟨s', hd, hi⟩

/-! Stage 5: every effect of `tick` preserves the invariant, so every
reachable state satisfies it. -/

/-- Fields untouched by the reward helpers (`win_stat`, `win_spell`,
`win_equipment`, `win_item`): what the dequeue invariants depend on. -/
def PresT (s s' : GState) : Prop :=
  s'.player.task = s.player.task
  ∧ s'.player.task_bar = s.player.task_bar
  ∧ s'.player.queue = s.player.queue
  ∧ s'.player.level = s.player.level
  ∧ s'.player.quest_book = s.player.quest_book
  ∧ (s.player.inventory.items ≠ [] → s'.player.inventory.items ≠ [])

/-- Generic state-lift of a raw generator draw: on success only the
generator component changes. -/
theorem liftG_pres {α : Type} {prim : Rng → Option (α × Rng)} {s : GState} {r : α}
    {s' : GState}
    (h : (do
      let (x, g) ← prim s.rng
      pure (x, { s with rng := g }) : Option (α × GState)) = some (r, s')) :
    RngOnly s s' := by
  rcases Option.bind_eq_some.mp h with ⟨⟨x, g⟩, hp, h⟩
  cases h
  exact ⟨rfl, rfl, rfl, rfl⟩

theorem belowG_pres {n : Int} {s : GState} {r : Int} {s' : GState}
    (h : GState.belowG n s = some (r, s')) : RngOnly s s' := by
  unfold GState.belowG at h
  exact liftG_pres h

theorem oddsG_pres {a b : Int} {s : GState} {r : Bool} {s' : GState}
    (h : GState.oddsG a b s = some (r, s')) : RngOnly s s' := by
  unfold GState.oddsG at h
  exact liftG_pres h

theorem below_lowG_pres {n : Int} {s : GState} {r : Int} {s' : GState}
    (h : GState.below_lowG n s = some (r, s')) : RngOnly s s' := by
  unfold GState.below_lowG at h
  exact liftG_pres h

theorem choiceG_pres {α : Type} {xs : List α} {s : GState} {x : α} {s' : GState}
    (h : GState.choiceG xs s = some (x, s')) : x ∈ xs ∧ RngOnly s s' := by
  unfold GState.choiceG at h
  rcases Option.bind_eq_some.mp h with ⟨⟨y, g⟩, hc, h⟩
  obtain ⟨hm, -⟩ := choice_spec hc
  cases h
  exact ⟨hm, rfl, rfl, rfl, rfl⟩

theorem choice_lowG_pres {α : Type} {xs : List α} {s : GState} {x : α} {s' : GState}
    (h : GState.choice_lowG xs s = some (x, s')) : RngOnly s s' := by
  unfold GState.choice_lowG at h
  exact liftG_pres h

/-- Shared tail of `win_stat` once the chosen stat and post-draw state
are fixed: the increment and the optional capacity resync. -/
theorem win_stat_tail {s sc : GState} {c : StatType} {s' : GState}
    (hp : sc.player = s.player)
    (h : ((sc.player.stats.increment c).bind fun stats' =>
      if c = StatType.strength then
        (statsGet (sc.setStats stats').player.stats StatType.strength).bind fun v =>
          some ((sc.setStats stats').updInv fun x => x.set_capacity ((10 + v : Int) : ℚ))
      else some (sc.setStats stats')) = some s') : PresT s s' := by
  rcases Option.bind_eq_some.mp h with ⟨stats3, hst, h⟩
  by_cases hcs : c = .strength
  · rw [if_pos hcs] at h
    rcases Option.bind_eq_some.mp h with ⟨v, hv, h⟩
    cases h
    exact ⟨by simp [GState.updInv, GState.setStats, hp],
      by simp [GState.updInv, GState.setStats, hp],
      by simp [GState.updInv, GState.setStats, hp],
      by simp [GState.updInv, GState.setStats, hp],
      by simp [GState.updInv, GState.setStats, hp],
      by simp [GState.updInv, GState.setStats, Inventory.set_capacity, hp]⟩
  · rw [if_neg hcs] at h
    cases h
    exact ⟨by simp [GState.setStats, hp], by simp [GState.setStats, hp],
      by simp [GState.setStats, hp], by simp [GState.setStats, hp],
      by simp [GState.setStats, hp], by simp [GState.setStats, hp]⟩

/-- `Player.win_stat` only redistributes stats and, for strength, the
inventory capacity: the dequeue-relevant fields survive. -/
theorem win_stat_pres {s s' : GState} (h : win_stat s = some s') : PresT s s' := by
  unfold win_stat at h
  simp only [Option.bind_eq_bind, Option.pure_def] at h
  rcases Option.bind_eq_some.mp h with ⟨⟨b, s1⟩, hb, h⟩
  have hro1 : RngOnly s s1 := oddsG_pres hb
  simp only [] at h
  cases b with
  | true =>
    rw [if_pos rfl] at h
    rcases Option.bind_eq_some.mp h with ⟨⟨c, s2⟩, hc, h⟩
    have hro2 := (choiceG_pres hc).2
    exact win_stat_tail (by rw [hro2.1, hro1.1]) h
  | false =>
    rw [if_neg (by simp)] at h
    rcases Option.bind_eq_some.mp h with ⟨⟨t1, s1b⟩, hbl, h⟩
    have hrob := belowG_pres hbl
    cases hw : walkChoose s1b.player.stats t1 with
    | none =>
      rw [hw] at h
      simp at h
    | some st =>
      rw [hw] at h
      rcases Option.bind_eq_some.mp h with ⟨⟨c, s2⟩, hsome, h⟩
      cases hsome
      exact win_stat_tail (by rw [hrob.1, hro1.1]) h

/-- `Player.win_spell` only touches the spell book. -/
theorem win_spell_pres {cfg : Config} {s s' : GState} (h : win_spell cfg s = some s') :
    PresT s s' := by
  unfold win_spell at h
  simp only [Option.bind_eq_bind, Option.pure_def] at h
  rcases Option.bind_eq_some.mp h with ⟨w, hw, h⟩
  rcases Option.bind_eq_some.mp h with ⟨⟨i, s1⟩, hb, h⟩
  have hro := below_lowG_pres hb
  rcases Option.bind_eq_some.mp h with ⟨name, hn, h⟩
  cases h
  exact ⟨by simp [hro.1], by simp [hro.1], by simp [hro.1], by simp [hro.1],
    by simp [hro.1], by simp [hro.1]⟩

/-- `Player.win_equipment` preserves the dequeue-relevant fields. -/
theorem win_equipment_presT (cfg : Config) (hwf : cfg.wf) {s s' : GState}
    (h : win_equipment cfg s = some s') : PresT s s' := by
  obtain ⟨s'', hwe, -, hlv, hinv, hts, htb, hqu, hqb, -⟩ := win_equipment_spec cfg s hwf
  rw [hwe] at h
  cases h
  exact ⟨hts, htb, hqu, hlv, hqb, by rw [hinv]; exact id⟩

/-- `Player.win_item` adds one item and preserves the rest. -/
theorem win_item_presT (cfg : Config) (hwf : cfg.wf) {s s' : GState}
    (h : win_item cfg s = some s') : PresT s s' := by
  obtain ⟨nm, s'', hwi, hinv, -, hlv, hts, htb, hqu, hqb, -⟩ := win_item_spec cfg s hwf
  rw [hwi] at h
  cases h
  exact ⟨hts, htb, hqu, hlv, hqb, fun _ => by
    rw [hinv]
    exact Inventory.add_items_ne_nil _ nm 1⟩

/-- `Player.level_up` on success: exactly one level gained, the
dequeue-relevant fields survive. -/
theorem level_up_pres {cfg : Config} {s s' : GState} (h : level_up cfg s = some s') :
    s'.player.task = s.player.task
    ∧ s'.player.task_bar = s.player.task_bar
    ∧ s'.player.queue = s.player.queue
    ∧ s'.player.quest_book = s.player.quest_book
    ∧ s'.player.level = s.player.level + 1
    ∧ (s.player.inventory.items ≠ [] → s'.player.inventory.items ≠ []) := by
  unfold level_up at h
  simp only [Option.bind_eq_bind, Option.pure_def] at h
  rcases Option.bind_eq_some.mp h with ⟨c, hc, h⟩
  rcases Option.bind_eq_some.mp h with ⟨⟨r1, s1⟩, hb1, h⟩
  have hro1 := belowG_pres hb1
  rcases Option.bind_eq_some.mp h with ⟨st1, hi1, h⟩
  rcases Option.bind_eq_some.mp h with ⟨i, hgi, h⟩
  rcases Option.bind_eq_some.mp h with ⟨⟨r2, s2⟩, hb2, h⟩
  have hro2 := belowG_pres hb2
  rcases Option.bind_eq_some.mp h with ⟨st2, hi2, h⟩
  rcases Option.bind_eq_some.mp h with ⟨s3, hws1, h⟩
  obtain ⟨ta3, tb3, tq3, tl3, tqb3, ti3⟩ := win_stat_pres hws1
  rcases Option.bind_eq_some.mp h with ⟨s4, hws2, h⟩
  obtain ⟨ta4, tb4, tq4, tl4, tqb4, ti4⟩ := win_stat_pres hws2
  rcases Option.bind_eq_some.mp h with ⟨s5, hwsp, h⟩
  obtain ⟨ta5, tb5, tq5, tl5, tqb5, ti5⟩ := win_spell_pres hwsp
  cases h
  have hp1 : s1.player = ({ s with player :=
      { s.player with level := s.player.level + 1 } } : GState).player := hro1.1
  have hs2q : (s2.setStats st2).player
      = { s.player with level := s.player.level + 1, stats := st2 } := by
    show { s2.player with stats := st2 } = _
    rw [hro2.1]
    show { s1.player with stats := st2 } = _
    rw [hp1]
  refine ⟨?_, ?_, ?_, ?_, ?_, ?_⟩
  · show s5.player.task = _
    rw [ta5, ta4, ta3, hs2q]
  · show s5.player.task_bar = _
    rw [tb5, tb4, tb3, hs2q]
  · show s5.player.queue = _
    rw [tq5, tq4, tq3, hs2q]
  · show s5.player.quest_book = _
    rw [tqb5, tqb4, tqb3, hs2q]
  · show s5.player.level = _
    rw [tl5, tl4, tl3, hs2q]
  · intro hne
    show s5.player.inventory.items ≠ []
    refine ti5 (ti4 (ti3 ?_))
    rw [hs2q]
    exact hne

theorem monsterStep_pres {cfg : Config} {level : Int} {acc : Monster × GState} {i : Nat}
    {out : Monster × GState} (h : monsterStep cfg level acc i = some out)
    (hm : acc.1 ∈ cfg.MONSTERS) : out.1 ∈ cfg.MONSTERS ∧ RngOnly acc.2 out.2 := by
  unfold monsterStep at h
  rcases Option.bind_eq_some.mp h with ⟨⟨alt, s1⟩, hch, h⟩
  obtain ⟨halt, hro⟩ := choiceG_pres hch
  simp only [] at h
  by_cases hlt : |level - alt.level| < |level - acc.1.level|
  · rw [if_pos hlt] at h
    cases h
    exact ⟨halt, hro⟩
  · rw [if_neg hlt] at h
    cases h
    exact ⟨hm, hro⟩

theorem foldlM_monster_pres {cfg : Config} {level : Int} :
    ∀ (l : List Nat) (acc out : Monster × GState),
      l.foldlM (monsterStep cfg level) acc = some out → acc.1 ∈ cfg.MONSTERS →
      out.1 ∈ cfg.MONSTERS ∧ RngOnly acc.2 out.2 := by
  intro l
  induction l with
  | nil =>
    intro acc out h hm
    rw [List.foldlM_nil] at h
    cases h
    exact ⟨hm, RngOnly.refl _⟩
  | cons a l ih =>
    intro acc out h hm
    rw [List.foldlM_cons] at h
    rcases Option.bind_eq_some.mp h with ⟨mid, hstep, h⟩
    obtain ⟨hm1, hro1⟩ := monsterStep_pres hstep hm
    obtain ⟨hm2, hro2⟩ := ih mid out h hm1
    exact ⟨hm2, hro1.trans hro2⟩

/-- `unnamed_monster` on success: the result is from the catalog and only
the generator moved. -/
theorem unnamed_monster_pres {cfg : Config} {level : Int} {iters : Nat} {s : GState}
    {m : Monster} {s' : GState} (h : unnamed_monster cfg level iters s = some (m, s')) :
    m ∈ cfg.MONSTERS ∧ RngOnly s s' := by
  unfold unnamed_monster at h
  rcases Option.bind_eq_some.mp h with ⟨⟨m0, s0⟩, hch, h⟩
  obtain ⟨hm0, hro0⟩ := choiceG_pres hch
  obtain ⟨hm, hro⟩ := foldlM_monster_pres (List.range iters) (m0, s0) (m, s') h hm0
  exact ⟨hm, hro0.trans hro⟩

theorem interesting_item_pres {cfg : Config} {s : GState} {x : String} {s' : GState}
    (h : interesting_item cfg s = some (x, s')) : RngOnly s s' := by
  unfold interesting_item at h
  simp only [Option.bind_eq_bind, Option.pure_def] at h
  rcases Option.bind_eq_some.mp h with ⟨⟨a, s1⟩, ha, h⟩
  rcases Option.bind_eq_some.mp h with ⟨⟨b, s2⟩, hb, h⟩
  cases h
  exact ((choiceG_pres ha).2).trans (choiceG_pres hb).2

theorem boring_item_pres {cfg : Config} {s : GState} {x : String} {s' : GState}
    (h : boring_item cfg s = some (x, s')) : RngOnly s s' := by
  unfold boring_item at h
  exact (choiceG_pres h).2

theorem impressive_guy_pres {cfg : Config} {s : GState} {x : String} {s' : GState}
    (h : impressive_guy cfg s = some (x, s')) : RngOnly s s' := by
  unfold impressive_guy at h
  simp only [Option.bind_eq_bind, Option.pure_def] at h
  rcases Option.bind_eq_some.mp h with ⟨⟨t, s1⟩, ht, h⟩
  have hro1 := (choiceG_pres ht).2
  rcases Option.bind_eq_some.mp h with ⟨⟨b, s2⟩, hb, h⟩
  have hro2 := belowG_pres hb
  simp only [] at h
  split at h
  · rcases Option.bind_eq_some.mp h with ⟨⟨race, s3⟩, hr, h⟩
    have hro3 := (choiceG_pres hr).2
    cases h
    exact (hro1.trans hro2).trans hro3
  · obtain ⟨nm, s3, hgen, hro3⟩ := genNameG_spec cfg s2
    rw [hgen] at h
    cases h
    exact (hro1.trans hro2).trans hro3

theorem named_monster_pres {cfg : Config} {level : Int} {s : GState} {nm : String}
    {s' : GState} (h : named_monster cfg level s = some (nm, s')) : RngOnly s s' := by
  unfold named_monster at h
  simp only [Option.bind_eq_bind, Option.pure_def] at h
  rcases Option.bind_eq_some.mp h with ⟨⟨m0, s1⟩, hum, h⟩
  have hro1 := (unnamed_monster_pres hum).2
  obtain ⟨nm2, s2, hgen, hro2⟩ := genNameG_spec cfg s1
  rw [hgen] at h
  cases h
  exact hro1.trans hro2

/-- The reward draw preserves the dequeue-relevant fields. -/
theorem questReward_pres (cfg : Config) (hwf : cfg.wf) {s s2 : GState}
    (h : questReward cfg s = some s2) : PresT s s2 := by
  unfold questReward at h
  split at h
  · split at h
    · rcases Option.bind_eq_some.mp h with ⟨⟨i, sB⟩, hbi, h⟩
      have hroB := belowG_pres hbi
      simp only [] at h
      have hstep : PresT sB s2 := by
        split at h
        · exact win_spell_pres h
        · split at h
          · exact win_equipment_presT cfg hwf h
          · split at h
            · exact win_stat_pres h
            · exact win_item_presT cfg hwf h
      exact ⟨by rw [hstep.1, hroB.1], by rw [hstep.2.1, hroB.1],
        by rw [hstep.2.2.1, hroB.1], by rw [hstep.2.2.2.1, hroB.1],
        by rw [hstep.2.2.2.2.1, hroB.1],
        fun hne => hstep.2.2.2.2.2 (by rw [hroB.1]; exact hne)⟩
    · cases h
      exact ⟨rfl, rfl, rfl, rfl, rfl, id⟩
  · cases h
    exact ⟨rfl, rfl, rfl, rfl, rfl, id⟩

/-- The caption draw: inventory untouched, act kept, and any installed
quest monster is either the previous one or from the catalog. -/
theorem questCaption_pres (cfg : Config) {s : GState} {caption : String} {s4 : GState}
    (h : questCaption cfg s = some (caption, s4)) :
    s4.player.task = s.player.task
    ∧ s4.player.task_bar = s.player.task_bar
    ∧ s4.player.queue = s.player.queue
    ∧ s4.player.level = s.player.level
    ∧ s4.player.quest_book.act = s.player.quest_book.act
    ∧ s4.player.inventory = s.player.inventory
    ∧ (∀ m, s4.player.quest_book.monster = some m →
        s.player.quest_book.monster = some m ∨ m ∈ cfg.MONSTERS) := by
  unfold questCaption at h
  simp only [Option.bind_eq_bind, Option.pure_def] at h
  rcases Option.bind_eq_some.mp h with ⟨⟨c, s3⟩, hb5, h⟩
  have hro3 := belowG_pres hb5
  simp only [] at h
  split at h
  · rcases Option.bind_eq_some.mp h with ⟨⟨mq, sq⟩, hum, h⟩
    obtain ⟨hmem, hroq⟩ := unnamed_monster_pres hum
    cases h
    have hp : sq.player = s.player := by rw [hroq.1, hro3.1]
    refine ⟨?_, ?_, ?_, ?_, ?_, ?_, ?_⟩
    · simp [GState.updQB, hp]
    · simp [GState.updQB, hp]
    · simp [GState.updQB, hp]
    · simp [GState.updQB, hp]
    · simp [GState.updQB, hp]
    · simp [GState.updQB, hp]
    · intro m hm
      simp only [GState.updQB] at hm
      right
      cases hm
      exact hmem
  · have hrest : ∃ s5 : GState, s4 = s5 ∧ s5.player = s.player := by
      split at h
      · rcases Option.bind_eq_some.mp h with ⟨⟨it, sq⟩, hii, h⟩
        cases h
        exact ⟨_, rfl, by rw [(interesting_item_pres hii).1, hro3.1]⟩
      · split at h
        · rcases Option.bind_eq_some.mp h with ⟨⟨it, sq⟩, hii, h⟩
          cases h
          exact ⟨_, rfl, by rw [(boring_item_pres hii).1, hro3.1]⟩
        · split at h
          · rcases Option.bind_eq_some.mp h with ⟨⟨it, sq⟩, hii, h⟩
            cases h
            exact ⟨_, rfl, by rw [(boring_item_pres hii).1, hro3.1]⟩
          · split at h
            · rcases Option.bind_eq_some.mp h with ⟨⟨mq, sq⟩, hum, h⟩
              cases h
              exact ⟨_, rfl, by rw [(unnamed_monster_pres hum).2.1, hro3.1]⟩
            · cases h
    obtain ⟨s5, rfl, hp⟩ := hrest
    exact ⟨by rw [hp], by rw [hp], by rw [hp], by rw [hp], by rw [hp], by rw [hp],
      fun m hm => Or.inl (by rw [hp] at hm; exact hm)⟩

/-- `Simulation.complete_quest` on success preserves the dequeue-relevant
fields, keeps the act, and installs either no quest monster or one from
the catalog (hence with a wellformed drop item). -/
theorem complete_quest_pres (cfg : Config) (hwf : cfg.wf) {s s' : GState}
    (h : complete_quest cfg s = some s') :
    s'.player.task = s.player.task
    ∧ s'.player.task_bar = s.player.task_bar
    ∧ s'.player.queue = s.player.queue
    ∧ s'.player.level = s.player.level
    ∧ s'.player.quest_book.act = s.player.quest_book.act
    ∧ (∀ m, s'.player.quest_book.monster = some m → m.item ≠ some "")
    ∧ (s.player.inventory.items ≠ [] → s'.player.inventory.items ≠ []) := by
  obtain ⟨-, -, -, -, -, -, -, -, -, -, -, -, -, -, -, -, -, hMok⟩ := id hwf
  unfold complete_quest at h
  simp only [Option.bind_eq_bind, Option.pure_def] at h
  rcases Option.bind_eq_some.mp h with ⟨⟨r0, s1⟩, hb0, h⟩
  have hro1 := below_lowG_pres hb0
  rcases Option.bind_eq_some.mp h with ⟨s2, hrew, h⟩
  have hpre2 := questReward_pres cfg hwf hrew
  rcases Option.bind_eq_some.mp h with ⟨⟨caption, s4⟩, hcap, h⟩
  have hcap4 := questCaption_pres cfg hcap
  cases h
  obtain ⟨e1, e2, e3, e4, e5, e6, e7⟩ := hcap4
  have hmid : (s2.updQB fun qb => { qb with monster := none }).player.quest_book.monster
      = none := rfl
  refine ⟨?_, ?_, ?_, ?_, ?_, ?_, ?_⟩
  · show s4.player.task = _
    rw [e1]
    show s2.player.task = _
    rw [hpre2.1]
    show s1.player.task = _
    rw [hro1.1]
  · show s4.player.task_bar = _
    rw [e2]
    show s2.player.task_bar = _
    rw [hpre2.2.1]
    show s1.player.task_bar = _
    rw [hro1.1]
  · show s4.player.queue = _
    rw [e3]
    show s2.player.queue = _
    rw [hpre2.2.2.1]
    show s1.player.queue = _
    rw [hro1.1]
  · show s4.player.level = _
    rw [e4]
    show s2.player.level = _
    rw [hpre2.2.2.2.1]
    show s1.player.level = _
    rw [hro1.1]
  · show s4.player.quest_book.act = _
    rw [e5]
    show s2.player.quest_book.act = _
    have := hpre2.2.2.2.2.1
    rw [this]
    show s1.player.quest_book.act = _
    rw [hro1.1]
  · intro m hm
    have hm4 : s4.player.quest_book.monster = some m := hm
    rcases e7 m hm4 with hleft | hmem
    · rw [hmid] at hleft
      cases hleft
    · exact hMok m hmem
  · intro hne
    show s4.player.inventory.items ≠ []
    rw [e6]
    show s2.player.inventory.items ≠ []
    refine hpre2.2.2.2.2.2 ?_
    show s1.player.inventory.items ≠ []
    rw [hro1.1]
    exact hne

/-- The invariant lives entirely in the player component. -/
theorem Inv_player_eq {s s' : GState} (hp : s'.player = s.player) (h : Inv s) : Inv s' := by
  obtain ⟨⟨a, b, c, d⟩, ⟨e, f⟩, t, ht, hdur⟩ := h
  refine ⟨⟨by rw [hp]; exact a, by rw [hp]; exact b, by rw [hp]; exact c, ?_⟩,
    ⟨?_, ?_⟩, t, by rw [hp]; exact ht, hdur⟩
  · intro m hm
    rw [hp] at hm
    exact d m hm
  · intro t' ht'
    rw [hp] at ht'
    exact e t' ht'
  · intro dd nn hs
    rw [hp] at hs
    rw [hp]
    exact f dd nn hs

/-- Transfer the invariant across an operation that preserves the task
and queue, keeps the level plausible, the act non-negative and the quest
monster wellformed, and cannot empty the inventory. -/
theorem Inv_transfer {s s' : GState}
    (htask : s'.player.task = s.player.task)
    (hqueue : s'.player.queue = s.player.queue)
    (hlvl : 1 ≤ s'.player.level)
    (hact : 0 ≤ s'.player.quest_book.act)
    (hmon : ∀ m, s'.player.quest_book.monster = some m → m.item ≠ some "")
    (hit : s.player.inventory.items ≠ [] → s'.player.inventory.items ≠ [])
    (hinv : Inv s) : Inv s' := by
  obtain ⟨⟨a, b, c, d⟩, ⟨e, f⟩, t, ht, hdur⟩ := hinv
  refine ⟨⟨hlvl, hact, by rw [hqueue]; exact c, hmon⟩,
    ⟨?_, ?_⟩, t, by rw [htask]; exact ht, hdur⟩
  · intro t' ht'
    rw [htask] at ht'
    exact e t' ht'
  · intro dd nn hsell
    rw [htask] at hsell
    exact hit (f dd nn hsell)

theorem enqueue_pres (cfg : Config) (hwf : cfg.wf) {t : Task} {sA sB : GState}
    (hinv : Inv sA) (hd : 0 < t.duration) (hm : monsterOkT t) (hn : notSell t)
    (h : enqueue cfg t sA = some sB) : Inv sB := by
  obtain ⟨sB', he, hi⟩ := enqueue_spec cfg hwf t sA hinv hd hm hn
  rw [he] at h
  cases h
  exact hi

theorem dequeue_pres (cfg : Config) (hwf : cfg.wf) {sA sB : GState}
    (hinv : Inv sA) (h : dequeue cfg sA = some sB) : Inv sB := by
  obtain ⟨sB', he, hi⟩ := dequeue_spec cfg hwf sA hinv
  rw [he] at h
  cases h
  exact hi

theorem cinematicTask_ok (nemesis : String) (sv : Int) :
    (0 : Int) < (if sv % 3 = 0 then
        Task.regular ("Locked in grim combat with " ++ nemesis) 2000
      else if sv % 3 = 1 then
        Task.regular (nemesis ++ " seems to have the upper hand") 2000
      else Task.regular ("You seem to gain the advantage over " ++ nemesis) 2000).duration
    ∧ monsterOkT (if sv % 3 = 0 then
        Task.regular ("Locked in grim combat with " ++ nemesis) 2000
      else if sv % 3 = 1 then
        Task.regular (nemesis ++ " seems to have the upper hand") 2000
      else Task.regular ("You seem to gain the advantage over " ++ nemesis) 2000)
    ∧ notSell (if sv % 3 = 0 then
        Task.regular ("Locked in grim combat with " ++ nemesis) 2000
      else if sv % 3 = 1 then
        Task.regular (nemesis ++ " seems to have the upper hand") 2000
      else Task.regular ("You seem to gain the advantage over " ++ nemesis) 2000) := by
  split_ifs <;> exact ⟨by norm_num [Task.duration], trivial, trivial⟩

/-- The boss-fight loop of `interplot_cinematic` preserves the invariant
on success. -/
theorem cinematicLoop_pres (cfg : Config) (hwf : cfg.wf) (nemesis : String) :
    ∀ (fuel : Nat) (i sVal : Int) (s s' : GState), Inv s →
      cinematicLoop cfg nemesis fuel i sVal s = some s' → Inv s' := by
  intro fuel
  induction fuel with
  | zero =>
    intro i sv s s' _ h
    cases h
  | succ fuel ih =>
    intro i sv s s' hinv h
    unfold cinematicLoop at h
    rcases Option.bind_eq_some.mp h with ⟨⟨dd, s1⟩, hb, h⟩
    have hinv1 : Inv s1 := Inv_player_eq (belowG_pres hb).1 hinv
    simp only [] at h
    split at h
    · cases h
      exact hinv1
    · rcases Option.bind_eq_some.mp h with ⟨⟨r, s2⟩, hb2, h⟩
      have hinv2 : Inv s2 := Inv_player_eq (belowG_pres hb2).1 hinv1
      rcases Option.bind_eq_some.mp h with ⟨s3, henq, h⟩
      obtain ⟨hdT, hmT, hnT⟩ := cinematicTask_ok nemesis (sv + 1 + r)
      have hinv3 : Inv s3 := enqueue_pres cfg hwf hinv2 hdT hmT hnT henq
      exact ih (i + 1) (sv + 1 + r) s3 s' hinv3 h

/-- `Simulation.interplot_cinematic` preserves the invariant on
success. -/
theorem interplot_pres (cfg : Config) (hwf : cfg.wf) {s s' : GState} (hinv : Inv s)
    (h : interplot_cinematic cfg s = some s') : Inv s' := by
  unfold interplot_cinematic at h
  rcases Option.bind_eq_some.mp h with ⟨⟨c, s1⟩, hb3, h⟩
  have hinv1 : Inv s1 := Inv_player_eq (belowG_pres hb3).1 hinv
  simp only [] at h
  split at h
  · rcases Option.bind_eq_some.mp h with ⟨sA, h1, h⟩
    have hiA := enqueue_pres cfg hwf hinv1 (by norm_num [Task.duration]) (by trivial) (by trivial) h1
    rcases Option.bind_eq_some.mp h with ⟨sB, h2, h⟩
    have hiB := enqueue_pres cfg hwf hiA (by norm_num [Task.duration]) (by trivial) (by trivial) h2
    rcases Option.bind_eq_some.mp h with ⟨sC, h3, h⟩
    have hiC := enqueue_pres cfg hwf hiB (by norm_num [Task.duration]) (by trivial) (by trivial) h3
    rcases Option.bind_eq_some.mp h with ⟨sD, h4, h⟩
    have hiD := enqueue_pres cfg hwf hiC (by norm_num [Task.duration]) (by trivial) (by trivial) h4
    exact enqueue_pres cfg hwf hiD (by norm_num [Task.duration]) (by trivial) (by trivial) h
  · split at h
    · rcases Option.bind_eq_some.mp h with ⟨sA, h1, h⟩
      have hiA := enqueue_pres cfg hwf hinv1 (by norm_num [Task.duration]) (by trivial) (by trivial) h1
      rcases Option.bind_eq_some.mp h with ⟨⟨nem, sB⟩, h2, h⟩
      have hiB : Inv sB := Inv_player_eq (named_monster_pres h2).1 hiA
      rcases Option.bind_eq_some.mp h with ⟨sC, h3, h⟩
      have hiC := enqueue_pres cfg hwf hiB (by norm_num [Task.duration]) (by trivial) (by trivial) h3
      rcases Option.bind_eq_some.mp h with ⟨⟨sv, sD⟩, h4, h⟩
      have hiD : Inv sD := Inv_player_eq (belowG_pres h4).1 hiC
      rcases Option.bind_eq_some.mp h with ⟨sE, h5, h⟩
      have hiE : Inv sE := cinematicLoop_pres cfg hwf nem _ 1 sv sD sE hiD h5
      rcases Option.bind_eq_some.mp h with ⟨sF, h6, h⟩
      have hiF := enqueue_pres cfg hwf hiE (by norm_num [Task.duration]) (by trivial) (by trivial) h6
      rcases Option.bind_eq_some.mp h with ⟨sG, h7, h⟩
      have hiG := enqueue_pres cfg hwf hiF (by norm_num [Task.duration]) (by trivial) (by trivial) h7
      exact enqueue_pres cfg hwf hiG (by norm_num [Task.duration]) (by trivial) (by trivial) h
    · split at h
      · rcases Option.bind_eq_some.mp h with ⟨⟨nem, sA⟩, h1, h⟩
        have hiA : Inv sA := Inv_player_eq (impressive_guy_pres h1).1 hinv1
        rcases Option.bind_eq_some.mp h with ⟨sB, h2, h⟩
        have hiB := enqueue_pres cfg hwf hiA (by norm_num [Task.duration]) (by trivial) (by trivial) h2
        rcases Option.bind_eq_some.mp h with ⟨sC, h3, h⟩
        have hiC := enqueue_pres cfg hwf hiB (by norm_num [Task.duration]) (by trivial) (by trivial) h3
        rcases Option.bind_eq_some.mp h with ⟨⟨bi, sD⟩, h4, h⟩
        have hiD : Inv sD := Inv_player_eq (boring_item_pres h4).1 hiC
        rcases Option.bind_eq_some.mp h with ⟨sE, h5, h⟩
        have hiE := enqueue_pres cfg hwf hiD (by norm_num [Task.duration]) (by trivial) (by trivial) h5
        rcases Option.bind_eq_some.mp h with ⟨sF, h6, h⟩
        have hiF := enqueue_pres cfg hwf hiE (by norm_num [Task.duration]) (by trivial) (by trivial) h6
        rcases Option.bind_eq_some.mp h with ⟨sG, h7, h⟩
        have hiG := enqueue_pres cfg hwf hiF (by norm_num [Task.duration]) (by trivial) (by trivial) h7
        rcases Option.bind_eq_some.mp h with ⟨sH, h8, h⟩
        have hiH := enqueue_pres cfg hwf hiG (by norm_num [Task.duration]) (by trivial) (by trivial) h8
        exact enqueue_pres cfg hwf hiH (by norm_num [Task.duration]) (by trivial) (by trivial) h
      · cases h

/-- Transfer the invariant across a change that leaves every relevant
field literally equal. -/
theorem Inv_cosmetic {s s' : GState}
    (htask : s'.player.task = s.player.task)
    (hqueue : s'.player.queue = s.player.queue)
    (hlvl : s'.player.level = s.player.level)
    (hact : s'.player.quest_book.act = s.player.quest_book.act)
    (hmon : s'.player.quest_book.monster = s.player.quest_book.monster)
    (hit : s'.player.inventory.items = s.player.inventory.items)
    (hinv : Inv s) : Inv s' := by
  refine Inv_transfer htask hqueue ?_ ?_ ?_ ?_ hinv
  · rw [hlvl]
    exact hinv.1.level_pos
  · rw [hact]
    exact hinv.1.act_nonneg
  · intro m hm
    rw [hmon] at hm
    exact hinv.1.qmon_ok m hm
  · intro hne
    rw [hit]
    exact hne

theorem expGain_pres (cfg : Config) {g : Bool} {s s' : GState} (hinv : Inv s)
    (h : expGain cfg g s = some s') : Inv s' := by
  unfold expGain at h
  split at h
  · split at h
    · obtain ⟨ht, htb, hq, hqb, hl, hi⟩ := level_up_pres h
      refine Inv_transfer ht hq ?_ ?_ ?_ hi hinv
      · rw [hl]
        have := hinv.1.level_pos
        omega
      · rw [hqb]
        exact hinv.1.act_nonneg
      · intro m hm
        rw [hqb] at hm
        exact hinv.1.qmon_ok m hm
    · cases h
      refine Inv_cosmetic ?_ ?_ ?_ ?_ ?_ ?_ hinv <;> rfl
  · cases h
    exact hinv

theorem questGain_pres (cfg : Config) (hwf : cfg.wf) {g : Bool} {s s' : GState}
    (hinv : Inv s) (h : questGain cfg g s = some s') : Inv s' := by
  unfold questGain at h
  split at h
  · split at h
    · obtain ⟨ht, htb, hq, hl, ha, hmon, hi⟩ := complete_quest_pres cfg hwf h
      refine Inv_transfer ht hq ?_ ?_ hmon hi hinv
      · rw [hl]
        exact hinv.1.level_pos
      · rw [ha]
        exact hinv.1.act_nonneg
    · cases h
      refine Inv_cosmetic ?_ ?_ ?_ ?_ ?_ ?_ hinv <;> rfl
  · cases h
    exact hinv

theorem plotGain_pres (cfg : Config) (hwf : cfg.wf) {g : Bool} {s s' : GState}
    (hinv : Inv s) (h : plotGain cfg g s = some s') : Inv s' := by
  unfold plotGain at h
  split at h
  · split at h
    · exact interplot_pres cfg hwf hinv h
    · cases h
      refine Inv_cosmetic ?_ ?_ ?_ ?_ ?_ ?_ hinv <;> rfl
  · cases h
    exact hinv

/-- `Simulation.tick` preserves the invariant on success. -/
theorem tick_pres (cfg : Config) (hwf : cfg.wf) {e : ℚ} {s s' : GState} (hinv : Inv s)
    (h : tick cfg e s = some s') : Inv s' := by
  unfold tick at h
  split at h
  · cases h
    refine Inv_cosmetic ?_ ?_ ?_ ?_ ?_ ?_ hinv <;> rfl
  · rcases Option.bind_eq_some.mp h with ⟨s1, h1, h⟩
    have hi1 : Inv s1 := expGain_pres cfg hinv h1
    rcases Option.bind_eq_some.mp h with ⟨s2, h2, h⟩
    have hi2 : Inv s2 := questGain_pres cfg hwf hi1 h2
    rcases Option.bind_eq_some.mp h with ⟨s3, h3, h⟩
    have hi3 : Inv s3 := plotGain_pres cfg hwf hi2 h3
    exact dequeue_pres cfg hwf hi3 h

/-- A fresh game satisfies the invariant. -/
theorem newGame_Inv {cfg : Config} {name : String} {race : Race} {class_ : Class}
    {stats : Stats} {g : Rng} {s : GState}
    (h : newGame cfg name race class_ stats g = some s) : Inv s := by
  unfold newGame at h
  simp only [Option.bind_eq_bind, Option.pure_def] at h
  rcases Option.bind_eq_some.mp h with ⟨str, hst, h⟩
  cases h
  refine ⟨⟨?_, ?_, ?_, ?_⟩, ⟨?_, ?_⟩, .regular "Loading" 2000, rfl,
    by norm_num [Task.duration]⟩
  · norm_num [set_task]
  · norm_num [set_task, QuestBook.make]
  · intro t ht
    simp only [set_task_queue, List.mem_cons] at ht
    rcases ht with rfl | rfl | rfl | rfl | rfl | hX
    · exact ⟨by norm_num [Task.duration], trivial, trivial⟩
    · exact ⟨by norm_num [Task.duration], trivial, trivial⟩
    · exact ⟨by norm_num [Task.duration], trivial, trivial⟩
    · exact ⟨by norm_num [Task.duration], trivial, trivial⟩
    · exact ⟨by norm_num [Task.duration], trivial, trivial⟩
    · exact absurd hX (List.not_mem_nil t)
  · intro m hm
    cases hm
  · intro t ht
    cases ht
    trivial
  · intro dd nn hsell
    cases hsell

/-- Every reachable state satisfies the invariant. -/
theorem Reachable_Inv {cfg : Config} {s : GState} (hwf : cfg.wf) (h : Reachable cfg s) :
    Inv s := by
  induction h with
  | init name race class_ stats g s hng => exact newGame_Inv hng
  | tick s e s' hreach htick ih => exact tick_pres cfg hwf ih htick

/-- C2, dequeue liveness: from every reachable engine state (under a
wellformed content configuration), `Simulation.dequeue()` terminates
successfully, and on return the player has an active task whose duration
is strictly greater than 0 — the engine never leaves the player
taskless. -/
theorem C2_dequeue_liveness (cfg : Config) (s : GState) (hwf : cfg.wf)
    (hreach : Reachable cfg s) :
    ∃ s', dequeue cfg s = some s'
      ∧ ∃ t, s'.player.task = some t ∧ 0 < t.duration := by
  obtain ⟨s', hd, -, -, t, ht, hdur⟩ := dequeue_spec cfg hwf s (Reachable_Inv hwf hreach)
  exact ⟨s', hd, t, ht, hdur⟩

/-- The state created by `Player.__init__` for the concrete tiny config
and an all-threes stat block. -/
def exampleStart : GState :=
  set_task
    ⟨{ name := "p"
       race := ⟨"Elf"⟩
       class_ := ⟨"Bard"⟩
       stats := examplePlayerA.stats
       exp_bar := Bar.make ((level_up_time 1 : Int) : ℚ)
       level := 1
       quest_book := QuestBook.make
       inventory := Inventory.make ((10 + 3 : Int) : ℚ)
       equipment := Equipment.make
       spell_book := []
       task_bar := Bar.make 0
       task := none
       queue :=
         [.regular "Experiencing an enigmatic and foreboding night vision" 10000,
          .regular "Much is revealed about that wise old bastard you'd underestimated" 6000,
          .regular "A shocking series of events leaves you alone and bewildered, but resolute"
            6000,
          .regular
            "Drawing upon an unrealized reserve of determination, you set out on a long and dangerous journey"
            4000,
          .plot ("Loading " ++ cfg0.act_name (QuestBook.make.act + 1)) 2000] },
     zeroRng, 0, [], 0⟩
    (.regular "Loading" 2000)

/-- C2 witness: the liveness theorem applied to the concrete freshly
created game. -/
theorem C2_dequeue_liveness_witness :
    cfg0.wf
    ∧ Reachable cfg0 exampleStart
    ∧ ∃ s', dequeue cfg0 exampleStart = some s'
        ∧ ∃ t, s'.player.task = some t ∧ 0 < t.duration := by
  have hwf : cfg0.wf := by
    refine ⟨?_, ?_, ?_, ?_, ?_, ?_, ?_, ?_, ?_, ?_, ?_, ?_, ?_, ?_, ?_, ?_, ?_, ?_⟩ <;>
      decide
  have hreach : Reachable cfg0 exampleStart :=
    Reachable.init "p" ⟨"Elf"⟩ ⟨"Bard"⟩ examplePlayerA.stats zeroRng exampleStart rfl
  exact ⟨hwf, hreach, C2_dequeue_liveness cfg0 exampleStart hwf hreach⟩

end PQ
